import Mathlib

/-!
# Balance-file validator (`src/script.js`)

Shallow embedding of `validateFile` and of the JavaScript built-ins it calls
(`String.prototype.split`, `trim`, `parseInt`, `parseFloat`, `isNaN`,
IEEE-754 binary64 arithmetic, `Number.prototype.toFixed`), followed by the
properties of the validation pipeline.

* A JavaScript string is modelled as a list of characters.  `file.text()`
  always yields well-formed Unicode, and a file name that passes `nameRegex`
  is pure ASCII, so every index used by the code (`substring(0, 5)`) counts
  the same positions in both representations.
* A Number is an explicit binary64 value: `NaN`, an infinity, or a signed
  mantissa and exponent.  Sums are exact sums rounded to nearest, ties to
  even; `parseInt` and `parseFloat` round the exact value of the text they
  read in the same way.
* `displayError(message, details)` and `displaySuccess(message)` become the
  values of `Outcome`; a failure carries the values its message interpolates
  instead of the rendered sentence.
-/

namespace Taller5

/-- A JavaScript string, as the list of its characters. -/
abbrev Str := List Char

/-! ## IEEE-754 binary64 numbers -/

/-- A JavaScript Number.  `fin neg m e` denotes `(-1)^neg * m * 2^e`, kept in
canonical form: `m < 2^53`, `-1074 ≤ e ≤ 971`, and `2^52 ≤ m` unless
`e = -1074` (subnormals and the two zeros). -/
inductive F64 where
  | nan : F64
  | inf (neg : Bool) : F64
  | fin (neg : Bool) (m : Nat) (e : Int) : F64
  deriving DecidableEq, Repr

/-- Number of binary digits of `n`, by repeated halving (`fuel` bounds the
number of steps and is taken to be `n` itself). -/
def bitLenAux : Nat → Nat → Nat
  | 0, _ => 0
  | fuel + 1, n => if n = 0 then 0 else bitLenAux fuel (n / 2) + 1

/-- Number of binary digits of `n` (`0` for `n = 0`). -/
def bitLen (n : Nat) : Nat := bitLenAux n n

/-- The integer `⌊log2 (p / q)⌋` for positive `p` and `q`. -/
def ilog2Ratio (p q : Nat) : Int :=
  let d : Int := (bitLen p : Int) - (bitLen q : Int)
  if q * 2 ^ d.toNat ≤ p * 2 ^ (-d).toNat then d else d - 1

/-- Round the non-negative rational `p / q` (`q > 0`) to the nearest binary64
value, ties to even, with the sign `neg` attached; overflow gives an
infinity. -/
def roundPos (neg : Bool) (p q : Nat) : F64 :=
  if p = 0 then .fin neg 0 (-1074)
  else
    let e : Int := max (ilog2Ratio p q - 52) (-1074)
    let num := p * 2 ^ (-e).toNat
    let den := q * 2 ^ e.toNat
    let m0 := num / den
    let r := num % den
    let m := if den < 2 * r ∨ (2 * r = den ∧ m0 % 2 = 1) then m0 + 1 else m0
    let m1 := if m = 2 ^ 53 then 2 ^ 52 else m
    let e1 := if m = 2 ^ 53 then e + 1 else e
    if 971 < e1 then .inf neg else .fin neg m1 e1

namespace F64

/-- The Number value of a natural number (`𝔽(n)`). -/
def ofNat (n : Nat) : F64 := roundPos false n 1

/-- JavaScript `isNaN` on a Number. -/
def isNaN : F64 → Bool
  | .nan => true
  | _ => false

/-- Unary minus. -/
def neg : F64 → F64
  | .nan => .nan
  | .inf s => .inf (!s)
  | .fin s m e => .fin (!s) m e

/-- JavaScript `Math.abs`. -/
def abs : F64 → F64
  | .nan => .nan
  | .inf _ => .inf false
  | .fin _ m e => .fin false m e

/-- The signed integer `± m * 2^k`. -/
def scaled (s : Bool) (m : Nat) (k : Int) : Int :=
  if s then -((m * 2 ^ k.toNat : Nat) : Int) else ((m * 2 ^ k.toNat : Nat) : Int)

/-- JavaScript `+` on Numbers: the exact sum, rounded to nearest-even. -/
def add : F64 → F64 → F64
  | .nan, _ => .nan
  | _, .nan => .nan
  | .inf a, .inf b => if a = b then .inf a else .nan
  | .inf a, .fin _ _ _ => .inf a
  | .fin _ _ _, .inf b => .inf b
  | .fin sa ma ea, .fin sb mb eb =>
    let e := min ea eb
    let t : Int := scaled sa ma (ea - e) + scaled sb mb (eb - e)
    if t = 0 then .fin (sa && sb) 0 (-1074)
    else roundPos (decide (t < 0)) (t.natAbs * 2 ^ e.toNat) (2 ^ (-e).toNat)

/-- JavaScript binary `-` on Numbers. -/
def sub (a b : F64) : F64 := add a (neg b)

/-- JavaScript `<` on Numbers (false as soon as one side is `NaN`). -/
def lt : F64 → F64 → Bool
  | .nan, _ => false
  | _, .nan => false
  | .inf a, .inf b => a && !b
  | .inf a, .fin _ _ _ => a
  | .fin _ _ _, .inf b => !b
  | .fin sa ma ea, .fin sb mb eb =>
    let e := min ea eb
    decide (scaled sa ma (ea - e) < scaled sb mb (eb - e))

/-- JavaScript `>` on Numbers. -/
def gt (a b : F64) : Bool := lt b a

/-- JavaScript `===` on Numbers: `NaN` equals nothing, `+0` equals `-0`. -/
def eq : F64 → F64 → Bool
  | .nan, _ => false
  | _, .nan => false
  | .inf a, .inf b => a == b
  | .fin sa ma ea, .fin sb mb eb => (ma == 0 && mb == 0) || (sa == sb && ma == mb && ea == eb)
  | _, _ => false

/-- JavaScript `<=` on Numbers. -/
def le (a b : F64) : Bool := lt a b || eq a b

/-- JavaScript `>=` on Numbers. -/
def ge (a b : F64) : Bool := le b a

end F64

/-! ## Strings -/

/-- The code points that `trim`, `parseInt` and `parseFloat` strip: ECMAScript
`WhiteSpace` (TAB, VT, FF, SP, NBSP, ZWNBSP and the category `Zs`) and
`LineTerminator` (LF, CR, LS, PS). -/
def isStrWhiteSpaceChar (c : Char) : Bool :=
  let n := c.toNat
  n = 0x09 || n = 0x0A || n = 0x0B || n = 0x0C || n = 0x0D || n = 0x20 || n = 0xA0
    || n = 0x1680 || (0x2000 ≤ n && n ≤ 0x200A) || n = 0x2028 || n = 0x2029
    || n = 0x202F || n = 0x205F || n = 0x3000 || n = 0xFEFF

/-- JavaScript `String.prototype.trim`. -/
def trim (s : Str) : Str :=
  ((s.dropWhile isStrWhiteSpaceChar).reverse.dropWhile isStrWhiteSpaceChar).reverse

/-- The regular-expression split `fileContent.split(/\r?\n/)`: a line ends at
`\n` or at `\r\n` (a `\r` right before `\n` belongs to the separator and is
dropped); a `\r` not followed by `\n` stays in its line. -/
def splitLines : Str → List Str
  | [] => [[]]
  | c :: cs =>
    if c = '\n' then [] :: splitLines cs
    else if c = '\r' ∧ cs.head? = some '\n' then splitLines cs
    else
      match splitLines cs with
      | [] => [[c]]
      | l :: ls => (c :: l) :: ls

/-- The string split `s.split('\t')`. -/
def splitTab : Str → List Str
  | [] => [[]]
  | c :: cs =>
    if c = '\t' then [] :: splitTab cs
    else
      match splitTab cs with
      | [] => [[c]]
      | l :: ls => (c :: l) :: ls

/-- Value of a string of decimal digits. -/
def digitsVal (ds : Str) : Nat :=
  ds.foldl (fun acc c => 10 * acc + (c.toNat - 48)) 0

/-! ## `parseInt` and `parseFloat` -/

/-- The sign and the rest of a numeric string after an optional `+` or `-`. -/
def splitSign : Str → Bool × Str
  | '-' :: u => (true, u)
  | '+' :: u => (false, u)
  | u => (false, u)

/-- The mathematical integer that `parseInt(s, 10)` reads: the sign and the
value of the longest run of decimal digits after leading white space and an
optional sign; `none` when that run is empty. -/
def mathInt (s : Str) : Option (Bool × Nat) :=
  let su := splitSign (s.dropWhile isStrWhiteSpaceChar)
  let z := su.2.takeWhile Char.isDigit
  if z = [] then none else some (su.1, digitsVal z)

/-- JavaScript `parseInt(s, 10)`: `NaN` without a leading integer, else the
Number value of the integer read (`-0` for a negative zero). -/
def parseInt (s : Str) : F64 :=
  match mathInt s with
  | none => .nan
  | some (sg, v) => roundPos sg v 1

/-- The exponent part `e[+-]?digits` at the head of `s`, `0` when absent. -/
def exponentPart : Str → Int
  | [] => 0
  | c :: r =>
    if c = 'e' ∨ c = 'E' then
      let su := splitSign r
      let ds := su.2.takeWhile Char.isDigit
      if ds = [] then 0 else if su.1 then -(digitsVal ds : Int) else (digitsVal ds : Int)
    else 0

/-- What `parseFloat` reads: `Infinity`, or the decimal `d * 10^k`, with a
sign. -/
inductive Literal where
  | infinity (neg : Bool)
  | decimal (neg : Bool) (d : Nat) (k : Int)
  deriving DecidableEq, Repr

/-- The longest prefix of `s`, after leading white space, that is a
`StrDecimalLiteral`: `Infinity`, `digits[.digits][exp]` or `.digits[exp]`,
optionally signed; `none` when there is none. -/
def strDecimalLiteral (s : Str) : Option Literal :=
  let su := splitSign (s.dropWhile isStrWhiteSpaceChar)
  let u := su.2
  if "Infinity".toList.isPrefixOf u then some (.infinity su.1)
  else
    let ip := u.takeWhile Char.isDigit
    let r1 := u.dropWhile Char.isDigit
    let hasDot := r1.head? = some '.'
    let fp := if hasDot then (r1.drop 1).takeWhile Char.isDigit else []
    let r2 := if hasDot then (r1.drop 1).dropWhile Char.isDigit else r1
    if ip = [] ∧ fp = [] then none
    else some (.decimal su.1 (digitsVal (ip ++ fp)) (exponentPart r2 - (fp.length : Int)))

/-- JavaScript `parseFloat(s)`: `NaN` when `s` starts with no literal, else
the Number nearest to the value of the literal. -/
def parseFloat (s : Str) : F64 :=
  match strDecimalLiteral s with
  | none => .nan
  | some (.infinity sg) => .inf sg
  | some (.decimal sg d k) => roundPos sg (d * 10 ^ k.toNat) (10 ^ (-k).toNat)

/-! ## `Number.prototype.toFixed(2)` -/

/-- Decimal digits of `n`, most significant first, pushed in front of `acc`
(`fuel` bounds the number of steps). -/
def decDigitsAux : Nat → Nat → Str → Str
  | 0, _, acc => acc
  | fuel + 1, n, acc =>
    if n < 10 then Char.ofNat (48 + n) :: acc
    else decDigitsAux fuel (n / 10) (Char.ofNat (48 + n % 10) :: acc)

/-- Decimal representation of a natural number. -/
def decDigits (n : Nat) : Str := decDigitsAux (n + 1) n []

/-- The integer `s * 10^(n-k)` with the fewest significant digits `k` that
still rounds to the same Number as the integer `X` (the closest one, the even
one on a tie): the digits `Number::toString` prints. -/
def shortestDecimal (X : Nat) : Nat :=
  let x := roundPos false X 1
  let n0 := (decDigits X).length
  let cands := (List.range 17).filterMap fun i =>
    let p := 10 ^ (n0 - (i + 1))
    let lo := X / p * p
    let hi := (X / p + 1) * p
    let okLo := roundPos false lo 1 = x
    let okHi := roundPos false hi 1 = x
    if okLo ∧ okHi then
      (if X - lo < hi - X ∨ (X - lo = hi - X ∧ X / p % 2 = 0) then some lo else some hi)
    else if okLo then some lo
    else if okHi then some hi
    else none
  cands.headD X

/-- The text of `Number::toString` for an integral Number of value
`X ≥ 10^21`: exponential form `d[.ddd]e+N`. -/
def bigToString (X : Nat) : Str :=
  let ds := decDigits (shortestDecimal X)
  let sig := (ds.reverse.dropWhile (fun c => c = '0')).reverse
  let ex := decDigits (ds.length - 1)
  if sig.length ≤ 1 then sig ++ 'e' :: '+' :: ex
  else sig.take 1 ++ '.' :: sig.drop 1 ++ 'e' :: '+' :: ex

/-- JavaScript `x.toFixed(2)`: `NaN` and the infinities print by name, a
magnitude of `10^21` or more prints as `Number::toString` does, and any other
value prints the integer nearest to `100 * x` (the larger on a tie) with a
point before its last two digits, padded with zeros to three digits. -/
def F64.toFixed2 : F64 → Str
  | .nan => "NaN".toList
  | .inf s => (if s then ['-'] else []) ++ "Infinity".toList
  | .fin s m e =>
    let sgn : Str := if s ∧ m ≠ 0 then ['-'] else []
    if 0 ≤ e ∧ 10 ^ 21 ≤ m * 2 ^ e.toNat then sgn ++ bigToString (m * 2 ^ e.toNat)
    else
      let den := 2 ^ (-e).toNat
      let n := (2 * (100 * (m * 2 ^ e.toNat)) + den) / (2 * den)
      let ds := decDigits n
      let ds := if ds.length ≤ 2 then List.replicate (3 - ds.length) '0' ++ ds else ds
      sgn ++ (ds.take (ds.length - 2) ++ '.' :: ds.drop (ds.length - 2))

/-! ## The validation pipeline -/

/-- The failures `validateFile` reports through `displayError`, each with the
values its message interpolates; only the last carries a detail map. -/
inductive Failure where
  | nameFormatInvalid
  | trailingBlankLine
  | emptyOrMissingControlLine
  | controlFieldCountMismatch (found : Nat)
  | controlCodeMismatch (controlCode expectedCode : Str)
  | dateFormatInvalid (cutOffDate : Str)
  | nonNumericDeclaredRows (declaredRowsStr : Str)
  | nonNumericDeclaredTotal (declaredTotalStr : Str)
  | rowCountMismatch (useful : Nat) (declaredRows : F64)
  | missingTabSeparator (lineNumber : Nat)
  | insufficientFieldsInLine (lineNumber : Nat)
  | nonNumericLineFields (lineNumber : Nat)
  | totalReconciliationMismatch (details : List (String × Str))
  deriving DecidableEq, Repr

/-- What `validateFile` displays: `displaySuccess` or `displayError`. -/
inductive Outcome where
  | success
  | failure (f : Failure)
  deriving DecidableEq, Repr

deriving instance DecidableEq for Except

/-- The test `nameRegex.test(fileName)` for
`/^TVWXYB([1-4])\d{8}\.txt$/`. -/
def nameRegex (fileName : Str) : Bool :=
  fileName.length = 19 && fileName.take 6 = "TVWXYB".toList
    && ((fileName.drop 6).take 1).all (fun c => '1' ≤ c && c ≤ '4')
    && ((fileName.drop 7).take 8).all Char.isDigit
    && fileName.drop 15 = ".txt".toList

/-- The test `dateRegex.test(cutOffDate)` for `/^\d{2}\/\d{2}\/\d{4}$/`. -/
def dateRegex (cutOffDate : Str) : Bool :=
  cutOffDate.length = 10 && (cutOffDate.take 2).all Char.isDigit
    && (cutOffDate.drop 2).take 1 = ['/'] && ((cutOffDate.drop 3).take 2).all Char.isDigit
    && (cutOffDate.drop 5).take 1 = ['/'] && (cutOffDate.drop 6).all Char.isDigit

/-- The object `groupSubtotals`, with own properties `1` to `5`. -/
structure GroupSubtotals where
  g1 : F64
  g2 : F64
  g3 : F64
  g4 : F64
  g5 : F64
  deriving DecidableEq, Repr

/-- The test `groupSubtotals.hasOwnProperty(groupCode)`: the key of a Number
is its decimal text, and the object owns exactly the keys `"1"` to `"5"`. -/
def GroupSubtotals.hasOwnProperty (groupCode : F64) : Bool :=
  groupCode = F64.ofNat 1 || groupCode = F64.ofNat 2 || groupCode = F64.ofNat 3
    || groupCode = F64.ofNat 4 || groupCode = F64.ofNat 5

/-- The update `groupSubtotals[groupCode] += subtotal` for an own key. -/
def GroupSubtotals.addTo (gs : GroupSubtotals) (groupCode subtotal : F64) : GroupSubtotals :=
  if groupCode = F64.ofNat 1 then { gs with g1 := gs.g1.add subtotal }
  else if groupCode = F64.ofNat 2 then { gs with g2 := gs.g2.add subtotal }
  else if groupCode = F64.ofNat 3 then { gs with g3 := gs.g3.add subtotal }
  else if groupCode = F64.ofNat 4 then { gs with g4 := gs.g4.add subtotal }
  else if groupCode = F64.ofNat 5 then { gs with g5 := gs.g5.add subtotal }
  else gs

/-- The test `groupCode >= 1 && groupCode <= 5`. -/
def inMainGroup (groupCode : F64) : Bool :=
  groupCode.ge (F64.ofNat 1) && groupCode.le (F64.ofNat 5)

/-- The numeric literal `0.001`. -/
def tolerance : F64 := roundPos false 1 1000

/-- The body of the loop over `usefulLines`, for the line at index `i`: the
failure it displays, else the accumulators `calculatedTotal` and
`groupSubtotals` after the line. -/
def processLine (line : Str) (i : Nat) (calculatedTotal : F64)
    (groupSubtotals : GroupSubtotals) : Except Failure (F64 × GroupSubtotals) :=
  if '\t' ∉ line then .error (.missingTabSeparator (i + 2))
  else
    let parts := splitTab line
    if parts.length < 2 then .error (.insufficientFieldsInLine (i + 2))
    else
      let groupCode := parseInt (parts.getD 0 [])
      let subtotal := parseFloat (parts.getD 1 [])
      if groupCode.isNaN || subtotal.isNaN then .error (.nonNumericLineFields (i + 2))
      else if inMainGroup groupCode then
        .ok (calculatedTotal.add subtotal,
          if GroupSubtotals.hasOwnProperty groupCode
            then groupSubtotals.addTo groupCode subtotal else groupSubtotals)
      else .ok (calculatedTotal, groupSubtotals)

/-- The loop over `usefulLines` from index `i` on: the first offending line
ends it. -/
def processLines : List Str → Nat → F64 → GroupSubtotals →
    Except Failure (F64 × GroupSubtotals)
  | [], _, calculatedTotal, groupSubtotals => .ok (calculatedTotal, groupSubtotals)
  | line :: rest, i, calculatedTotal, groupSubtotals =>
    match processLine line i calculatedTotal groupSubtotals with
    | .error f => .error f
    | .ok (total, subtotals) => processLines rest (i + 1) total subtotals

/-- The detail map of the reconciliation failure. -/
def details (declaredTotal calculatedTotal : F64) (gs : GroupSubtotals) : List (String × Str) :=
  [("Total Declarado", declaredTotal.toFixed2),
   ("Suma Calculada", calculatedTotal.toFixed2),
   ("Diferencia", (calculatedTotal.sub declaredTotal).toFixed2),
   ("Subtotal Grupo 1", gs.g1.toFixed2),
   ("Subtotal Grupo 2", gs.g2.toFixed2),
   ("Subtotal Grupo 3", gs.g3.toFixed2),
   ("Subtotal Grupo 4", gs.g4.toFixed2),
   ("Subtotal Grupo 5", gs.g5.toFixed2)]

/-- The lines after the control line that are not blank after `trim`. -/
def usefulLines (lines : List Str) : List Str :=
  (lines.drop 1).filter (fun line => trim line ≠ [])

/-- The constant `expectedCode = fileName.substring(0, 5)`. -/
def expectedCode (fileName : Str) : Str := fileName.take 5

/-- Lines 34 to 132 of `validateFile`, every check before the comparison of
the totals: the failure displayed by the first check that fails, else
`declaredTotal`, `calculatedTotal` and `groupSubtotals` as they stand after
the loop. -/
def checksBeforeReconciliation (fileName fileContent : Str) :
    Except Failure (F64 × F64 × GroupSubtotals) :=
  if ¬ nameRegex fileName then .error .nameFormatInvalid
  else
    let lines := splitLines fileContent
    if 1 < lines.length ∧ lines.getLast? = some [] then .error .trailingBlankLine
    else
      let controlLine := lines.headD []
      if controlLine = [] then .error .emptyOrMissingControlLine
      else
        let controlValues := splitTab controlLine
        if controlValues.length ≠ 4 then
          .error (.controlFieldCountMismatch controlValues.length)
        else
          let controlCode := controlValues.getD 0 []
          let cutOffDate := controlValues.getD 1 []
          let declaredRowsStr := controlValues.getD 2 []
          let declaredTotalStr := controlValues.getD 3 []
          if controlCode ≠ expectedCode fileName then
            .error (.controlCodeMismatch controlCode (expectedCode fileName))
          else if ¬ dateRegex cutOffDate then .error (.dateFormatInvalid cutOffDate)
          else
            let declaredRows := parseInt declaredRowsStr
            let declaredTotal := parseFloat declaredTotalStr
            if declaredRows.isNaN then .error (.nonNumericDeclaredRows declaredRowsStr)
            else if declaredTotal.isNaN then
              .error (.nonNumericDeclaredTotal declaredTotalStr)
            else
              let useful := usefulLines lines
              if ¬ (F64.ofNat useful.length).eq declaredRows then
                .error (.rowCountMismatch useful.length declaredRows)
              else
                match processLines useful 0 (F64.ofNat 0) ⟨F64.ofNat 0, F64.ofNat 0,
                    F64.ofNat 0, F64.ofNat 0, F64.ofNat 0⟩ with
                | .error f => .error f
                | .ok (calculatedTotal, groupSubtotals) =>
                  .ok (declaredTotal, calculatedTotal, groupSubtotals)

/-- Lines 134 to 151 of `validateFile`: the comparison of the totals. -/
def reconcile (declaredTotal calculatedTotal : F64) (groupSubtotals : GroupSubtotals) :
    Outcome :=
  if ((calculatedTotal.sub declaredTotal).abs).gt tolerance then
    .failure (.totalReconciliationMismatch
      (details declaredTotal calculatedTotal groupSubtotals))
  else .success

/-- The function `validateFile` of `src/script.js`, as a function of the file
name and of the text of the file: the first failing check, else the comparison
of the totals. -/
def validateFile (fileName fileContent : Str) : Outcome :=
  match checksBeforeReconciliation fileName fileContent with
  | .error f => .failure f
  | .ok (declaredTotal, calculatedTotal, groupSubtotals) =>
    reconcile declaredTotal calculatedTotal groupSubtotals

/-! ## Vocabulary of the specification -/

/-- The file-name grammar `TVWXYB{1|2|3|4}{8 digits}.txt`, with the balance
code `z`. -/
def NamePattern (z : Char) (s : Str) : Prop :=
  ∃ ds : Str, z ∈ ['1', '2', '3', '4'] ∧ ds.length = 8 ∧ (∀ d ∈ ds, d.isDigit = true) ∧
    s = "TVWXYB".toList ++ z :: ds ++ ".txt".toList

/-- The content ends with a line break (`\n`, alone or after `\r`). -/
def EndsWithLineBreak (content : Str) : Prop := content.getLast? = some '\n'

/-- A non-empty string of decimal digits. -/
def IsDigits (s : Str) : Prop := s ≠ [] ∧ ∀ c ∈ s, c.isDigit = true

/-- A decimal integer: digits, with an optional minus sign. -/
def IsDecimalInt (s : Str) : Prop := ∃ ds, IsDigits ds ∧ (s = ds ∨ s = '-' :: ds)

/-- A decimal number: a decimal integer, optionally followed by a point and
digits. -/
def IsDecimalNumber (s : Str) : Prop :=
  ∃ ip, IsDecimalInt ip ∧ (s = ip ∨ ∃ fp, IsDigits fp ∧ s = ip ++ '.' :: fp)

/-- The characters of a decimal number: digits, `-` and `.`. -/
def IsNumberChar (c : Char) : Prop := c.isDigit = true ∨ c = '-' ∨ c = '.'

/-- The signed integer that `parseInt` reads, before it is rounded to a
Number. -/
def exactInt (s : Str) : Option Int :=
  (mathInt s).map fun p => if p.1 then -(p.2 : Int) else (p.2 : Int)

/-- The exact rational value of the decimal literal that `parseFloat` reads,
before it is rounded to a Number (`0` when there is none). -/
def exactValue (s : Str) : ℚ :=
  match strDecimalLiteral s with
  | some (.decimal sg d k) =>
    (if sg then -1 else 1) * ((d * 10 ^ k.toNat : Nat) : ℚ) / ((10 ^ (-k).toNat : Nat) : ℚ)
  | _ => 0

/-- The lines of a file joined by `\n`, with none after the last. -/
def joinLines : List Str → Str
  | [] => []
  | [l] => l
  | l :: ls => l ++ '\n' :: joinLines ls

/-- The start of a control line, up to and including the tab after the
declared row count: `code\tdate\trows\t`. -/
def controlPrefix (code date rows : Str) : Str :=
  code ++ '\t' :: (date ++ '\t' :: (rows ++ ['\t']))

/-- A data line `group\tamount`. -/
def dataLine (row : Str × Str) : Str := row.1 ++ '\t' :: row.2

/-- The text of a file: the control line `code\tdate\trows\ttotal` followed by
the data lines of `rows`, joined by `\n`. -/
def fileText (code date declaredRows total : Str) (rows : List (Str × Str)) : Str :=
  joinLines ((controlPrefix code date declaredRows ++ total) :: rows.map dataLine)

/-- The running sum the loop computes over data rows: the amounts of the rows
whose group code passes `inMainGroup`, added in file order from `acc`. -/
def floatSum (acc : F64) (rows : List (Str × Str)) : F64 :=
  rows.foldl (fun t row => if inMainGroup (parseInt row.1) then t.add (parseFloat row.2) else t)
    acc

/-- The exact sum of the amounts of the rows whose group is in `1..5`. -/
def exactSum (rows : List (Str × Str)) : ℚ :=
  ((rows.filter fun row =>
    match exactInt row.1 with
    | some v => decide (1 ≤ v ∧ v ≤ 5)
    | none => false).map fun row => exactValue row.2).sum

/-- The text `-?digits.dd`: a number printed with two decimal places. -/
def isTwoDecimals (s : Str) : Bool :=
  let body := if s.head? = some '-' then s.drop 1 else s
  let ip := body.take (body.length - 3)
  let fr := body.drop (body.length - 3)
  !ip.isEmpty && ip.all Char.isDigit && fr.length = 3 && fr.head? = some '.'
    && (fr.drop 1).all Char.isDigit

/-- A finite Number of magnitude below `10^21`. -/
def F64.isBelow1e21 : F64 → Bool
  | .fin _ m e => !(decide (0 ≤ e) && decide (10 ^ 21 ≤ m * 2 ^ e.toNat))
  | _ => false

/-- A position between two lines of a text: the end of the text, or just
before a line break. -/
def AtLineBreak (post : Str) : Prop :=
  post = [] ∨ ∃ q, post = '\n' :: q ∨ post = '\r' :: '\n' :: q

/-- The checks of `checksBeforeReconciliation` on a file whose control line
starts with `code\tdate\trows\t`, in terms of these three fields, of the
remaining fields `more` of the control line and of the lines `rest` after the
control line. -/
def checksOfParts (fileName code date rows : Str) (more rest : List Str) :
    Except Failure (F64 × F64 × GroupSubtotals) :=
  if ¬ nameRegex fileName then .error .nameFormatInvalid
  else if rest.getLast? = some [] then .error .trailingBlankLine
  else if 3 + more.length ≠ 4 then .error (.controlFieldCountMismatch (3 + more.length))
  else if code ≠ expectedCode fileName then
    .error (.controlCodeMismatch code (expectedCode fileName))
  else if ¬ dateRegex date then .error (.dateFormatInvalid date)
  else if (parseInt rows).isNaN then .error (.nonNumericDeclaredRows rows)
  else if (parseFloat (more.getD 0 [])).isNaN then
    .error (.nonNumericDeclaredTotal (more.getD 0 []))
  else if ¬ (F64.ofNat (rest.filter fun line => trim line ≠ []).length).eq (parseInt rows) then
    .error (.rowCountMismatch (rest.filter fun line => trim line ≠ []).length (parseInt rows))
  else
    match processLines (rest.filter fun line => trim line ≠ []) 0 (F64.ofNat 0)
        ⟨F64.ofNat 0, F64.ofNat 0, F64.ofNat 0, F64.ofNat 0, F64.ofNat 0⟩ with
    | .error f => .error f
    | .ok (calculatedTotal, groupSubtotals) =>
      .ok (parseFloat (more.getD 0 []), calculatedTotal, groupSubtotals)

/-! ## Further vocabulary -/

/-- The second argument that `validateFile` passes to `displayError`: the
detail map, when the call has one. -/
def Failure.detailMap : Failure → Option (List (String × Str))
  | .totalReconciliationMismatch details => some details
  | _ => none

/-- The date grammar `DD/MM/YYYY`: two digits, a slash, two digits, a slash,
four digits. -/
def DatePattern (s : Str) : Prop :=
  ∃ d1 d2 m1 m2 y1 y2 y3 y4 : Char,
    (d1.isDigit = true ∧ d2.isDigit = true ∧ m1.isDigit = true ∧ m2.isDigit = true ∧
      y1.isDigit = true ∧ y2.isDigit = true ∧ y3.isDigit = true ∧ y4.isDigit = true) ∧
    s = [d1, d2, '/', m1, m2, '/', y1, y2, y3, y4]

/-- The text `content` with some of its `\n` replaced by `\r\n`: the one
numbered `i` (from `start`, in order) is replaced when `choose i` holds. -/
def replaceLF (choose : Nat → Bool) : Nat → Str → Str
  | _, [] => []
  | i, c :: cs =>
    if c = '\n' then
      if choose i then '\r' :: '\n' :: replaceLF choose (i + 1) cs
      else '\n' :: replaceLF choose (i + 1) cs
    else c :: replaceLF choose i cs

/-- The checks of `checksBeforeReconciliation` that come before the loop over
the useful lines: the failure of the first that fails, else `declaredTotal`
and `usefulLines`. -/
def checksBeforeLoop (fileName fileContent : Str) : Except Failure (F64 × List Str) :=
  if ¬ nameRegex fileName then .error .nameFormatInvalid
  else
    let lines := splitLines fileContent
    if 1 < lines.length ∧ lines.getLast? = some [] then .error .trailingBlankLine
    else
      let controlLine := lines.headD []
      if controlLine = [] then .error .emptyOrMissingControlLine
      else
        let controlValues := splitTab controlLine
        if controlValues.length ≠ 4 then
          .error (.controlFieldCountMismatch controlValues.length)
        else
          let controlCode := controlValues.getD 0 []
          let cutOffDate := controlValues.getD 1 []
          let declaredRowsStr := controlValues.getD 2 []
          let declaredTotalStr := controlValues.getD 3 []
          if controlCode ≠ expectedCode fileName then
            .error (.controlCodeMismatch controlCode (expectedCode fileName))
          else if ¬ dateRegex cutOffDate then .error (.dateFormatInvalid cutOffDate)
          else
            let declaredRows := parseInt declaredRowsStr
            let declaredTotal := parseFloat declaredTotalStr
            if declaredRows.isNaN then .error (.nonNumericDeclaredRows declaredRowsStr)
            else if declaredTotal.isNaN then
              .error (.nonNumericDeclaredTotal declaredTotalStr)
            else
              let useful := usefulLines lines
              if ¬ (F64.ofNat useful.length).eq declaredRows then
                .error (.rowCountMismatch useful.length declaredRows)
              else .ok (declaredTotal, useful)

/-- The accumulators at the start of the loop: `calculatedTotal = 0` and
`groupSubtotals = { 1: 0, 2: 0, 3: 0, 4: 0, 5: 0 }`. -/
def zeroSubtotals : GroupSubtotals :=
  ⟨F64.ofNat 0, F64.ofNat 0, F64.ofNat 0, F64.ofNat 0, F64.ofNat 0⟩

/-- The read `groupSubtotals[groupCode]` that `+=` performs: the bucket of an
own key, `undefined` (which adds as `NaN`) otherwise. -/
def GroupSubtotals.get (gs : GroupSubtotals) (groupCode : F64) : F64 :=
  if groupCode = F64.ofNat 1 then gs.g1
  else if groupCode = F64.ofNat 2 then gs.g2
  else if groupCode = F64.ofNat 3 then gs.g3
  else if groupCode = F64.ofNat 4 then gs.g4
  else if groupCode = F64.ofNat 5 then gs.g5
  else F64.nan

/-- The two fields of a line that the loop reads: `parts[0]` and `parts[1]`. -/
def lineFields (line : Str) : Str × Str :=
  ((splitTab line).getD 0 [], (splitTab line).getD 1 [])

/-- The running sum of one bucket over data rows: the amounts of the rows
whose group code reads `k`, added in file order from `acc`. -/
def bucketSum (k : Nat) (acc : F64) (rows : List (Str × Str)) : F64 :=
  rows.foldl (fun b row => if parseInt row.1 = F64.ofNat k then b.add (parseFloat row.2) else b)
    acc

/-- A finite Number as an integer multiple of `2^-1074`, the smallest positive
Number; every finite Number is one. -/
def F64.units : F64 → Option Int
  | .fin s m e => some (F64.scaled s m (e + 1074))
  | _ => none

/-- The sum `a + b` is exact: both are finite and the Number `a + b` is their
sum without rounding. -/
def F64.exactAdd (a b : F64) : Bool :=
  match a.units, b.units, (a.add b).units with
  | some x, some y, some z => decide (z = x + y)
  | _, _, _ => false

/-- Every addition that the loop performs on `rows`, from the accumulators
`t` and `g`, is exact: the one to the total and the one to the bucket. -/
def exactAdds (t : F64) (g : GroupSubtotals) : List (Str × Str) → Bool
  | [] => true
  | row :: rest =>
    if inMainGroup (parseInt row.1) then
      F64.exactAdd t (parseFloat row.2) &&
        F64.exactAdd (g.get (parseInt row.1)) (parseFloat row.2) &&
        exactAdds (t.add (parseFloat row.2)) (g.addTo (parseInt row.1) (parseFloat row.2)) rest
    else exactAdds t g rest

/-! ## The pipeline with `undefined` and exceptions made explicit -/

/-- An uncaught exception of the script: a method called on `undefined`. -/
inductive Fault where
  | typeError
  deriving DecidableEq, Repr

/-- The string that a value gives where a string is expected: `undefined`
reads as the text `undefined` (in `parseInt`, `parseFloat`, `regex.test` and
template literals). -/
def toStr : Option Str → Str
  | none => "undefined".toList
  | some s => s

/-- The test `!value` on `undefined` or a string. -/
def isFalsy : Option Str → Bool
  | none => true
  | some s => decide (s = [])

/-- The call `value.split('\t')`: a `TypeError` on `undefined`. -/
def splitTabOf : Option Str → Except Fault (List Str)
  | none => .error .typeError
  | some s => .ok (splitTab s)

/-- The call `value.toFixed(2)`: a `TypeError` on `undefined`. -/
def toFixedOf : Option F64 → Except Fault Str
  | none => .error .typeError
  | some x => .ok x.toFixed2

/-- The property read `groupSubtotals[k]` for a literal key `k`: `undefined`
for a key the object does not have. -/
def GroupSubtotals.read (gs : GroupSubtotals) (k : Nat) : Option F64 :=
  if k = 1 then some gs.g1
  else if k = 2 then some gs.g2
  else if k = 3 then some gs.g3
  else if k = 4 then some gs.g4
  else if k = 5 then some gs.g5
  else none

/-- The body of the loop for the value read by `usefulLines[i]`, with the
reads `parts[0]` and `parts[1]` as they are: `line.includes` is a `TypeError`
on `undefined`. -/
def processLineStrict (line : Option Str) (i : Nat) (calculatedTotal : F64)
    (groupSubtotals : GroupSubtotals) :
    Except Fault (Except Failure (F64 × GroupSubtotals)) :=
  match line with
  | none => .error .typeError
  | some l =>
    if '\t' ∉ l then .ok (.error (.missingTabSeparator (i + 2)))
    else
      let parts := splitTab l
      if parts.length < 2 then .ok (.error (.insufficientFieldsInLine (i + 2)))
      else
        let groupCode := parseInt (toStr parts[0]?)
        let subtotal := parseFloat (toStr parts[1]?)
        if groupCode.isNaN || subtotal.isNaN then .ok (.error (.nonNumericLineFields (i + 2)))
        else if inMainGroup groupCode then
          .ok (.ok (calculatedTotal.add subtotal,
            if GroupSubtotals.hasOwnProperty groupCode
              then groupSubtotals.addTo groupCode subtotal else groupSubtotals))
        else .ok (.ok (calculatedTotal, groupSubtotals))

/-- The loop `for (let i = 0; i < usefulLines.length; i++)` from index `i`,
with `remaining` iterations left, reading `usefulLines[i]` at each one. -/
def loopStrict (usefulLines : List Str) : Nat → Nat → F64 → GroupSubtotals →
    Except Fault (Except Failure (F64 × GroupSubtotals))
  | 0, _, calculatedTotal, groupSubtotals => .ok (.ok (calculatedTotal, groupSubtotals))
  | remaining + 1, i, calculatedTotal, groupSubtotals =>
    match processLineStrict usefulLines[i]? i calculatedTotal groupSubtotals with
    | .error e => .error e
    | .ok (.error f) => .ok (.error f)
    | .ok (.ok (total, subtotals)) => loopStrict usefulLines remaining (i + 1) total subtotals

/-- The detail map of the reconciliation failure, with the reads
`groupSubtotals[1]` to `groupSubtotals[5]` and the calls to `toFixed(2)`. -/
def detailsStrict (declaredTotal calculatedTotal : F64) (gs : GroupSubtotals) :
    Except Fault (List (String × Str)) :=
  match toFixedOf (some declaredTotal), toFixedOf (some calculatedTotal),
    toFixedOf (some (calculatedTotal.sub declaredTotal)), toFixedOf (gs.read 1),
    toFixedOf (gs.read 2), toFixedOf (gs.read 3), toFixedOf (gs.read 4),
    toFixedOf (gs.read 5) with
  | .ok a, .ok b, .ok c, .ok s1, .ok s2, .ok s3, .ok s4, .ok s5 =>
    .ok [("Total Declarado", a), ("Suma Calculada", b), ("Diferencia", c),
      ("Subtotal Grupo 1", s1), ("Subtotal Grupo 2", s2), ("Subtotal Grupo 3", s3),
      ("Subtotal Grupo 4", s4), ("Subtotal Grupo 5", s5)]
  | _, _, _, _, _, _, _, _ => .error .typeError

/-- The function `validateFile` of `src/script.js` with every read that can
give `undefined` kept as it is (`lines[lines.length - 1]`, `lines[0]`, the
destructuring of `controlValues`, `usefulLines[i]`, `parts[0]`, `parts[1]`,
`groupSubtotals[k]`) and every method call on such a value able to throw: the
result is an exception or what the function displays. -/
def validateFileStrict (fileName fileContent : Str) : Except Fault Outcome :=
  if ¬ nameRegex fileName then .ok (.failure .nameFormatInvalid)
  else
    let lines := splitLines fileContent
    if 1 < lines.length ∧ lines[lines.length - 1]? = some [] then
      .ok (.failure .trailingBlankLine)
    else
      let controlLine := lines[0]?
      if isFalsy controlLine then .ok (.failure .emptyOrMissingControlLine)
      else
        match splitTabOf controlLine with
        | .error e => .error e
        | .ok controlValues =>
          if controlValues.length ≠ 4 then
            .ok (.failure (.controlFieldCountMismatch controlValues.length))
          else
            let controlCode := controlValues[0]?
            let cutOffDate := controlValues[1]?
            let declaredRowsStr := controlValues[2]?
            let declaredTotalStr := controlValues[3]?
            if controlCode ≠ some (expectedCode fileName) then
              .ok (.failure (.controlCodeMismatch (toStr controlCode) (expectedCode fileName)))
            else if ¬ dateRegex (toStr cutOffDate) then
              .ok (.failure (.dateFormatInvalid (toStr cutOffDate)))
            else
              let declaredRows := parseInt (toStr declaredRowsStr)
              let declaredTotal := parseFloat (toStr declaredTotalStr)
              if declaredRows.isNaN then
                .ok (.failure (.nonNumericDeclaredRows (toStr declaredRowsStr)))
              else if declaredTotal.isNaN then
                .ok (.failure (.nonNumericDeclaredTotal (toStr declaredTotalStr)))
              else
                let useful := usefulLines lines
                if ¬ (F64.ofNat useful.length).eq declaredRows then
                  .ok (.failure (.rowCountMismatch useful.length declaredRows))
                else
                  match loopStrict useful useful.length 0 (F64.ofNat 0) zeroSubtotals with
                  | .error e => .error e
                  | .ok (.error f) => .ok (.failure f)
                  | .ok (.ok (calculatedTotal, groupSubtotals)) =>
                    if ((calculatedTotal.sub declaredTotal).abs).gt tolerance then
                      match detailsStrict declaredTotal calculatedTotal groupSubtotals with
                      | .error e => .error e
                      | .ok d => .ok (.failure (.totalReconciliationMismatch d))
                    else .ok .success

/-! ## Characters -/

theorem char_eq_of_toNat {c d : Char} (h : c.toNat = d.toNat) : c = d := by
  apply Char.ext
  apply UInt32.eq_of_val_eq
  apply Fin.ext
  exact h

theorem char_le_iff (c d : Char) : c ≤ d ↔ c.toNat ≤ d.toNat := by
  rw [Char.le_def, UInt32.le_def, BitVec.le_def]; rfl

theorem isDigit_iff (c : Char) : c.isDigit = true ↔ 48 ≤ c.toNat ∧ c.toNat ≤ 57 := by
  simp only [Char.isDigit, Bool.and_eq_true, decide_eq_true_eq, UInt32.le_def, BitVec.le_def]
  rfl

/-! ## The file name -/

theorem balance_mem_of_le {z : Char} (h1 : '1' ≤ z) (h2 : z ≤ '4') :
    z ∈ ['1', '2', '3', '4'] := by
  rw [char_le_iff] at h1 h2
  have e1 : ('1' : Char).toNat = 49 := rfl
  have e4 : ('4' : Char).toNat = 52 := rfl
  rw [e1] at h1; rw [e4] at h2
  have : z.toNat = 49 ∨ z.toNat = 50 ∨ z.toNat = 51 ∨ z.toNat = 52 := by omega
  simp only [List.mem_cons, List.mem_singleton, List.not_mem_nil, or_false]
  rcases this with h | h | h | h
  · left; exact char_eq_of_toNat h
  · right; left; exact char_eq_of_toNat h
  · right; right; left; exact char_eq_of_toNat h
  · right; right; right; exact char_eq_of_toNat h

theorem pattern_of_nameRegex {s : Str} (h : nameRegex s = true) : ∃ z, NamePattern z s := by
  simp only [nameRegex, Bool.and_eq_true, decide_eq_true_eq] at h
  obtain ⟨⟨⟨⟨hlen, h6⟩, hz⟩, hd⟩, ht⟩ := h
  match s, hlen with
  | [c0, c1, c2, c3, c4, c5, z, d0, d1, d2, d3, d4, d5, d6, d7, e0, e1, e2, e3], _ =>
    simp at h6 hz hd ht
    refine ⟨z, [d0, d1, d2, d3, d4, d5, d6, d7], balance_mem_of_le hz.1 hz.2, rfl, ?_, ?_⟩
    · simpa using hd
    · obtain ⟨rfl, rfl, rfl, rfl, rfl, rfl⟩ := h6
      obtain ⟨rfl, rfl, rfl, rfl⟩ := ht
      rfl

theorem nameRegex_of_pattern {z : Char} {s : Str} (h : NamePattern z s) :
    nameRegex s = true := by
  obtain ⟨ds, hz, hlen, hds, rfl⟩ := h
  match ds, hlen with
  | [d0, d1, d2, d3, d4, d5, d6, d7], _ =>
    simp only [List.mem_cons, List.mem_singleton, List.not_mem_nil, or_false,
      forall_eq_or_imp, forall_eq, implies_true, and_true] at hds
    obtain ⟨h0, h1, h2, h3, h4, h5, h6, h7⟩ := hds
    simp only [List.mem_cons, List.mem_singleton, List.not_mem_nil, or_false] at hz
    rcases hz with rfl | rfl | rfl | rfl <;>
      simp [nameRegex, h0, h1, h2, h3, h4, h5, h6, h7]

theorem sample_name_pattern : NamePattern '1' "TVWXYB120012024.txt".toList :=
  ⟨"20012024".toList, by decide, rfl, by decide, rfl⟩

theorem nameRegex_iff (s : Str) : nameRegex s = true ↔ ∃ z, NamePattern z s :=
  ⟨pattern_of_nameRegex, fun ⟨_, h⟩ => nameRegex_of_pattern h⟩

theorem expectedCode_of_pattern {z : Char} {s : Str} (h : NamePattern z s) :
    expectedCode s = "TVWXY".toList := by
  obtain ⟨ds, _, _, _, rfl⟩ := h
  rfl

/-! ## Splitting into lines -/

theorem splitLines_ne_nil (s : Str) : splitLines s ≠ [] := by
  induction s with
  | nil => simp [splitLines]
  | cons c cs ih =>
    unfold splitLines
    split_ifs
    · simp
    · exact ih
    · split <;> simp

theorem splitLines_cons_other {c : Char} {cs : Str} (h1 : c ≠ '\n')
    (h2 : ¬ (c = '\r' ∧ cs.head? = some '\n')) :
    splitLines (c :: cs) = (c :: (splitLines cs).headD []) :: (splitLines cs).tail := by
  rw [splitLines, if_neg h1, if_neg h2]
  cases h : splitLines cs with
  | nil => exact absurd h (splitLines_ne_nil cs)
  | cons l ls => rfl

theorem two_le_length_splitLines {s : Str} (h : s.getLast? = some '\n') :
    2 ≤ (splitLines s).length := by
  induction s with
  | nil => simp at h
  | cons c cs ih =>
    by_cases h1 : c = '\n'
    · rw [splitLines, if_pos h1]
      have := splitLines_ne_nil cs
      rcases hh : splitLines cs with _ | ⟨l, ls⟩
      · exact absurd hh this
      · simp
    · have hcs : cs ≠ [] := by
        rintro rfl
        simp at h
        exact h1 h
      have hlast : cs.getLast? = some '\n' := by
        rcases cs with _ | ⟨d, ds⟩
        · exact absurd rfl hcs
        · simpa [List.getLast?_cons_cons] using h
      by_cases h2 : c = '\r' ∧ cs.head? = some '\n'
      · rw [splitLines, if_neg h1, if_pos h2]
        exact ih hlast
      · rw [splitLines_cons_other h1 h2]
        have := ih hlast
        rcases hh : splitLines cs with _ | ⟨l, ls⟩
        · rw [hh] at this; simp at this
        · rw [hh] at this; simpa using this

theorem getLast_splitLines_eq_nil_iff (s : Str) :
    (splitLines s).getLast? = some [] ↔ s = [] ∨ s.getLast? = some '\n' := by
  induction s with
  | nil => simp [splitLines]
  | cons c cs ih =>
    have hne := splitLines_ne_nil cs
    by_cases h1 : c = '\n'
    · subst h1
      rw [splitLines, if_pos rfl]
      rcases hh : splitLines cs with _ | ⟨l, ls⟩
      · exact absurd hh hne
      · rw [List.getLast?_cons_cons, ← hh, ih]
        rcases cs with _ | ⟨d, ds⟩
        · simp
        · simp [List.getLast?_cons_cons]
    · by_cases h2 : c = '\r' ∧ cs.head? = some '\n'
      · rw [splitLines, if_neg h1, if_pos h2, ih]
        rcases cs with _ | ⟨d, ds⟩
        · simp at h2
        · simp [List.getLast?_cons_cons]
      · rw [splitLines_cons_other h1 h2]
        rcases cs with _ | ⟨d, ds⟩
        · simp [splitLines, h1]
        · have key : (d :: ds).getLast? = some '\n' ↔
              (splitLines (d :: ds)).getLast? = some [] := by
            rw [ih]; simp
          simp only [List.getLast?_cons_cons, reduceCtorEq, false_or]
          rw [key]
          rcases hh : splitLines (d :: ds) with _ | ⟨l, ls⟩
          · exact absurd hh hne
          · rcases ls with _ | ⟨l2, ls2⟩
            · simp only [List.headD_cons, List.tail_cons, List.getLast?_singleton,
                Option.some.injEq, reduceCtorEq, false_iff]
              intro hl
              subst hl
              have h2' : (splitLines (d :: ds)).getLast? = some [] := by rw [hh]; rfl
              have := two_le_length_splitLines (key.mpr h2')
              rw [hh] at this
              simp at this
            · simp [List.getLast?_cons_cons]

theorem trailing_blank_iff (s : Str) :
    (1 < (splitLines s).length ∧ (splitLines s).getLast? = some []) ↔ EndsWithLineBreak s := by
  unfold EndsWithLineBreak
  constructor
  · rintro ⟨hlen, hlast⟩
    rcases (getLast_splitLines_eq_nil_iff s).mp hlast with rfl | h
    · simp [splitLines] at hlen
    · exact h
  · intro h
    exact ⟨two_le_length_splitLines h, (getLast_splitLines_eq_nil_iff s).mpr (Or.inr h)⟩

theorem processLine_error_kind {l : Str} {i : Nat} {t : F64} {g : GroupSubtotals}
    {f : Failure} (h : processLine l i t g = .error f) :
    (∃ k, f = .missingTabSeparator k) ∨ (∃ k, f = .insufficientFieldsInLine k) ∨
      (∃ k, f = .nonNumericLineFields k) := by
  unfold processLine at h
  dsimp only at h
  split_ifs at h
  all_goals (injection h with h; subst h; simp)

theorem processLines_error_kind {ls : List Str} {i : Nat} {t : F64} {g : GroupSubtotals}
    {f : Failure} (h : processLines ls i t g = .error f) :
    (∃ k, f = .missingTabSeparator k) ∨ (∃ k, f = .insufficientFieldsInLine k) ∨
      (∃ k, f = .nonNumericLineFields k) := by
  induction ls generalizing i t g with
  | nil => simp [processLines] at h
  | cons l ls ih =>
    unfold processLines at h
    split at h
    · rename_i f' hf
      injection h with h
      subst h
      exact processLine_error_kind hf
    · exact ih h

/-- The trailing-blank-line failure is displayed exactly when the second check
fires. -/
theorem checks_trailing_iff {n c : Str} (hn : nameRegex n = true) :
    checksBeforeReconciliation n c = .error .trailingBlankLine ↔
      (1 < (splitLines c).length ∧ (splitLines c).getLast? = some []) := by
  unfold checksBeforeReconciliation
  dsimp only
  rw [if_neg (by simpa using hn)]
  constructor
  · intro h
    by_contra hc
    rw [if_neg hc] at h
    split_ifs at h
    all_goals try (simp at h; done)
    split at h
    · rename_i f hf
      rcases processLines_error_kind hf with ⟨k, rfl⟩ | ⟨k, rfl⟩ | ⟨k, rfl⟩ <;> simp at h
    · simp at h
  · intro h
    rw [if_pos h]

theorem validateFile_failure_iff (n c : Str) (f : Failure)
    (hf : ∀ d, f ≠ .totalReconciliationMismatch d) :
    validateFile n c = .failure f ↔ checksBeforeReconciliation n c = .error f := by
  unfold validateFile
  split
  · rename_i f' h
    rw [h]; simp
  · rename_i d t g h
    rw [h]
    unfold reconcile
    split_ifs
    · simp only [Outcome.failure.injEq, reduceCtorEq, iff_false]
      intro h'
      exact hf _ h'.symm
    · simp

/-! ## Rounding of integers -/

theorem bitLenAux_zero (fuel : Nat) : bitLenAux fuel 0 = 0 := by
  cases fuel <;> simp [bitLenAux]

theorem lt_two_pow_bitLenAux (fuel n : Nat) (h : n ≤ fuel) : n < 2 ^ bitLenAux fuel n := by
  induction fuel generalizing n with
  | zero =>
    have : n = 0 := by omega
    subst this; simp [bitLenAux]
  | succ fuel ih =>
    unfold bitLenAux
    split_ifs with h0
    · subst h0; simp
    · have := ih (n / 2) (by omega)
      rw [pow_succ]
      omega

theorem two_pow_bitLenAux_le (fuel n : Nat) (h : n ≤ fuel) (hn : 0 < n) :
    2 ^ (bitLenAux fuel n - 1) ≤ n := by
  induction fuel generalizing n with
  | zero => omega
  | succ fuel ih =>
    unfold bitLenAux
    rw [if_neg (by omega)]
    simp only [Nat.add_sub_cancel]
    by_cases h2 : n / 2 = 0
    · rw [h2, bitLenAux_zero]; simp; omega
    · have h3 := ih (n / 2) (by omega) (by omega)
      have h4 := lt_two_pow_bitLenAux fuel (n / 2) (by omega)
      have h5 : 1 ≤ bitLenAux fuel (n / 2) := by
        by_contra hc
        have : bitLenAux fuel (n / 2) = 0 := by omega
        rw [this] at h4
        simp at h4
        exact h2 h4
      have : 2 ^ bitLenAux fuel (n / 2) = 2 * 2 ^ (bitLenAux fuel (n / 2) - 1) := by
        rw [← pow_succ']
        congr 1
        omega
      omega

theorem lt_two_pow_bitLen (n : Nat) : n < 2 ^ bitLen n := lt_two_pow_bitLenAux n n le_rfl

theorem two_pow_bitLen_le {n : Nat} (hn : 0 < n) : 2 ^ (bitLen n - 1) ≤ n :=
  two_pow_bitLenAux_le n n le_rfl hn

theorem bitLen_pos {n : Nat} (hn : 0 < n) : 1 ≤ bitLen n := by
  by_contra hc
  have h0 : bitLen n = 0 := by omega
  have := lt_two_pow_bitLen n
  rw [h0] at this
  omega

theorem bitLen_one : bitLen 1 = 1 := by decide

theorem bitLen_le_of_lt {n k : Nat} (hn : 0 < n) (h : n < 2 ^ k) : bitLen n ≤ k := by
  by_contra hc
  have h1 := two_pow_bitLen_le hn
  have h2 : 2 ^ k ≤ 2 ^ (bitLen n - 1) := Nat.pow_le_pow_right (by decide) (by omega)
  omega

theorem lt_bitLen_of_le {n k : Nat} (h : 2 ^ k ≤ n) : k < bitLen n := by
  by_contra hc
  have h1 := lt_two_pow_bitLen n
  have h2 : 2 ^ bitLen n ≤ 2 ^ k := Nat.pow_le_pow_right (by decide) (by omega)
  omega

theorem ilog2Ratio_one {n : Nat} (hn : 0 < n) : ilog2Ratio n 1 = (bitLen n : Int) - 1 := by
  unfold ilog2Ratio
  rw [bitLen_one]
  have hb := bitLen_pos hn
  have h1 : (((bitLen n : Int) - ((1 : Nat) : Int))).toNat = bitLen n - 1 := by omega
  have h2 : (-((bitLen n : Int) - ((1 : Nat) : Int))).toNat = 0 := by omega
  simp only [h1, h2, pow_zero, mul_one, one_mul]
  rw [if_pos (two_pow_bitLen_le hn)]
  rfl

/-- An integer below `2^53` is a Number: it rounds to itself, in canonical
form. -/
theorem roundPos_small (s : Bool) {n : Nat} (hn : 0 < n) (h : n < 2 ^ 53) :
    roundPos s n 1 = .fin s (n * 2 ^ (53 - bitLen n)) ((bitLen n : Int) - 53) := by
  have hb := bitLen_pos hn
  have hb2 := bitLen_le_of_lt hn h
  unfold roundPos
  rw [if_neg (by omega), ilog2Ratio_one hn]
  have he : max ((bitLen n : Int) - 1 - 52) (-1074) = (bitLen n : Int) - 53 := by omega
  simp only [he]
  have h1 : (-((bitLen n : Int) - 53)).toNat = 53 - bitLen n := by omega
  have h2 : ((bitLen n : Int) - 53).toNat = 0 := by omega
  simp only [h1, h2, pow_zero, mul_one, Nat.div_one, Nat.mod_one, mul_zero]
  have hlt : n * 2 ^ (53 - bitLen n) < 2 ^ 53 := by
    have := lt_two_pow_bitLen n
    calc n * 2 ^ (53 - bitLen n) < 2 ^ bitLen n * 2 ^ (53 - bitLen n) :=
          Nat.mul_lt_mul_of_pos_right this (by positivity)
      _ = 2 ^ 53 := by rw [← pow_add]; congr 1; omega
  have hm : (if 1 < 0 ∨ 0 = 1 ∧ n * 2 ^ (53 - bitLen n) % 2 = 1 then n * 2 ^ (53 - bitLen n) + 1
      else n * 2 ^ (53 - bitLen n)) = n * 2 ^ (53 - bitLen n) := by
    rw [if_neg (by omega)]
  simp only [hm]
  rw [if_neg (by omega), if_neg (by omega), if_neg (by omega)]

theorem roundPos_shape (s : Bool) (p q : Nat) :
    roundPos s p q = .inf s ∨ (p = 0 ∧ roundPos s p q = .fin s 0 (-1074)) ∨
      ∃ m e, roundPos s p q = .fin s m e ∧
        (e = max (ilog2Ratio p q - 52) (-1074) ∨ e = max (ilog2Ratio p q - 52) (-1074) + 1) ∧
        (m = 2 ^ 52 ∨
          p * 2 ^ (-(max (ilog2Ratio p q - 52) (-1074))).toNat /
            (q * 2 ^ (max (ilog2Ratio p q - 52) (-1074)).toNat) ≤ m) := by
  unfold roundPos
  by_cases hp : p = 0
  · right; left; exact ⟨hp, by rw [if_pos hp]⟩
  · rw [if_neg hp]
    dsimp only
    split_ifs
    all_goals first
      | (left; rfl)
      | (right; right; exact ⟨_, _, rfl, Or.inr rfl, Or.inl rfl⟩)
      | (right; right; exact ⟨_, _, rfl, Or.inl rfl, Or.inr (by omega)⟩)

theorem roundPos_large (s : Bool) {n : Nat} (h : 2 ^ 53 ≤ n) :
    roundPos s n 1 = .inf s ∨ ∃ m e, roundPos s n 1 = .fin s m e ∧ 1 ≤ e ∧ 2 ^ 52 ≤ m := by
  have hn : 0 < n := lt_of_lt_of_le (by positivity) h
  have hb := lt_bitLen_of_le h
  have he : max (ilog2Ratio n 1 - 52) (-1074) = (bitLen n : Int) - 53 := by
    rw [ilog2Ratio_one hn]; omega
  rcases roundPos_shape s n 1 with h1 | ⟨h0, _⟩ | ⟨m, e, h1, h2, h3⟩
  · left; exact h1
  · omega
  · right
    refine ⟨m, e, h1, by omega, ?_⟩
    rcases h3 with h3 | h3
    · rw [h3]
    · rw [he] at h3
      have e1 : (-((bitLen n : Int) - 53)).toNat = 0 := by omega
      have e2 : ((bitLen n : Int) - 53).toNat = bitLen n - 53 := by omega
      rw [e1, e2, pow_zero, mul_one, one_mul] at h3
      have h4 : 2 ^ 52 * 2 ^ (bitLen n - 53) ≤ n := by
        calc 2 ^ 52 * 2 ^ (bitLen n - 53) = 2 ^ (bitLen n - 1) := by
              rw [← pow_add]; congr 1; omega
          _ ≤ n := two_pow_bitLen_le hn
      have h5 : 2 ^ 52 ≤ n / 2 ^ (bitLen n - 53) :=
        (Nat.le_div_iff_mul_le (by positivity)).mpr h4
      omega

theorem roundPos_ne_nan (s : Bool) (p q : Nat) : roundPos s p q ≠ .nan := by
  rcases roundPos_shape s p q with h1 | ⟨_, h1⟩ | ⟨m, e, h1, _⟩ <;> rw [h1] <;> simp

theorem f64_eq_self {x : F64} (h : x ≠ .nan) : x.eq x = true := by
  cases x <;> simp [F64.eq] at h ⊢

theorem small_mantissa_pos {n : Nat} (hn : 0 < n) : 0 < n * 2 ^ (53 - bitLen n) :=
  Nat.mul_pos hn (by positivity)

theorem small_canonical_inj {a b : Nat}
    (hm : a * 2 ^ (53 - bitLen a) = b * 2 ^ (53 - bitLen b))
    (he : (bitLen a : Int) - 53 = (bitLen b : Int) - 53) : a = b := by
  have : bitLen a = bitLen b := by omega
  rw [this] at hm
  exact Nat.eq_of_mul_eq_mul_right (by positivity) hm

/-- The comparison `usefulLines.length !== declaredRows`, for fewer than
`2^53` lines: the Number read by `parseInt` equals the count exactly when the
integer read is the count. -/
theorem ofNat_eq_roundPos_iff {len : Nat} (hlen : len < 2 ^ 53) (sg : Bool) (v : Nat) :
    (F64.ofNat len).eq (roundPos sg v 1) = true ↔
      (if sg then -(v : Int) else (v : Int)) = (len : Int) := by
  unfold F64.ofNat
  rcases Nat.eq_zero_or_pos v with rfl | hv
  · -- the integer read is zero
    have hz : ∀ b, roundPos b 0 1 = .fin b 0 (-1074) := by intro b; simp [roundPos]
    rw [hz sg]
    rcases Nat.eq_zero_or_pos len with rfl | hl
    · rw [hz false]; simp [F64.eq]
    · rw [roundPos_small false hl hlen]
      have := small_mantissa_pos hl
      simp only [F64.eq, beq_iff_eq, Bool.or_eq_true, Bool.and_eq_true]
      constructor
      · rintro (⟨h, _⟩ | ⟨⟨_, h⟩, _⟩) <;> omega
      · intro h; split_ifs at h <;> omega
  · rcases Nat.eq_zero_or_pos len with rfl | hl
    · have hz : roundPos false 0 1 = .fin false 0 (-1074) := by simp [roundPos]
      rw [hz]
      constructor
      · intro h
        exfalso
        by_cases hv2 : v < 2 ^ 53
        · rw [roundPos_small sg hv hv2] at h
          have := small_mantissa_pos hv
          simp only [F64.eq, beq_iff_eq, Bool.or_eq_true, Bool.and_eq_true] at h
          rcases h with ⟨_, h⟩ | ⟨⟨_, h⟩, _⟩ <;> omega
        · rcases roundPos_large sg (not_lt.mp hv2) with h2 | ⟨m, e, h2, he, hm⟩
          · rw [h2] at h; simp [F64.eq] at h
          · rw [h2] at h
            simp only [F64.eq, beq_iff_eq, Bool.or_eq_true, Bool.and_eq_true] at h
            rcases h with ⟨_, h⟩ | ⟨_, h⟩ <;> omega
      · intro h; split_ifs at h <;> omega
    · rw [roundPos_small false hl hlen]
      have hml := small_mantissa_pos hl
      constructor
      · intro h
        by_cases hv2 : v < 2 ^ 53
        · rw [roundPos_small sg hv hv2] at h
          simp only [F64.eq, beq_iff_eq, Bool.or_eq_true, Bool.and_eq_true] at h
          rcases h with ⟨h, _⟩ | ⟨⟨hs, hm⟩, he⟩
          · omega
          · have := small_canonical_inj hm he
            cases sg
            · simp [this]
            · simp at hs
        · exfalso
          rcases roundPos_large sg (not_lt.mp hv2) with h2 | ⟨m, e, h2, he, _⟩
          · rw [h2] at h; simp [F64.eq] at h
          · rw [h2] at h
            have hb2 := bitLen_le_of_lt hl hlen
            simp only [F64.eq, beq_iff_eq, Bool.or_eq_true, Bool.and_eq_true] at h
            rcases h with ⟨h, _⟩ | ⟨_, h⟩ <;> omega
      · intro h
        have hs : sg = false := by
          cases sg
          · rfl
          · simp at h; omega
        subst hs
        simp only [Bool.false_eq_true, if_false, Nat.cast_inj] at h
        subst h
        rw [roundPos_small false hv hlen]
        exact f64_eq_self (by simp)

/-! ## The tolerance comparison -/

theorem tolerance_eq : tolerance = .fin false 4611686018427388 (-62) := by decide!

theorem scaled_zero (s : Bool) (k : Int) : F64.scaled s 0 k = 0 := by
  unfold F64.scaled; split_ifs <;> simp

theorem scaled_neg (s : Bool) (m : Nat) (k : Int) :
    F64.scaled (!s) m k = -F64.scaled s m k := by
  unfold F64.scaled; cases s <;> simp

theorem not_gt_tolerance_zero (s : Bool) :
    ((F64.fin s 0 (-1074)).abs).gt tolerance = false := by
  rw [tolerance_eq]; cases s <;> decide!

/-- Two Numbers that are `===` never differ by more than the tolerance (the
difference is a zero, or `NaN` for two equal infinities). -/
theorem not_gt_of_eq {a b : F64} (h : a.eq b = true) :
    ((a.sub b).abs).gt tolerance = false := by
  cases a with
  | nan => simp [F64.eq] at h
  | inf sa =>
    cases b with
    | nan => simp [F64.eq] at h
    | inf sb =>
      simp only [F64.eq, beq_iff_eq] at h
      subst h
      rw [tolerance_eq]
      cases sa <;> rfl
    | fin sb mb eb => simp [F64.eq] at h
  | fin sa ma ea =>
    cases b with
    | nan => simp [F64.eq] at h
    | inf sb => simp [F64.eq] at h
    | fin sb mb eb =>
      have key : (F64.fin sa ma ea).sub (F64.fin sb mb eb) = .fin (sa && !sb) 0 (-1074) := by
        simp only [F64.eq, beq_iff_eq, Bool.or_eq_true, Bool.and_eq_true] at h
        unfold F64.sub F64.neg F64.add
        dsimp only
        rw [if_pos]
        rcases h with ⟨h1, h2⟩ | ⟨⟨h1, h2⟩, h3⟩
        · subst h1; subst h2; rw [scaled_zero, scaled_zero]; rfl
        · subst h1; subst h2; subst h3
          rw [scaled_neg]; omega
      rw [key]
      exact not_gt_tolerance_zero _

/-! ## Decimal digits and `toFixed(2)` -/

theorem isDigit_ofNat_digit : ∀ d < 10, (Char.ofNat (48 + d)).isDigit = true := by decide

theorem decDigitsAux_spec (fuel n : Nat) (acc : Str) :
    ∃ ds : Str, (∀ c ∈ ds, c.isDigit = true) ∧ (0 < fuel → ds ≠ []) ∧
      decDigitsAux fuel n acc = ds ++ acc := by
  induction fuel generalizing n acc with
  | zero => exact ⟨[], by simp, by simp, rfl⟩
  | succ fuel ih =>
    unfold decDigitsAux
    split_ifs with h
    · exact ⟨[Char.ofNat (48 + n)], by simpa using isDigit_ofNat_digit n h, by simp, rfl⟩
    · obtain ⟨ds, h1, _, h3⟩ := ih (n / 10) (Char.ofNat (48 + n % 10) :: acc)
      refine ⟨ds ++ [Char.ofNat (48 + n % 10)], ?_, by simp, by rw [h3]; simp⟩
      intro c hc
      rcases List.mem_append.mp hc with hc | hc
      · exact h1 c hc
      · simp only [List.mem_singleton] at hc
        subst hc
        exact isDigit_ofNat_digit _ (Nat.mod_lt _ (by decide))

theorem decDigits_digits (n : Nat) : ∀ c ∈ decDigits n, c.isDigit = true := by
  obtain ⟨ds, h1, _, h3⟩ := decDigitsAux_spec (n + 1) n []
  unfold decDigits
  rw [h3, List.append_nil]
  exact h1

theorem decDigits_ne_nil (n : Nat) : decDigits n ≠ [] := by
  obtain ⟨ds, _, h2, h3⟩ := decDigitsAux_spec (n + 1) n []
  unfold decDigits
  rw [h3, List.append_nil]
  exact h2 (by omega)

theorem isTwoDecimals_of_parts {sgn a b : Str} (hs : sgn = [] ∨ sgn = ['-']) (ha : a ≠ [])
    (ha' : ∀ c ∈ a, c.isDigit = true) (hb : b.length = 2) (hb' : ∀ c ∈ b, c.isDigit = true) :
    isTwoDecimals (sgn ++ (a ++ '.' :: b)) = true := by
  have hbody : (if (sgn ++ (a ++ '.' :: b)).head? = some '-' then (sgn ++ (a ++ '.' :: b)).drop 1
      else sgn ++ (a ++ '.' :: b)) = a ++ '.' :: b := by
    rcases hs with rfl | rfl
    · rcases a with _ | ⟨c, a⟩
      · exact absurd rfl ha
      · have hc : c ≠ '-' := by
          intro hc
          have := ha' c (by simp)
          rw [hc] at this
          exact absurd this (by decide)
        simp [hc]
    · simp
  unfold isTwoDecimals
  simp only [hbody]
  have hl : (a ++ '.' :: b).length - 3 = a.length := by simp [hb]
  rw [hl, List.take_left, List.drop_left]
  rcases a with _ | ⟨c, a⟩
  · exact absurd rfl ha
  · simp only [List.isEmpty_cons, Bool.not_false, Bool.true_and, List.length_cons, hb,
      List.head?_cons, List.drop_succ_cons, List.drop_zero, Bool.and_eq_true, decide_eq_true_eq,
      List.all_eq_true, and_true]
    exact ⟨ha', hb'⟩

/-- A finite Number below `10^21` in magnitude prints with two decimals. -/
theorem toFixed2_twoDecimals {x : F64} (h : x.isBelow1e21 = true) :
    isTwoDecimals x.toFixed2 = true := by
  cases x with
  | nan => simp [F64.isBelow1e21] at h
  | inf s => simp [F64.isBelow1e21] at h
  | fin s m e =>
    have hc : ¬ (0 ≤ e ∧ 10 ^ 21 ≤ m * 2 ^ e.toNat) := by
      simp only [F64.isBelow1e21, Bool.not_eq_true', Bool.and_eq_false_iff,
        decide_eq_false_iff_not] at h
      tauto
    unfold F64.toFixed2
    dsimp only
    rw [if_neg hc]
    generalize hn : (2 * (100 * (m * 2 ^ e.toNat)) + 2 ^ (-e).toNat) / (2 * 2 ^ (-e).toNat) = n
    have hd := decDigits_digits n
    have hne := decDigits_ne_nil n
    generalize hds : (if (decDigits n).length ≤ 2 then
      List.replicate (3 - (decDigits n).length) '0' ++ decDigits n else decDigits n) = ds
    have hds1 : ∀ c ∈ ds, c.isDigit = true := by
      rw [← hds]
      split_ifs
      · intro c hc
        rcases List.mem_append.mp hc with hc | hc
        · rw [(List.mem_replicate.mp hc).2]; decide
        · exact hd c hc
      · exact hd
    have hds2 : 3 ≤ ds.length := by
      rw [← hds]
      split_ifs with h2
      · simp only [List.length_append, List.length_replicate]; omega
      · omega
    apply isTwoDecimals_of_parts
    · split_ifs <;> simp
    · intro h0
      have := congrArg List.length h0
      simp at this
      omega
    · intro c hc; exact hds1 c (List.mem_of_mem_take hc)
    · simp; omega
    · intro c hc; exact hds1 c (List.mem_of_mem_drop hc)

/-! ## Known values of binary64 arithmetic -/

/-- `0.1 + 0.2` is `0.30000000000000004`, not `0.3`. -/
theorem tenth_plus_fifth :
    (parseFloat "0.1".toList).add (parseFloat "0.2".toList) =
        parseFloat "0.30000000000000004".toList ∧
      (parseFloat "0.1".toList).add (parseFloat "0.2".toList) ≠ parseFloat "0.3".toList := by
  decide!

/-- `2^53 + 1` rounds back to `2^53`. -/
theorem two_pow_53_plus_one :
    (F64.ofNat 9007199254740992).add (F64.ofNat 1) = F64.ofNat 9007199254740992 := by
  decide!

/-- `(1.005).toFixed(2)` is `1.00`, `(0.125).toFixed(2)` is `0.13`,
`(-0.001).toFixed(2)` is `-0.00` and `(1e21).toFixed(2)` is `1e+21`. -/
theorem toFixed2_known :
    (parseFloat "1.005".toList).toFixed2 = "1.00".toList ∧
      (parseFloat "0.125".toList).toFixed2 = "0.13".toList ∧
      (parseFloat "-0.001".toList).toFixed2 = "-0.00".toList ∧
      (parseFloat "1e21".toList).toFixed2 = "1e+21".toList := by
  decide!

/-- `parseInt` and `parseFloat` read a numeric prefix: `12abc` is `12`,
`1e3` is `1` for `parseInt` and `1000` for `parseFloat`, `abc` is `NaN`. -/
theorem parse_known :
    parseInt "12abc".toList = F64.ofNat 12 ∧ parseInt "1e3".toList = F64.ofNat 1 ∧
      parseFloat "1e3".toList = F64.ofNat 1000 ∧ parseInt "abc".toList = F64.nan ∧
      parseFloat "1e999".toList = F64.inf false := by
  decide!

theorem f64_gt_false_of_le {a b : F64} (h : a.le b = true) : a.gt b = false := by
  unfold F64.le at h
  unfold F64.gt
  cases a with
  | nan => simp [F64.lt, F64.eq] at h
  | inf sa =>
    cases b with
    | nan => simp [F64.lt, F64.eq] at h
    | inf sb => cases sa <;> cases sb <;> simp [F64.lt, F64.eq] at h ⊢
    | fin sb mb eb => cases sa <;> simp [F64.lt, F64.eq] at h ⊢
  | fin sa ma ea =>
    cases b with
    | nan => simp [F64.lt, F64.eq] at h
    | inf sb => cases sb <;> simp [F64.lt, F64.eq] at h ⊢
    | fin sb mb eb =>
      simp only [F64.lt, F64.eq, Bool.or_eq_true, decide_eq_true_eq, Bool.and_eq_true,
        beq_iff_eq] at h
      simp only [F64.lt, decide_eq_false_iff_not, not_lt]
      rw [min_comm eb ea]
      rcases h with h | ⟨h1, h2⟩ | ⟨⟨h1, h2⟩, h3⟩
      · exact le_of_lt h
      · subst h1; subst h2; rw [scaled_zero, scaled_zero]
      · subst h1; subst h2; subst h3; exact le_refl _

theorem validateFile_of_checks_ok {n c : Str} {d t : F64} {g : GroupSubtotals}
    (h : checksBeforeReconciliation n c = .ok (d, t, g)) :
    validateFile n c = reconcile d t g := by
  unfold validateFile
  rw [h]

theorem reconcile_success_iff (d t : F64) (g : GroupSubtotals) :
    reconcile d t g = .success ↔ ((t.sub d).abs).gt tolerance = false := by
  unfold reconcile
  split_ifs with h <;> simp [h]

theorem reconcile_failure_iff (d t : F64) (g : GroupSubtotals) :
    reconcile d t g = .failure (.totalReconciliationMismatch (details d t g)) ↔
      ((t.sub d).abs).gt tolerance = true := by
  unfold reconcile
  split_ifs with h <;> simp [h]

/-! ## Splitting a text built from its parts -/

theorem splitLines_eq_head_tail (s : Str) :
    splitLines s = (splitLines s).headD [] :: (splitLines s).tail := by
  rcases h : splitLines s with _ | ⟨l, ls⟩
  · exact absurd h (splitLines_ne_nil s)
  · rfl

theorem splitLines_of_no_nl {l : Str} (h : '\n' ∉ l) : splitLines l = [l] := by
  induction l with
  | nil => rfl
  | cons c cs ih =>
    have h1 : c ≠ '\n' := fun hc => h (by simp [hc])
    have h2 : ¬ (c = '\r' ∧ cs.head? = some '\n') := by
      rintro ⟨_, hh⟩
      exact h (List.mem_cons_of_mem _ (List.mem_of_mem_head? hh))
    rw [splitLines_cons_other h1 h2, ih (fun hc => h (List.mem_cons_of_mem _ hc))]
    rfl

theorem getLast?_cons_ne_nil {α : Type} (c : α) {p : List α} (hp : p ≠ []) :
    (c :: p).getLast? = p.getLast? := by
  rcases p with _ | ⟨d, p⟩
  · exact absurd rfl hp
  · exact List.getLast?_cons_cons

theorem head?_append_ne_nil {α : Type} {p : List α} (q : List α) (hp : p ≠ []) :
    (p ++ q).head? = p.head? := by
  rcases p with _ | ⟨d, p⟩
  · exact absurd rfl hp
  · rfl

/-- A line break `\n` after a text that does not end in `\r` separates the
lines of the two sides. -/
theorem splitLines_append_nl {pre : Str} (q : Str) (h : pre.getLast? ≠ some '\r') :
    splitLines (pre ++ '\n' :: q) = splitLines pre ++ splitLines q := by
  induction pre with
  | nil => simp [splitLines]
  | cons c p ih =>
    have ihp : splitLines (p ++ '\n' :: q) = splitLines p ++ splitLines q := by
      apply ih
      rcases p with _ | ⟨d, p⟩
      · simp
      · rwa [List.getLast?_cons_cons] at h
    by_cases h1 : c = '\n'
    · rw [List.cons_append, splitLines, if_pos h1, splitLines, if_pos h1, ihp]; rfl
    · by_cases hp : p = []
      · subst hp
        have hc : c ≠ '\r' := fun hc => h (by simp [hc])
        rw [List.cons_append, splitLines_cons_other h1 (fun hh => hc hh.1),
          splitLines_cons_other h1 (fun hh => hc hh.1), ihp]
        simp [splitLines]
      · have hhead : (p ++ '\n' :: q).head? = p.head? := head?_append_ne_nil _ hp
        by_cases h2 : c = '\r' ∧ p.head? = some '\n'
        · rw [List.cons_append, splitLines, if_neg h1, if_pos (by rw [hhead]; exact h2),
            splitLines, if_neg h1, if_pos h2, ihp]
        · rw [List.cons_append, splitLines_cons_other h1 (by rw [hhead]; exact h2),
            splitLines_cons_other h1 h2, ihp]
          rcases hs : splitLines p with _ | ⟨l, ls⟩
          · exact absurd hs (splitLines_ne_nil p)
          · rfl

/-- A line break `\r\n` separates the lines of the two sides. -/
theorem splitLines_append_crnl (pre q : Str) :
    splitLines (pre ++ '\r' :: '\n' :: q) = splitLines pre ++ splitLines q := by
  induction pre with
  | nil => simp [splitLines]
  | cons c p ih =>
    by_cases h1 : c = '\n'
    · rw [List.cons_append, splitLines, if_pos h1, splitLines, if_pos h1, ih]; rfl
    · by_cases hp : p = []
      · subst hp
        have h2 : ¬ (c = '\r' ∧ ([] ++ '\r' :: '\n' :: q).head? = some '\n') := by
          rintro ⟨_, hh⟩
          simp at hh
        rw [List.cons_append, splitLines_cons_other h1 h2,
          splitLines_cons_other h1 (by simp), ih]
        simp [splitLines]
      · have hhead : (p ++ '\r' :: '\n' :: q).head? = p.head? := head?_append_ne_nil _ hp
        by_cases h2 : c = '\r' ∧ p.head? = some '\n'
        · rw [List.cons_append, splitLines, if_neg h1, if_pos (by rw [hhead]; exact h2),
            splitLines, if_neg h1, if_pos h2, ih]
        · rw [List.cons_append, splitLines_cons_other h1 (by rw [hhead]; exact h2),
            splitLines_cons_other h1 h2, ih]
          rcases hs : splitLines p with _ | ⟨l, ls⟩
          · exact absurd hs (splitLines_ne_nil p)
          · rfl

/-- A text without `\n` that does not end in `\r` joins the first line of what
follows it. -/
theorem splitLines_append_of_no_nl {a : Str} (b : Str) (h : '\n' ∉ a)
    (hr : a.getLast? ≠ some '\r') :
    splitLines (a ++ b) = (a ++ (splitLines b).headD []) :: (splitLines b).tail := by
  induction a with
  | nil => exact splitLines_eq_head_tail b
  | cons c a ih =>
    have h1 : c ≠ '\n' := fun hc => h (by simp [hc])
    have hmem : '\n' ∉ a := fun hc => h (List.mem_cons_of_mem _ hc)
    have h2 : ¬ (c = '\r' ∧ (a ++ b).head? = some '\n') := by
      rintro ⟨hc, hh⟩
      by_cases ha : a = []
      · subst ha; exact hr (by simp [hc])
      · rw [head?_append_ne_nil _ ha] at hh
        exact hmem (List.mem_of_mem_head? hh)
    have hr' : a.getLast? ≠ some '\r' := by
      rcases a with _ | ⟨d, a⟩
      · simp
      · rwa [List.getLast?_cons_cons] at hr
    rw [List.cons_append, splitLines_cons_other h1 h2, ih hmem hr']
    rfl

theorem splitTab_ne_nil (s : Str) : splitTab s ≠ [] := by
  induction s with
  | nil => simp [splitTab]
  | cons c cs ih =>
    unfold splitTab
    split_ifs
    · simp
    · split <;> simp

theorem splitTab_eq_head_tail (s : Str) :
    splitTab s = (splitTab s).headD [] :: (splitTab s).tail := by
  rcases h : splitTab s with _ | ⟨l, ls⟩
  · exact absurd h (splitTab_ne_nil s)
  · rfl

theorem splitTab_cons_other {c : Char} (cs : Str) (h : c ≠ '\t') :
    splitTab (c :: cs) = (c :: (splitTab cs).headD []) :: (splitTab cs).tail := by
  rw [splitTab, if_neg h]
  cases hs : splitTab cs with
  | nil => exact absurd hs (splitTab_ne_nil cs)
  | cons l ls => rfl

theorem splitTab_of_no_tab {l : Str} (h : '\t' ∉ l) : splitTab l = [l] := by
  induction l with
  | nil => rfl
  | cons c cs ih =>
    rw [splitTab_cons_other cs (fun hc => h (by simp [hc])),
      ih (fun hc => h (List.mem_cons_of_mem _ hc))]
    rfl

theorem splitTab_append_tab {a : Str} (b : Str) (h : '\t' ∉ a) :
    splitTab (a ++ '\t' :: b) = a :: splitTab b := by
  induction a with
  | nil => rw [List.nil_append, splitTab, if_pos rfl]
  | cons c a ih =>
    rw [List.cons_append, splitTab_cons_other _ (fun hc => h (by simp [hc])),
      ih (fun hc => h (List.mem_cons_of_mem _ hc))]
    rfl

theorem splitTab_controlPrefix {c d r : Str} (l : Str) (hc : '\t' ∉ c) (hd : '\t' ∉ d)
    (hr : '\t' ∉ r) :
    splitTab (controlPrefix c d r ++ l) = c :: d :: r :: splitTab l := by
  have : controlPrefix c d r ++ l = c ++ '\t' :: (d ++ '\t' :: (r ++ '\t' :: l)) := by
    simp [controlPrefix]
  rw [this, splitTab_append_tab _ hc, splitTab_append_tab _ hd, splitTab_append_tab _ hr]

theorem controlPrefix_no_nl {c d r : Str} (hc : '\n' ∉ c) (hd : '\n' ∉ d) (hr : '\n' ∉ r) :
    '\n' ∉ controlPrefix c d r := by
  simp [controlPrefix, hc, hd, hr]

theorem controlPrefix_getLast (c d r : Str) : (controlPrefix c d r).getLast? = some '\t' := by
  have : controlPrefix c d r = (c ++ '\t' :: (d ++ '\t' :: r)) ++ ['\t'] := by
    simp [controlPrefix]
  rw [this, List.getLast?_append]
  rfl

theorem trailing_cons_iff (a : Str) (ls : List Str) :
    (1 < (a :: ls).length ∧ (a :: ls).getLast? = some []) ↔ ls.getLast? = some [] := by
  rcases ls with _ | ⟨l, ls⟩
  · simp
  · simp [List.getLast?_cons_cons]

/-- The checks on a file whose control line starts with three tab-terminated
fields, in terms of its parts. -/
theorem checks_controlPrefix (n : Str) {c d r : Str} (text : Str)
    (hc : '\t' ∉ c ∧ '\n' ∉ c) (hd : '\t' ∉ d ∧ '\n' ∉ d) (hr : '\t' ∉ r ∧ '\n' ∉ r) :
    checksBeforeReconciliation n (controlPrefix c d r ++ text) =
      checksOfParts n c d r (splitTab ((splitLines text).headD [])) (splitLines text).tail := by
  have hlines := splitLines_append_of_no_nl text (controlPrefix_no_nl hc.2 hd.2 hr.2)
    (by rw [controlPrefix_getLast]; decide)
  have hne : controlPrefix c d r ++ (splitLines text).headD [] ≠ [] := by
    simp [controlPrefix]
  unfold checksBeforeReconciliation checksOfParts usefulLines
  dsimp only
  rw [hlines]
  simp only [trailing_cons_iff, List.headD_cons, List.drop_succ_cons, List.drop_zero]
  rw [splitTab_controlPrefix _ hc.1 hd.1 hr.1]
  simp only [if_neg hne, List.length_cons, List.getD_cons_zero, List.getD_cons_succ]
  have e : ∀ k : Nat, k + 1 + 1 + 1 = 3 + k := by intro k; omega
  simp only [e]

/-! ## The checks in terms of the parts of the file -/

theorem checksOfParts_ok_iff (n c d r : Str) (more rest : List Str) (dt t : F64)
    (g : GroupSubtotals) :
    checksOfParts n c d r more rest = .ok (dt, t, g) ↔
      nameRegex n = true ∧ rest.getLast? ≠ some [] ∧ more.length = 1 ∧ c = expectedCode n ∧
        dateRegex d = true ∧ (parseInt r).isNaN = false ∧
        (parseFloat (more.getD 0 [])).isNaN = false ∧
        (F64.ofNat (rest.filter fun line => trim line ≠ []).length).eq (parseInt r) = true ∧
        processLines (rest.filter fun line => trim line ≠ []) 0 (F64.ofNat 0)
          ⟨F64.ofNat 0, F64.ofNat 0, F64.ofNat 0, F64.ofNat 0, F64.ofNat 0⟩ = .ok (t, g) ∧
        dt = parseFloat (more.getD 0 []) := by
  unfold checksOfParts
  constructor
  · intro h
    split_ifs at h with h1 h2 h3 h4 h5 h6 h7 h8
    split at h
    · simp at h
    · rename_i t' g' hp
      simp only [Except.ok.injEq, Prod.mk.injEq] at h
      obtain ⟨rfl, rfl, rfl⟩ := h
      refine ⟨h1, h2, by omega, not_not.mp h4, h5,
        by rwa [Bool.not_eq_true] at h6, by rwa [Bool.not_eq_true] at h7, h8, hp, rfl⟩
  · rintro ⟨h1, h2, h3, h4, h5, h6, h7, h8, h9, rfl⟩
    rw [if_neg (not_not.mpr h1), if_neg h2, if_neg (by omega), if_neg (not_not.mpr h4),
      if_neg (not_not.mpr h5), if_neg (by rw [Bool.not_eq_true]; exact h6),
      if_neg (by rw [Bool.not_eq_true]; exact h7), if_neg (not_not.mpr h8), h9]

theorem validateFile_success_iff (n c : Str) :
    validateFile n c = .success ↔
      ∃ d t g, checksBeforeReconciliation n c = .ok (d, t, g) ∧
        ((t.sub d).abs).gt tolerance = false := by
  unfold validateFile
  split
  · rename_i f h
    rw [h]; simp
  · rename_i d t g h
    rw [h, reconcile_success_iff]
    constructor
    · intro hh; exact ⟨d, t, g, rfl, hh⟩
    · rintro ⟨d', t', g', he, hh⟩
      simp only [Except.ok.injEq, Prod.mk.injEq] at he
      obtain ⟨rfl, rfl, rfl⟩ := he
      exact hh

theorem usefulLines_controlPrefix {c d r : Str} (text : Str) (hc : '\n' ∉ c) (hd : '\n' ∉ d)
    (hr : '\n' ∉ r) :
    usefulLines (splitLines (controlPrefix c d r ++ text)) =
      (splitLines text).tail.filter fun line => trim line ≠ [] := by
  rw [splitLines_append_of_no_nl text (controlPrefix_no_nl hc hd hr)
    (by rw [controlPrefix_getLast]; decide)]
  rfl

theorem parseInt_of_exactInt {r : Str} {v : Int} (h : exactInt r = some v) :
    ∃ sg k, parseInt r = roundPos sg k 1 ∧ (if sg then -(k : Int) else (k : Int)) = v := by
  unfold exactInt at h
  unfold parseInt
  rcases hm : mathInt r with _ | ⟨sg, k⟩
  · rw [hm] at h; simp at h
  · rw [hm] at h
    simp only [Option.map_some', Option.some.injEq] at h
    exact ⟨sg, k, rfl, h⟩

theorem parseInt_isNaN_of_exactInt {r : Str} {v : Int} (h : exactInt r = some v) :
    (parseInt r).isNaN = false := by
  obtain ⟨sg, k, h1, _⟩ := parseInt_of_exactInt h
  rw [h1]
  have := roundPos_ne_nan sg k 1
  cases hx : roundPos sg k 1 <;> simp_all [F64.isNaN]

theorem count_eq_parseInt_iff {r : Str} {v : Int} {len : Nat} (h : exactInt r = some v)
    (hlen : len < 2 ^ 53) : (F64.ofNat len).eq (parseInt r) = true ↔ v = (len : Int) := by
  obtain ⟨sg, k, h1, h2⟩ := parseInt_of_exactInt h
  rw [h1, ofNat_eq_roundPos_iff hlen, h2]

/-! ## The loop over the useful lines -/

theorem processLine_ok_index {l : Str} {i : Nat} (j : Nat) {t : F64} {g : GroupSubtotals}
    {r : F64 × GroupSubtotals} (h : processLine l i t g = .ok r) :
    processLine l j t g = .ok r := by
  unfold processLine at h ⊢
  dsimp only at h ⊢
  split_ifs at h ⊢
  all_goals exact h

theorem processLines_cons (l : Str) (rest : List Str) (i : Nat) (t : F64) (g : GroupSubtotals) :
    processLines (l :: rest) i t g =
      match processLine l i t g with
      | .error f => .error f
      | .ok (total, subtotals) => processLines rest (i + 1) total subtotals := by
  rw [processLines]

theorem processLines_ok_index {ls : List Str} {i : Nat} (j : Nat) {t : F64}
    {g : GroupSubtotals} {r : F64 × GroupSubtotals} (h : processLines ls i t g = .ok r) :
    processLines ls j t g = .ok r := by
  induction ls generalizing i j t g with
  | nil => exact h
  | cons l ls ih =>
    rw [processLines_cons] at h ⊢
    rcases hl : processLine l i t g with f | ⟨t', g'⟩
    · rw [hl] at h; simp at h
    · rw [hl] at h
      rw [processLine_ok_index j hl]
      exact ih (j + 1) h

/-- A data line `g\ta` with numeric fields: the loop body adds the amount to
the total when the group code passes `inMainGroup`, and never fails. -/
theorem processLine_dataLine {g a : Str} (i : Nat) (t : F64) (gs : GroupSubtotals)
    (hg : '\t' ∉ g) (ha : '\t' ∉ a) (hgn : (parseInt g).isNaN = false)
    (han : (parseFloat a).isNaN = false) :
    ∃ gs', processLine (dataLine (g, a)) i t gs =
      .ok (if inMainGroup (parseInt g) then t.add (parseFloat a) else t, gs') ∧
      (inMainGroup (parseInt g) = false → gs' = gs) := by
  have hparts : splitTab (dataLine (g, a)) = [g, a] := by
    unfold dataLine
    rw [splitTab_append_tab _ hg, splitTab_of_no_tab ha]
  have hmem : ¬ '\t' ∉ dataLine (g, a) := by simp [dataLine]
  unfold processLine
  dsimp only
  rw [if_neg hmem, hparts]
  simp only [List.length_cons, List.length_nil, List.getD_cons_zero, List.getD_cons_succ]
  rw [if_neg (by omega), hgn, han]
  simp only [Bool.or_self, Bool.false_eq_true, if_false]
  cases hin : inMainGroup (parseInt g)
  · exact ⟨gs, rfl, fun _ => rfl⟩
  · exact ⟨_, rfl, fun h => by simp at h⟩

theorem processLines_append {xs ys : List Str} {i : Nat} {t t1 : F64} {g g1 : GroupSubtotals}
    (h : processLines xs i t g = .ok (t1, g1)) :
    processLines (xs ++ ys) i t g = processLines ys (i + xs.length) t1 g1 := by
  induction xs generalizing i t g with
  | nil =>
    simp only [processLines, Except.ok.injEq, Prod.mk.injEq] at h
    obtain ⟨rfl, rfl⟩ := h
    rfl
  | cons x xs ih =>
    rw [List.cons_append, processLines_cons]
    rw [processLines_cons] at h
    rcases hl : processLine x i t g with f | ⟨t', g'⟩
    · rw [hl] at h; simp at h
    · rw [hl] at h
      dsimp only at h ⊢
      rw [ih h]
      congr 1
      simp only [List.length_cons]
      omega

theorem processLines_ok_prefix {xs ys : List Str} {i : Nat} {t : F64} {g : GroupSubtotals}
    {r : F64 × GroupSubtotals} (h : processLines (xs ++ ys) i t g = .ok r) :
    ∃ t1 g1, processLines xs i t g = .ok (t1, g1) := by
  induction xs generalizing i t g with
  | nil => exact ⟨t, g, rfl⟩
  | cons x xs ih =>
    rw [List.cons_append, processLines_cons] at h
    rw [processLines_cons]
    rcases hl : processLine x i t g with f | ⟨t', g'⟩
    · rw [hl] at h; simp at h
    · rw [hl] at h
      exact ih h

/-- Inserting a line that the loop body passes over unchanged does not change
the result of a loop that succeeds. -/
theorem processLines_insert {xs ys : List Str} {line : Str} {i : Nat} {t : F64}
    {g : GroupSubtotals} {r : F64 × GroupSubtotals}
    (hline : ∀ j t' g', processLine line j t' g' = .ok (t', g'))
    (h : processLines (xs ++ ys) i t g = .ok r) :
    processLines (xs ++ line :: ys) i t g = .ok r := by
  obtain ⟨t1, g1, hx⟩ := processLines_ok_prefix h
  rw [processLines_append hx] at h
  rw [processLines_append hx, processLines_cons, hline]
  exact processLines_ok_index _ h

/-! ## Blank lines -/

theorem not_ws_of_isDigit {c : Char} (h : c.isDigit = true) : isStrWhiteSpaceChar c = false := by
  rw [isDigit_iff] at h
  unfold isStrWhiteSpaceChar
  simp only [Bool.or_eq_false_iff, decide_eq_false_iff_not, Bool.and_eq_false_iff]
  omega

theorem mem_dropWhile_of_not {α : Type} {p : α → Bool} {c : α} {s : List α} (hc : c ∈ s)
    (hp : p c = false) : c ∈ s.dropWhile p := by
  induction s with
  | nil => simp at hc
  | cons x s ih =>
    rw [List.dropWhile_cons]
    split_ifs with hx
    · rcases List.mem_cons.mp hc with rfl | hc
      · rw [hp] at hx; simp at hx
      · exact ih hc
    · exact hc

theorem trim_ne_nil {c : Char} {s : Str} (hc : c ∈ s) (hp : isStrWhiteSpaceChar c = false) :
    trim s ≠ [] := by
  unfold trim
  have h1 := mem_dropWhile_of_not hc hp
  have h2 := mem_dropWhile_of_not (List.mem_reverse.mpr h1) hp
  intro h
  have h3 := List.mem_reverse.mpr h2
  rw [h] at h3
  simp at h3

theorem splitSign_sublist (s : Str) : ∀ c ∈ (splitSign s).2, c ∈ s := by
  intro c hc
  unfold splitSign at hc
  split at hc
  · exact List.mem_cons_of_mem _ hc
  · exact List.mem_cons_of_mem _ hc
  · exact hc

theorem exists_digit_of_parseInt {g : Str} (h : (parseInt g).isNaN = false) :
    ∃ c ∈ g, c.isDigit = true := by
  unfold parseInt at h
  rcases hm : mathInt g with _ | ⟨sg, k⟩
  · rw [hm] at h; simp [F64.isNaN] at h
  · unfold mathInt at hm
    dsimp only at hm
    split_ifs at hm with hz
    rcases hz' : List.takeWhile Char.isDigit (splitSign (List.dropWhile isStrWhiteSpaceChar g)).2
      with _ | ⟨c, z⟩
    · exact absurd hz' hz
    · have hc : c ∈ List.takeWhile Char.isDigit
          (splitSign (List.dropWhile isStrWhiteSpaceChar g)).2 := by rw [hz']; simp
      refine ⟨c, ?_, List.mem_takeWhile_imp hc⟩
      have h1 := (List.takeWhile_sublist _).subset hc
      have h2 := splitSign_sublist _ c h1
      exact (List.dropWhile_sublist _).subset h2

/-! ## Decimal fields -/

theorem dropWhile_ws_of_head {c : Char} (u : Str) (h : isStrWhiteSpaceChar c = false) :
    (c :: u).dropWhile isStrWhiteSpaceChar = c :: u := by
  rw [List.dropWhile_cons, h]
  rfl

theorem splitSign_of_digit {c : Char} (u : Str) (h : c.isDigit = true) :
    splitSign (c :: u) = (false, c :: u) := by
  have h1 : c ≠ '-' := by rintro rfl; exact absurd h (by decide)
  have h2 : c ≠ '+' := by rintro rfl; exact absurd h (by decide)
  unfold splitSign
  split
  · rename_i heq; injection heq with heq _; exact absurd heq h1
  · rename_i heq; injection heq with heq _; exact absurd heq h2
  · rfl

theorem isDigits_chars {s : Str} (h : IsDigits s) : ∀ c ∈ s, IsNumberChar c :=
  fun c hc => Or.inl (h.2 c hc)

theorem isDecimalInt_chars {s : Str} (h : IsDecimalInt s) : ∀ c ∈ s, IsNumberChar c := by
  obtain ⟨ds, hds, rfl | rfl⟩ := h
  · exact isDigits_chars hds
  · intro c hc
    rcases List.mem_cons.mp hc with rfl | hc
    · exact Or.inr (Or.inl rfl)
    · exact isDigits_chars hds c hc

theorem isDecimalNumber_chars {s : Str} (h : IsDecimalNumber s) : ∀ c ∈ s, IsNumberChar c := by
  obtain ⟨ip, hip, rfl | ⟨fp, hfp, rfl⟩⟩ := h
  · exact isDecimalInt_chars hip
  · intro c hc
    rcases List.mem_append.mp hc with hc | hc
    · exact isDecimalInt_chars hip c hc
    · rcases List.mem_cons.mp hc with rfl | hc
      · exact Or.inr (Or.inr rfl)
      · exact isDigits_chars hfp c hc

theorem isNumberChar_ne_of_not {c x : Char} (h : IsNumberChar c) (h1 : x.isDigit = false)
    (h2 : x ≠ '-') (h3 : x ≠ '.') : c ≠ x := by
  rintro rfl
  rcases h with h | h | h
  · rw [h1] at h; exact absurd h (by decide)
  · exact h2 h
  · exact h3 h

theorem not_mem_of_chars {s : Str} {x : Char} (h : ∀ c ∈ s, IsNumberChar c)
    (h1 : x.isDigit = false) (h2 : x ≠ '-') (h3 : x ≠ '.') : x ∉ s :=
  fun hx => isNumberChar_ne_of_not (h x hx) h1 h2 h3 rfl

theorem getLast?_ne_of_chars {s : Str} {x : Char} (h : ∀ c ∈ s, IsNumberChar c)
    (h1 : x.isDigit = false) (h2 : x ≠ '-') (h3 : x ≠ '.') : s.getLast? ≠ some x :=
  fun hx => not_mem_of_chars h h1 h2 h3 (List.mem_of_getLast?_eq_some hx)

theorem isDigits_head {s : Str} (h : IsDigits s) : ∃ c u, s = c :: u ∧ c.isDigit = true := by
  rcases s with _ | ⟨c, u⟩
  · exact absurd rfl h.1
  · exact ⟨c, u, rfl, h.2 c (by simp)⟩

theorem takeWhile_digits {s : Str} (h : IsDigits s) : s.takeWhile Char.isDigit = s := by
  rw [List.takeWhile_eq_self_iff]
  exact h.2

theorem mathInt_of_digits {s : Str} (h : IsDigits s) : mathInt s = some (false, digitsVal s) := by
  obtain ⟨c, u, rfl, hc⟩ := isDigits_head h
  unfold mathInt
  dsimp only
  rw [dropWhile_ws_of_head u (not_ws_of_isDigit hc), splitSign_of_digit u hc]
  dsimp only
  rw [takeWhile_digits h, if_neg (by simp)]

theorem exactInt_of_digits {s : Str} (h : IsDigits s) :
    exactInt s = some (digitsVal s : Int) := by
  unfold exactInt
  rw [mathInt_of_digits h]
  rfl

theorem parseInt_of_digits {s : Str} (h : IsDigits s) :
    parseInt s = F64.ofNat (digitsVal s) := by
  unfold parseInt
  rw [mathInt_of_digits h]
  rfl

theorem mathInt_of_decimalInt {s : Str} (h : IsDecimalInt s) : ∃ p, mathInt s = some p := by
  obtain ⟨ds, hds, rfl | rfl⟩ := h
  · exact ⟨_, mathInt_of_digits hds⟩
  · refine ⟨(true, digitsVal ds), ?_⟩
    unfold mathInt
    dsimp only
    rw [dropWhile_ws_of_head ds (by decide)]
    have : splitSign ('-' :: ds) = (true, ds) := rfl
    rw [this]
    dsimp only
    rw [takeWhile_digits hds, if_neg hds.1]

theorem parseInt_not_nan_of_decimalInt {s : Str} (h : IsDecimalInt s) :
    (parseInt s).isNaN = false := by
  obtain ⟨⟨sg, k⟩, hp⟩ := mathInt_of_decimalInt h
  unfold parseInt
  rw [hp]
  dsimp only
  have := roundPos_ne_nan sg k 1
  cases hx : roundPos sg k 1 <;> simp_all [F64.isNaN]

/-- A text whose first character after white space and an optional sign is a
digit reads as a number. -/
theorem parseFloat_not_nan_of_digit {s u : Str} {c : Char}
    (hu : (splitSign (s.dropWhile isStrWhiteSpaceChar)).2 = c :: u) (hc : c.isDigit = true) :
    (parseFloat s).isNaN = false := by
  have hlit : ∃ sg k e, strDecimalLiteral s = some (.decimal sg k e) := by
    unfold strDecimalLiteral
    dsimp only
    rw [hu]
    have hI : c ≠ 'I' := by rintro rfl; exact absurd hc (by decide)
    have hpre : ("Infinity".toList.isPrefixOf (c :: u)) = false := by
      show (('I' :: "nfinity".toList).isPrefixOf (c :: u)) = false
      rw [List.isPrefixOf_cons₂]
      simp [Ne.symm hI]
    rw [hpre]
    have hip : List.takeWhile Char.isDigit (c :: u) ≠ [] := by
      rw [List.takeWhile_cons, hc]; simp
    simp only [Bool.false_eq_true, if_false]
    rw [if_neg (fun h => hip h.1)]
    exact ⟨_, _, _, rfl⟩
  obtain ⟨sg, k, e, hl⟩ := hlit
  unfold parseFloat
  rw [hl]
  dsimp only
  have := roundPos_ne_nan sg (k * 10 ^ e.toNat) (10 ^ (-e).toNat)
  cases hx : roundPos sg (k * 10 ^ e.toNat) (10 ^ (-e).toNat) <;> simp_all [F64.isNaN]

theorem parseFloat_not_nan_of_decimalNumber {s : Str} (h : IsDecimalNumber s) :
    (parseFloat s).isNaN = false := by
  obtain ⟨ip, ⟨ds, hds, hip⟩, hs⟩ := h
  obtain ⟨c, u, rfl, hc⟩ := isDigits_head hds
  have key : ∀ tl : Str, (parseFloat (ip ++ tl)).isNaN = false := by
    intro tl
    rcases hip with rfl | rfl
    · apply parseFloat_not_nan_of_digit (c := c) (u := u ++ tl) _ hc
      rw [List.cons_append, dropWhile_ws_of_head _ (not_ws_of_isDigit hc),
        splitSign_of_digit _ hc]
    · apply parseFloat_not_nan_of_digit (c := c) (u := u ++ tl) _ hc
      rw [List.cons_append, dropWhile_ws_of_head _ (by decide)]
      rfl
  rcases hs with rfl | ⟨fp, _, rfl⟩
  · simpa using key []
  · exact key _

/-! ## A file built from its lines -/

theorem joinLines_cons_append (p l : Str) (ls : List Str) :
    joinLines ((p ++ l) :: ls) = p ++ joinLines (l :: ls) := by
  rcases ls with _ | ⟨l2, ls⟩
  · rfl
  · simp [joinLines]

theorem splitLines_joinLines {ls : List Str} (hne : ls ≠ [])
    (h : ∀ l ∈ ls, '\n' ∉ l ∧ l.getLast? ≠ some '\r') : splitLines (joinLines ls) = ls := by
  induction ls with
  | nil => exact absurd rfl hne
  | cons l ls ih =>
    rcases ls with _ | ⟨l2, ls⟩
    · exact splitLines_of_no_nl (h l (by simp)).1
    · have hl := h l (by simp)
      show splitLines (l ++ '\n' :: joinLines (l2 :: ls)) = _
      rw [splitLines_append_nl _ hl.2, splitLines_of_no_nl hl.1,
        ih (by simp) (fun x hx => h x (List.mem_cons_of_mem _ hx))]
      rfl

/-! ## The group test on integers -/

theorem ofNat_one : F64.ofNat 1 = .fin false (2 ^ 52) (-52) := by decide!

theorem ofNat_five : F64.ofNat 5 = .fin false (5 * 2 ^ 50) (-50) := by decide!

theorem scaled_false (m : Nat) (k : Int) : F64.scaled false m k = ((m * 2 ^ k.toNat : Nat) : Int) := by
  simp [F64.scaled]

theorem scaled_true_nonpos (m : Nat) (k : Int) : F64.scaled true m k ≤ 0 := by
  simp [F64.scaled]

theorem not_ge_one_of_neg (m : Nat) (e : Int) :
    (F64.fin true m e).ge (F64.ofNat 1) = false := by
  rw [ofNat_one]
  simp only [F64.ge, F64.le, F64.lt, F64.eq, Bool.or_eq_false_iff, decide_eq_false_iff_not,
    not_lt, Bool.and_eq_false_iff, beq_eq_false_iff_ne]
  refine ⟨?_, ?_⟩
  · rw [scaled_false]
    exact le_trans (scaled_true_nonpos _ _) (by positivity)
  · simp

theorem not_ge_one_of_zero (s : Bool) : (F64.fin s 0 (-1074)).ge (F64.ofNat 1) = false := by
  rw [ofNat_one]; cases s <;> decide!

/-- A positive integer below `2^53` passes `<= 5` only when it is at most 5. -/
theorem le_five_small {n : Nat} (hn : 0 < n) (h : n < 2 ^ 53) :
    (F64.fin false (n * 2 ^ (53 - bitLen n)) ((bitLen n : Int) - 53)).le (F64.ofNat 5) = true ↔
      n ≤ 5 := by
  constructor
  · intro hle
    by_contra hc
    have h6 : 6 ≤ n := by omega
    have hb : 3 ≤ bitLen n := by
      have := lt_bitLen_of_le (n := n) (k := 2) (by omega)
      omega
    have hb2 := bitLen_le_of_lt hn h
    rw [ofNat_five] at hle
    simp only [F64.le, F64.lt, F64.eq, Bool.or_eq_true, decide_eq_true_eq, Bool.and_eq_true,
      beq_iff_eq] at hle
    have hmin : min ((bitLen n : Int) - 53) (-50) = -50 := by omega
    rw [hmin, scaled_false, scaled_false] at hle
    have e1 : ((bitLen n : Int) - 53 - -50).toNat = bitLen n - 3 := by omega
    have e2 : ((-50 : Int) - -50).toNat = 0 := by omega
    rw [e1, e2] at hle
    have key : n * 2 ^ (53 - bitLen n) * 2 ^ (bitLen n - 3) = n * 2 ^ 50 := by
      rw [mul_assoc, ← pow_add]
      congr 2
      omega
    rw [key] at hle
    rcases hle with hlt | ⟨_, hm⟩ | ⟨⟨_, hm⟩, he⟩
    · have : n * 2 ^ 50 < 5 * 2 ^ 50 * 2 ^ 0 := by exact_mod_cast hlt
      omega
    · omega
    · have hb3 : bitLen n = 3 := by omega
      rw [hb3] at hm
      omega
  · intro h5
    have : n = 1 ∨ n = 2 ∨ n = 3 ∨ n = 4 ∨ n = 5 := by omega
    rcases this with rfl | rfl | rfl | rfl | rfl <;> decide!

theorem ge_one_small {n : Nat} (hn : 0 < n) (h : n < 2 ^ 53) :
    (F64.fin false (n * 2 ^ (53 - bitLen n)) ((bitLen n : Int) - 53)).ge (F64.ofNat 1) = true := by
  have hb := bitLen_pos hn
  have hb2 := bitLen_le_of_lt hn h
  rw [ofNat_one]
  simp only [F64.ge, F64.le, F64.lt, F64.eq, Bool.or_eq_true, decide_eq_true_eq, Bool.and_eq_true,
    beq_iff_eq]
  have hmin : min (-52 : Int) ((bitLen n : Int) - 53) = -52 := by omega
  rw [hmin, scaled_false, scaled_false]
  have e1 : ((-52 : Int) - -52).toNat = 0 := by omega
  have e2 : ((bitLen n : Int) - 53 - -52).toNat = bitLen n - 1 := by omega
  rw [e1, e2]
  have key : n * 2 ^ (53 - bitLen n) * 2 ^ (bitLen n - 1) = n * 2 ^ 52 := by
    rw [mul_assoc, ← pow_add]
    congr 2
    omega
  rw [key]
  by_cases h1 : n = 1
  · subst h1
    right; right
    rw [bitLen_one]
    decide
  · left
    have : 2 ^ 52 * 2 ^ 0 < n * 2 ^ 52 := by omega
    exact_mod_cast this

theorem not_le_five_large {m : Nat} {e : Int} (he : 1 ≤ e) (hm : 2 ^ 52 ≤ m) :
    (F64.fin false m e).le (F64.ofNat 5) = false := by
  rw [ofNat_five]
  simp only [F64.le, F64.lt, F64.eq, Bool.or_eq_false_iff, decide_eq_false_iff_not, not_lt,
    Bool.and_eq_false_iff, beq_eq_false_iff_ne]
  have hmin : min e (-50) = -50 := by omega
  rw [hmin, scaled_false, scaled_false]
  have e2 : ((-50 : Int) - -50).toNat = 0 := by omega
  rw [e2]
  refine ⟨?_, ⟨Or.inl (by omega), Or.inr (by omega)⟩⟩
  have h1 : 2 ^ 51 ≤ 2 ^ (e - -50).toNat := Nat.pow_le_pow_right (by decide) (by omega)
  have h2 : 5 * 2 ^ 50 * 2 ^ 0 ≤ m * 2 ^ (e - -50).toNat := by
    calc 5 * 2 ^ 50 * 2 ^ 0 ≤ 2 ^ 52 * 2 ^ 51 := by norm_num
      _ ≤ m * 2 ^ (e - -50).toNat := Nat.mul_le_mul hm h1
  exact_mod_cast h2

/-- The test `groupCode >= 1 && groupCode <= 5` on the Number of an integer
holds exactly for the integers 1 to 5. -/
theorem inMainGroup_roundPos (sg : Bool) (n : Nat) :
    inMainGroup (roundPos sg n 1) = true ↔ sg = false ∧ 1 ≤ n ∧ n ≤ 5 := by
  unfold inMainGroup
  rcases Nat.eq_zero_or_pos n with rfl | hn
  · have hz : roundPos sg 0 1 = .fin sg 0 (-1074) := by simp [roundPos]
    rw [hz, not_ge_one_of_zero]
    simp
  · cases sg
    · by_cases h : n < 2 ^ 53
      · rw [roundPos_small false hn h, ge_one_small hn h, Bool.true_and, le_five_small hn h]
        constructor
        · intro h5; exact ⟨rfl, hn, h5⟩
        · intro h5; exact h5.2.2
      · have hn5 : ¬ n ≤ 5 := by omega
        rcases roundPos_large false (not_lt.mp h) with h1 | ⟨m, e, h1, he, hm⟩
        · rw [h1]
          simp only [F64.le, F64.lt, F64.eq, ofNat_five]
          simp [hn5]
        · rw [h1, not_le_five_large he hm]
          simp [hn5]
    · rcases roundPos_shape true n 1 with h1 | ⟨h0, _⟩ | ⟨m, e, h1, _, hm⟩
      · rw [h1]
        simp [F64.ge, F64.le, F64.lt, F64.eq, ofNat_one]
      · omega
      · rw [h1, not_ge_one_of_neg m e]
        simp

theorem inMainGroup_parseInt {g : Str} {k : Int} (h : exactInt g = some k) :
    inMainGroup (parseInt g) = true ↔ 1 ≤ k ∧ k ≤ 5 := by
  obtain ⟨sg, n, h1, h2⟩ := parseInt_of_exactInt h
  rw [h1, inMainGroup_roundPos]
  cases sg <;> simp at h2 ⊢ <;> omega

/-! ## The shape of a file that passes the control-line checks -/

theorem splitTab_head_spec (s : Str) :
    '\t' ∉ (splitTab s).headD [] ∧
      (((splitTab s).tail = [] ∧ s = (splitTab s).headD []) ∨
        ∃ rest, s = (splitTab s).headD [] ++ '\t' :: rest ∧ splitTab rest = (splitTab s).tail) := by
  induction s with
  | nil => simp [splitTab]
  | cons c cs ih =>
    by_cases hc : c = '\t'
    · subst hc
      rw [splitTab, if_pos rfl]
      exact ⟨by simp, Or.inr ⟨cs, rfl, rfl⟩⟩
    · rw [splitTab_cons_other cs hc]
      simp only [List.headD_cons, List.tail_cons]
      obtain ⟨h1, h2⟩ := ih
      refine ⟨?_, ?_⟩
      · intro hm
        rcases List.mem_cons.mp hm with h | h
        · exact hc h.symm
        · exact h1 h
      · rcases h2 with ⟨h2, h3⟩ | ⟨rest, h2, h3⟩
        · left; exact ⟨h2, by rw [← h3]⟩
        · right; exact ⟨rest, by rw [List.cons_append, ← h2], h3⟩

theorem splitLines_head_spec (s : Str) :
    '\n' ∉ (splitLines s).headD [] ∧ ∃ rest, s = (splitLines s).headD [] ++ rest := by
  induction s with
  | nil => simp [splitLines]
  | cons c cs ih =>
    by_cases h1 : c = '\n'
    · rw [splitLines, if_pos h1]
      exact ⟨by simp, c :: cs, rfl⟩
    · by_cases h2 : c = '\r' ∧ cs.head? = some '\n'
      · rw [splitLines, if_neg h1, if_pos h2]
        rcases cs with _ | ⟨d, ds⟩
        · simp at h2
        · have hd : d = '\n' := by simpa using h2.2
          subst hd
          rw [splitLines, if_pos rfl]
          exact ⟨by simp, _, rfl⟩
      · rw [splitLines_cons_other h1 h2]
        simp only [List.headD_cons]
        obtain ⟨h3, rest, h4⟩ := ih
        refine ⟨?_, rest, by rw [List.cons_append, ← h4]⟩
        intro hm
        rcases List.mem_cons.mp hm with h | h
        · exact h1 h.symm
        · exact h3 h

theorem checks_ok_fields {n c : Str} {res : F64 × F64 × GroupSubtotals}
    (h : checksBeforeReconciliation n c = .ok res) :
    (splitTab ((splitLines c).headD [])).length = 4 ∧
      (parseInt ((splitTab ((splitLines c).headD [])).getD 2 [])).isNaN = false := by
  unfold checksBeforeReconciliation at h
  dsimp only at h
  split_ifs at h with h1 h2 h3 h4 h5 h6 h7 h8 h9
  exact ⟨not_not.mp h4, by rwa [Bool.not_eq_true] at h7⟩

theorem exactInt_of_parseInt {r : Str} (h : (parseInt r).isNaN = false) :
    ∃ v, exactInt r = some v := by
  unfold parseInt at h
  unfold exactInt
  rcases hm : mathInt r with _ | p
  · rw [hm] at h; simp [F64.isNaN] at h
  · exact ⟨_, rfl⟩

/-- Every file that passes the checks has a control line that starts with
three tab-terminated fields, the third of which reads as an integer. -/
theorem checks_ok_controlPrefix {n content : Str} {res : F64 × F64 × GroupSubtotals}
    (h : checksBeforeReconciliation n content = .ok res) :
    ∃ c d r text, content = controlPrefix c d r ++ text ∧ ('\t' ∉ c ∧ '\n' ∉ c) ∧
      ('\t' ∉ d ∧ '\n' ∉ d) ∧ ('\t' ∉ r ∧ '\n' ∉ r) ∧ ∃ v, exactInt r = some v := by
  obtain ⟨hlen, hnan⟩ := checks_ok_fields h
  obtain ⟨hnl, rest, hcontent⟩ := splitLines_head_spec content
  generalize (splitLines content).headD [] = l0 at hlen hnan hnl hcontent
  obtain ⟨hc, h1⟩ := splitTab_head_spec l0
  rcases h1 with ⟨h1, _⟩ | ⟨r1, hl0, hs1⟩
  · have := splitTab_eq_head_tail l0
    rw [this, h1] at hlen
    simp at hlen
  obtain ⟨hd, h2⟩ := splitTab_head_spec r1
  rcases h2 with ⟨h2, _⟩ | ⟨r2, hr1, hs2⟩
  · have := splitTab_eq_head_tail l0
    rw [this, ← hs1, splitTab_eq_head_tail r1, h2] at hlen
    simp at hlen
  obtain ⟨hr, _⟩ := splitTab_head_spec r2
  have hfields : splitTab l0 = (splitTab l0).headD [] :: (splitTab r1).headD [] ::
      (splitTab r2).headD [] :: (splitTab r2).tail := by
    conv_lhs => rw [splitTab_eq_head_tail l0, ← hs1, splitTab_eq_head_tail r1, ← hs2,
      splitTab_eq_head_tail r2]
  rw [hfields] at hlen hnan
  simp only [List.getD_cons_succ, List.getD_cons_zero] at hnan
  rcases h3 : (splitTab r2).tail with _ | ⟨t, ts⟩
  · rw [h3] at hlen; simp at hlen
  obtain ⟨_, h4⟩ := splitTab_head_spec r2
  rcases h4 with ⟨h4, _⟩ | ⟨r3, hr2, _⟩
  · rw [h3] at h4; simp at h4
  have hl0' : l0 = controlPrefix ((splitTab l0).headD []) ((splitTab r1).headD [])
      ((splitTab r2).headD []) ++ r3 := by
    conv_lhs => rw [hl0, hr1, hr2]
    simp [controlPrefix]
  have hsub : ∀ x : Str, (∀ ch ∈ x, ch ∈ l0) → '\n' ∉ x := fun x hx hm => hnl (hx _ hm)
  refine ⟨(splitTab l0).headD [], (splitTab r1).headD [], (splitTab r2).headD [],
    r3 ++ rest, ?_, ⟨hc, ?_⟩, ⟨hd, ?_⟩, ⟨hr, ?_⟩, exactInt_of_parseInt hnan⟩
  · rw [hcontent, ← List.append_assoc, ← hl0']
  · apply hsub
    intro ch hch
    rw [hl0']
    exact List.mem_append_left _ (List.mem_append_left _ hch)
  · apply hsub
    intro ch hch
    rw [hl0']
    exact List.mem_append_left _ (List.mem_append_right _
      (List.mem_cons_of_mem _ (List.mem_append_left _ hch)))
  · apply hsub
    intro ch hch
    rw [hl0']
    exact List.mem_append_left _ (List.mem_append_right _
      (List.mem_cons_of_mem _ (List.mem_append_right _
        (List.mem_cons_of_mem _ (List.mem_append_left _ hch)))))

/-- Every file that validates has a control line that starts with three
tab-terminated fields, the third of which reads as an integer. -/
theorem success_controlPrefix {n content : Str} (h : validateFile n content = .success) :
    ∃ c d r text, content = controlPrefix c d r ++ text ∧ ('\t' ∉ c ∧ '\n' ∉ c) ∧
      ('\t' ∉ d ∧ '\n' ∉ d) ∧ ('\t' ∉ r ∧ '\n' ∉ r) ∧ ∃ v, exactInt r = some v := by
  obtain ⟨d, t, g, hchk, _⟩ := (validateFile_success_iff _ _).mp h
  exact checks_ok_controlPrefix hchk

/-! ## The claims -/

/-- C1: a file name outside the pattern `TVWXYB[1-4]` + eight digits + `.txt`
is rejected with the file-name failure, whatever the content is. -/
theorem invalid_name_rejected (fileName content : Str)
    (h : ¬ ∃ z, NamePattern z fileName) :
    validateFile fileName content = .failure .nameFormatInvalid := by
  have hn : ¬ nameRegex fileName = true := fun hn => h (pattern_of_nameRegex hn)
  unfold validateFile checksBeforeReconciliation
  rw [if_pos hn]

theorem invalid_name_rejected_witness :
    (¬ ∃ z, NamePattern z "TVWXYB520012024.txt".toList) ∧
      validateFile "TVWXYB520012024.txt".toList
        "TVWXY\t20/01/2024\t2\t300.00\n1\t100.00\n2\t200.00".toList =
        .failure .nameFormatInvalid :=
  ⟨fun h => absurd ((nameRegex_iff _).mpr h) (by decide),
   invalid_name_rejected _ _ (fun h => absurd ((nameRegex_iff _).mpr h) (by decide))⟩

/-- C8: with a valid file name, no trailing line break and a non-empty first
line, a first line that splits on tab into `k ≠ 4` fields gives the
field-count failure reporting `k`, whatever the fields and data lines are. -/
theorem control_field_count_reported (z : Char) (fileName content : Str)
    (hn : NamePattern z fileName) (hnl : ¬ EndsWithLineBreak content)
    (hfirst : (splitLines content).headD [] ≠ [])
    (hk : (splitTab ((splitLines content).headD [])).length ≠ 4) :
    validateFile fileName content =
      .failure (.controlFieldCountMismatch (splitTab ((splitLines content).headD [])).length) := by
  have hn' : ¬ ¬ nameRegex fileName = true := not_not.mpr (nameRegex_of_pattern hn)
  have ht : ¬ (1 < (splitLines content).length ∧ (splitLines content).getLast? = some []) :=
    fun h => hnl ((trailing_blank_iff content).mp h)
  unfold validateFile checksBeforeReconciliation
  dsimp only
  rw [if_neg hn', if_neg ht, if_neg hfirst, if_pos hk]

theorem control_field_count_reported_witness :
    validateFile "TVWXYB120012024.txt".toList "TVWXY\t20/01/2024\t2\n1\t100.00".toList =
      .failure (.controlFieldCountMismatch 3) :=
  control_field_count_reported '1' "TVWXYB120012024.txt".toList
    "TVWXY\t20/01/2024\t2\n1\t100.00".toList sample_name_pattern
    (by unfold EndsWithLineBreak; decide) (by decide) (by decide)

/-- C9 as stated fails: for the valid name `TVWXYB120012024.txt`, balance code
`1`, the expected control code is not `TVWXY1`. -/
theorem expected_code_not_balance_suffixed :
    NamePattern '1' "TVWXYB120012024.txt".toList ∧
      expectedCode "TVWXYB120012024.txt".toList ≠ "TVWXY".toList ++ ['1'] :=
  ⟨sample_name_pattern, by decide⟩

/-- C9, amended: for every valid file name, whatever its balance code, the
expected control code (the first five characters of the name) is the literal
`TVWXY`; the balance code digit is not part of it. -/
theorem expected_code_is_literal (z : Char) (fileName : Str) (hn : NamePattern z fileName) :
    expectedCode fileName = "TVWXY".toList :=
  expectedCode_of_pattern hn

theorem expected_code_is_literal_witness :
    NamePattern '1' "TVWXYB120012024.txt".toList ∧
      expectedCode "TVWXYB120012024.txt".toList = "TVWXY".toList :=
  ⟨sample_name_pattern, expected_code_is_literal '1' _ sample_name_pattern⟩

/-- C10: with a valid file name, the trailing-blank-line failure is returned
exactly when the content ends with a line break, that is when the split yields
more than one line and the last is empty; no later check is consulted. -/
theorem trailing_blank_line_iff (z : Char) (fileName content : Str)
    (hn : NamePattern z fileName) :
    (validateFile fileName content = .failure .trailingBlankLine ↔ EndsWithLineBreak content) ∧
      (EndsWithLineBreak content ↔
        (1 < (splitLines content).length ∧ (splitLines content).getLast? = some [])) := by
  refine ⟨?_, (trailing_blank_iff content).symm⟩
  rw [validateFile_failure_iff _ _ _ (by intro d; simp),
    checks_trailing_iff (nameRegex_of_pattern hn), trailing_blank_iff]

theorem trailing_blank_line_iff_witness :
    NamePattern '1' "TVWXYB120012024.txt".toList ∧
      ((validateFile "TVWXYB120012024.txt".toList "x\ty\r\n".toList =
          .failure .trailingBlankLine ↔ EndsWithLineBreak "x\ty\r\n".toList) ∧
        (EndsWithLineBreak "x\ty\r\n".toList ↔
          (1 < (splitLines "x\ty\r\n".toList).length ∧
            (splitLines "x\ty\r\n".toList).getLast? = some []))) :=
  ⟨sample_name_pattern, trailing_blank_line_iff '1' _ _ sample_name_pattern⟩

/-- C2: the file whose two data lines are `1\tInfinity` and `1\t-Infinity`
and whose declared total is `5` passes every check: the calculated total is
`NaN`, which is not within `0.001` of `5`, and `validateFile` still displays
success. -/
theorem nan_total_accepted :
    checksBeforeReconciliation "TVWXYB120012024.txt".toList
        "TVWXY\t20/01/2024\t2\t5\n1\tInfinity\n1\t-Infinity".toList =
      .ok (F64.ofNat 5, F64.nan, ⟨F64.nan, F64.ofNat 0, F64.ofNat 0, F64.ofNat 0, F64.ofNat 0⟩) ∧
    validateFile "TVWXYB120012024.txt".toList
        "TVWXY\t20/01/2024\t2\t5\n1\tInfinity\n1\t-Infinity".toList = .success := by
  decide!

/-- C4 as stated fails: with the declared total `Infinity` every earlier check
passes and the totals differ by more than the tolerance, so the reconciliation
failure is displayed, but its entries for the declared total and for the
difference are not numbers with two decimal places. -/
theorem detail_not_two_decimals :
    checksBeforeReconciliation "TVWXYB120012024.txt".toList
        "TVWXY\t20/01/2024\t2\tInfinity\n1\t100.00\n2\t200.00".toList =
      .ok (F64.inf false, F64.ofNat 300,
        ⟨F64.ofNat 100, F64.ofNat 200, F64.ofNat 0, F64.ofNat 0, F64.ofNat 0⟩) ∧
    ((((F64.ofNat 300).sub (F64.inf false)).abs).gt tolerance = true) ∧
    validateFile "TVWXYB120012024.txt".toList
        "TVWXY\t20/01/2024\t2\tInfinity\n1\t100.00\n2\t200.00".toList =
      .failure (.totalReconciliationMismatch
        [("Total Declarado", "Infinity".toList), ("Suma Calculada", "300.00".toList),
         ("Diferencia", "-Infinity".toList), ("Subtotal Grupo 1", "100.00".toList),
         ("Subtotal Grupo 2", "200.00".toList), ("Subtotal Grupo 3", "0.00".toList),
         ("Subtotal Grupo 4", "0.00".toList), ("Subtotal Grupo 5", "0.00".toList)]) ∧
    isTwoDecimals "Infinity".toList = false ∧ isTwoDecimals "-Infinity".toList = false := by
  decide!

/-- C4, amended: when every earlier check passes and the calculated total
differs from the declared total by more than the tolerance, the failure
carries exactly eight entries, in this order: declared total, calculated
total, calculated minus declared, and the subtotals of groups 1 to 5, each
printed by `toFixed(2)`; an entry has two decimal places whenever its value is
finite and below `10^21` in magnitude. -/
theorem reconciliation_details (n c : Str) (d t : F64) (g : GroupSubtotals)
    (h : checksBeforeReconciliation n c = .ok (d, t, g))
    (hgt : ((t.sub d).abs).gt tolerance = true) :
    validateFile n c = .failure (.totalReconciliationMismatch
        [("Total Declarado", d.toFixed2), ("Suma Calculada", t.toFixed2),
         ("Diferencia", (t.sub d).toFixed2), ("Subtotal Grupo 1", g.g1.toFixed2),
         ("Subtotal Grupo 2", g.g2.toFixed2), ("Subtotal Grupo 3", g.g3.toFixed2),
         ("Subtotal Grupo 4", g.g4.toFixed2), ("Subtotal Grupo 5", g.g5.toFixed2)]) ∧
      ∀ x ∈ [d, t, t.sub d, g.g1, g.g2, g.g3, g.g4, g.g5],
        x.isBelow1e21 = true → isTwoDecimals x.toFixed2 = true := by
  refine ⟨?_, fun x _ hx => toFixed2_twoDecimals hx⟩
  rw [validateFile_of_checks_ok h]
  exact (reconcile_failure_iff d t g).mpr hgt

theorem reconciliation_details_witness :
    validateFile "TVWXYB120012024.txt".toList
        "TVWXY\t20/01/2024\t2\t250.00\n1\t100.00\n2\t200.00".toList =
      .failure (.totalReconciliationMismatch
        [("Total Declarado", "250.00".toList), ("Suma Calculada", "300.00".toList),
         ("Diferencia", "50.00".toList), ("Subtotal Grupo 1", "100.00".toList),
         ("Subtotal Grupo 2", "200.00".toList), ("Subtotal Grupo 3", "0.00".toList),
         ("Subtotal Grupo 4", "0.00".toList), ("Subtotal Grupo 5", "0.00".toList)]) :=
  (reconciliation_details "TVWXYB120012024.txt".toList
    "TVWXY\t20/01/2024\t2\t250.00\n1\t100.00\n2\t200.00".toList
    (parseFloat "250.00".toList) (parseFloat "300".toList)
    ⟨parseFloat "100".toList, parseFloat "200".toList, F64.ofNat 0, F64.ofNat 0, F64.ofNat 0⟩
    (by decide!) (by decide!)).1.trans (by decide!)

theorem checksOfParts_rowCount {n c d r : Str} {more rest : List Str}
    (h1 : nameRegex n = true) (h2 : rest.getLast? ≠ some []) (h3 : more.length = 1)
    (h4 : c = expectedCode n) (h5 : dateRegex d = true) (h6 : (parseInt r).isNaN = false)
    (h7 : (parseFloat (more.getD 0 [])).isNaN = false)
    (h8 : ¬ (F64.ofNat (rest.filter fun line => trim line ≠ []).length).eq (parseInt r) = true) :
    checksOfParts n c d r more rest =
      .error (.rowCountMismatch (rest.filter fun line => trim line ≠ []).length (parseInt r)) := by
  unfold checksOfParts
  rw [if_neg (not_not.mpr h1), if_neg h2, if_neg (by omega), if_neg (not_not.mpr h4),
    if_neg (not_not.mpr h5), if_neg (by rw [Bool.not_eq_true]; exact h6),
    if_neg (by rw [Bool.not_eq_true]; exact h7), if_pos h8]

/-- C6: take any file that validates successfully, with fewer than `2^53`
useful lines.  Its control line starts with three tab-terminated fields
`c`, `d` and the declared row count `r`, which reads the number of useful
lines; replacing `r` by a field that reads one more or one less, everything
else unchanged, gives the row-count failure, which reports the number of
useful lines and the new declared Number. -/
theorem row_count_mutation (fileName content : Str)
    (hok : validateFile fileName content = .success)
    (hlen : (usefulLines (splitLines content)).length < 2 ^ 53) :
    (∃ c d r text, content = controlPrefix c d r ++ text ∧ ('\t' ∉ c ∧ '\n' ∉ c) ∧
      ('\t' ∉ d ∧ '\n' ∉ d) ∧ ('\t' ∉ r ∧ '\n' ∉ r) ∧ ∃ v, exactInt r = some v) ∧
    ∀ (c d r r' text : Str) (v : Int), content = controlPrefix c d r ++ text →
      ('\t' ∉ c ∧ '\n' ∉ c) → ('\t' ∉ d ∧ '\n' ∉ d) → ('\t' ∉ r ∧ '\n' ∉ r) →
      ('\t' ∉ r' ∧ '\n' ∉ r') → exactInt r = some v →
      (exactInt r' = some (v + 1) ∨ exactInt r' = some (v - 1)) →
      validateFile fileName (controlPrefix c d r' ++ text) =
          .failure (.rowCountMismatch (usefulLines (splitLines content)).length (parseInt r')) ∧
        v = ((usefulLines (splitLines content)).length : Int) := by
  refine ⟨success_controlPrefix hok, ?_⟩
  intro c d r r' text v hcontent hc hd hr hr' hv hv'
  subst hcontent
  rw [usefulLines_controlPrefix text hc.2 hd.2 hr.2] at hlen ⊢
  obtain ⟨dt, t, g, hchk, _⟩ := (validateFile_success_iff _ _).mp hok
  rw [checks_controlPrefix fileName text hc hd hr, checksOfParts_ok_iff] at hchk
  obtain ⟨h1, h2, h3, h4, h5, h6, h7, h8, _, _⟩ := hchk
  have hvlen := (count_eq_parseInt_iff hv hlen).mp h8
  refine ⟨?_, hvlen⟩
  rw [validateFile_failure_iff _ _ _ (by intro d; simp),
    checks_controlPrefix fileName text hc hd hr']
  have hv2 : ∃ w, exactInt r' = some w ∧ w ≠ v := by
    rcases hv' with h | h
    · exact ⟨_, h, by omega⟩
    · exact ⟨_, h, by omega⟩
  obtain ⟨w, hw, hwv⟩ := hv2
  apply checksOfParts_rowCount h1 h2 h3 h4 h5 (parseInt_isNaN_of_exactInt hw) h7
  intro h
  exact hwv (((count_eq_parseInt_iff hw hlen).mp h).trans hvlen.symm)

theorem row_count_mutation_witness :
    validateFile "TVWXYB120012024.txt".toList
        "TVWXY\t20/01/2024\t3\t300.00\n1\t100.00\n2\t200.00".toList =
      .failure (.rowCountMismatch 2 (F64.ofNat 3)) :=
  (((row_count_mutation "TVWXYB120012024.txt".toList
    "TVWXY\t20/01/2024\t2\t300.00\n1\t100.00\n2\t200.00".toList (by decide!) (by decide!)).2
    "TVWXY".toList "20/01/2024".toList "2".toList "3".toList
    "300.00\n1\t100.00\n2\t200.00".toList 2
    (by decide) (by decide) (by decide) (by decide) (by decide) (by decide!)
    (Or.inl (by decide!))).1).trans (by decide!)

theorem splitLines_insert {pre post line : Str} (hpre : pre.getLast? ≠ some '\r')
    (hpost : AtLineBreak post) (hl : '\n' ∉ line) (hlr : line.getLast? ≠ some '\r') :
    ∃ B, splitLines (pre ++ post) = splitLines pre ++ B ∧
      splitLines (pre ++ '\n' :: (line ++ post)) = splitLines pre ++ line :: B := by
  rcases hpost with rfl | ⟨q, rfl | rfl⟩
  · refine ⟨[], by simp, ?_⟩
    rw [List.append_nil, splitLines_append_nl _ hpre, splitLines_of_no_nl hl]
  · refine ⟨splitLines q, splitLines_append_nl _ hpre, ?_⟩
    rw [splitLines_append_nl _ hpre, splitLines_append_nl _ hlr, splitLines_of_no_nl hl]
    rfl
  · refine ⟨splitLines q, splitLines_append_crnl _ _, ?_⟩
    rw [splitLines_append_nl _ hpre, splitLines_append_crnl, splitLines_of_no_nl hl]
    rfl

theorem getLast?_insert {X Y : List Str} {line : Str} (hline : line ≠ [])
    (h : (X ++ Y).getLast? ≠ some []) : (X ++ line :: Y).getLast? ≠ some [] := by
  rcases Y with _ | ⟨y, Y⟩
  · rw [List.getLast?_append]
    intro hc
    simp only [List.getLast?_singleton, Option.or_some, Option.some.injEq] at hc
    exact hline hc
  · rw [List.getLast?_append, List.getLast?_cons_cons]
    rw [List.getLast?_append] at h
    exact h

theorem checksOfParts_insert {n c d r r' line : Str} {more X Y : List Str}
    {res : F64 × F64 × GroupSubtotals} {v : Int}
    (h : checksOfParts n c d r more (X ++ Y) = .ok res)
    (hne : line ≠ []) (htrim : trim line ≠ [])
    (hline : ∀ j t' g', processLine line j t' g' = .ok (t', g'))
    (hlen : ((X ++ Y).filter fun l => trim l ≠ []).length + 1 < 2 ^ 53)
    (hv : exactInt r = some v) (hv' : exactInt r' = some (v + 1)) :
    checksOfParts n c d r' more (X ++ line :: Y) = .ok res ∧
      ((X ++ line :: Y).filter fun l => trim l ≠ []).length =
        ((X ++ Y).filter fun l => trim l ≠ []).length + 1 := by
  obtain ⟨dt, t, g⟩ := res
  rw [checksOfParts_ok_iff] at h ⊢
  obtain ⟨h1, h2, h3, h4, h5, h6, h7, h8, h9, h10⟩ := h
  have hfilter : ((X ++ line :: Y).filter fun l => trim l ≠ []) =
      (X.filter fun l => trim l ≠ []) ++ line :: (Y.filter fun l => trim l ≠ []) := by
    rw [List.filter_append, List.filter_cons_of_pos (by simpa using htrim)]
  have hfilter0 : ((X ++ Y).filter fun l => trim l ≠ []) =
      (X.filter fun l => trim l ≠ []) ++ (Y.filter fun l => trim l ≠ []) := List.filter_append _ _
  have hcount : ((X ++ line :: Y).filter fun l => trim l ≠ []).length =
      ((X ++ Y).filter fun l => trim l ≠ []).length + 1 := by
    rw [hfilter, hfilter0]
    simp only [List.length_append, List.length_cons]
    omega
  refine ⟨⟨h1, getLast?_insert hne h2, h3, h4, h5, parseInt_isNaN_of_exactInt hv', h7, ?_, ?_,
    h10⟩, hcount⟩
  · rw [hcount, count_eq_parseInt_iff hv' hlen]
    have := (count_eq_parseInt_iff hv (by omega)).mp h8
    rw [this]
    push_cast
    rfl
  · rw [hfilter]
    rw [hfilter0] at h9
    exact processLines_insert hline h9

/-- C7: take any file that validates successfully and insert, between two
lines after the control line, a data line `g\ta` whose group code reads as an
integer `k` outside `1..5` and whose amount reads as a number, raising the
declared row count by one: the new line counts as a useful row, the declared
total, the calculated total and the group subtotals are unchanged, and the
file still validates. -/
theorem out_of_range_line_ignored (fileName content : Str)
    (hok : validateFile fileName content = .success)
    (hlen : (usefulLines (splitLines content)).length + 1 < 2 ^ 53) :
    (∃ c d r text, content = controlPrefix c d r ++ text ∧ ('\t' ∉ c ∧ '\n' ∉ c) ∧
      ('\t' ∉ d ∧ '\n' ∉ d) ∧ ('\t' ∉ r ∧ '\n' ∉ r) ∧ ∃ v, exactInt r = some v) ∧
    ∀ (c d r r' pre post g a : Str) (v k : Int),
      content = controlPrefix c d r ++ (pre ++ post) →
      ('\t' ∉ c ∧ '\n' ∉ c) → ('\t' ∉ d ∧ '\n' ∉ d) → ('\t' ∉ r ∧ '\n' ∉ r) →
      ('\t' ∉ r' ∧ '\n' ∉ r') → pre.getLast? ≠ some '\r' → AtLineBreak post →
      ('\t' ∉ g ∧ '\n' ∉ g) → ('\t' ∉ a ∧ '\n' ∉ a ∧ a.getLast? ≠ some '\r') →
      exactInt g = some k → (k < 1 ∨ 5 < k) → (parseFloat a).isNaN = false →
      exactInt r = some v → exactInt r' = some (v + 1) →
      validateFile fileName
          (controlPrefix c d r' ++ (pre ++ '\n' :: (dataLine (g, a) ++ post))) = .success ∧
        checksBeforeReconciliation fileName
            (controlPrefix c d r' ++ (pre ++ '\n' :: (dataLine (g, a) ++ post))) =
          checksBeforeReconciliation fileName content ∧
        (usefulLines (splitLines
            (controlPrefix c d r' ++ (pre ++ '\n' :: (dataLine (g, a) ++ post))))).length =
          (usefulLines (splitLines content)).length + 1 := by
  refine ⟨success_controlPrefix hok, ?_⟩
  intro c d r r' pre post g a v k hcontent hc hd hr hr' hpre hpost hg ha hk hkout han hv hv'
  subst hcontent
  have hgn : (parseInt g).isNaN = false := parseInt_isNaN_of_exactInt hk
  have hout : inMainGroup (parseInt g) = false := by
    rw [← Bool.not_eq_true, inMainGroup_parseInt hk]
    omega
  have hl1 : '\n' ∉ dataLine (g, a) := by simp [dataLine, hg.2, ha.2.1]
  have hl2 : (dataLine (g, a)).getLast? ≠ some '\r' := by
    unfold dataLine
    rw [List.getLast?_append, List.getLast?_cons]
    rcases hal : a.getLast? with _ | x
    · simp
    · intro hx
      apply ha.2.2
      rw [hal]
      simpa using hx
  have hne : dataLine (g, a) ≠ [] := by simp [dataLine]
  obtain ⟨cdig, hcg, hcd⟩ := exists_digit_of_parseInt hgn
  have htrim : trim (dataLine (g, a)) ≠ [] :=
    trim_ne_nil (c := cdig) (by simp [dataLine, hcg]) (not_ws_of_isDigit hcd)
  have hline : ∀ j t' g', processLine (dataLine (g, a)) j t' g' = .ok (t', g') := by
    intro j t' g'
    obtain ⟨gs', h1, h2⟩ := processLine_dataLine j t' g' hg.1 ha.1 hgn han
    rw [h1, hout, h2 hout]
    rfl
  obtain ⟨B, hB1, hB2⟩ := splitLines_insert hpre hpost hl1 hl2
  rw [usefulLines_controlPrefix _ hc.2 hd.2 hr.2] at hlen ⊢
  rw [usefulLines_controlPrefix _ hc.2 hd.2 hr'.2]
  obtain ⟨dt, t, gs, hchk, hgt⟩ := (validateFile_success_iff _ _).mp hok
  rw [checks_controlPrefix fileName _ hc hd hr] at hchk ⊢
  rw [validateFile_success_iff, checks_controlPrefix fileName _ hc hd hr']
  rw [hB1] at hchk hlen ⊢
  rw [hB2]
  rcases hA : splitLines pre with _ | ⟨a0, as⟩
  · exact absurd hA (splitLines_ne_nil pre)
  · rw [hA] at hchk hlen
    simp only [List.cons_append, List.headD_cons, List.tail_cons] at hchk hlen ⊢
    obtain ⟨h1, h2⟩ := checksOfParts_insert hchk hne htrim hline hlen hv hv'
    exact ⟨⟨dt, t, gs, h1, hgt⟩, h1.trans hchk.symm, h2⟩

theorem out_of_range_line_ignored_witness :
    validateFile "TVWXYB120012024.txt".toList
        "TVWXY\t20/01/2024\t3\t300.00\n1\t100.00\n6\t999.99\n2\t200.00".toList = .success :=
  ((out_of_range_line_ignored "TVWXYB120012024.txt".toList
    "TVWXY\t20/01/2024\t2\t300.00\n1\t100.00\n2\t200.00".toList (by decide!) (by decide!)).2
    "TVWXY".toList "20/01/2024".toList "2".toList "3".toList "300.00\n1\t100.00".toList
    "\n2\t200.00".toList "6".toList "999.99".toList 2 6
    (by decide) (by decide) (by decide) (by decide) (by decide) (by decide)
    (Or.inr ⟨"2\t200.00".toList, Or.inl rfl⟩) (by decide) (by decide) (by decide!)
    (Or.inr (by decide)) (by decide!) (by decide!) (by decide!)).1

theorem date_chars {date : Str} (h : dateRegex date = true) : '\t' ∉ date ∧ '\n' ∉ date := by
  simp only [dateRegex, Bool.and_eq_true, decide_eq_true_eq] at h
  obtain ⟨⟨⟨⟨⟨hlen, h1⟩, h2⟩, h3⟩, h4⟩, h5⟩ := h
  match date, hlen with
  | [a0, a1, s1, b0, b1, s2, y0, y1, y2, y3], _ =>
    simp only [List.take, List.drop, List.all_cons, List.all_nil, Bool.and_true,
      Bool.and_eq_true, List.cons.injEq, and_true] at h1 h2 h3 h4 h5
    have nd : ∀ c : Char, c.isDigit = true → c ≠ '\t' ∧ c ≠ '\n' := by
      intro c hc
      constructor <;> (rintro rfl; exact absurd hc (by decide))
    subst h2; subst h4
    simp only [List.mem_cons, List.mem_singleton, List.not_mem_nil, or_false, not_or]
    have e0 := nd _ h1.1; have e1 := nd _ h1.2
    have e2 := nd _ h3.1; have e3 := nd _ h3.2
    have e4 := nd _ h5.1; have e5 := nd _ h5.2.1
    have e6 := nd _ h5.2.2.1; have e7 := nd _ h5.2.2.2
    refine ⟨⟨e0.1.symm, e1.1.symm, by decide, e2.1.symm, e3.1.symm, by decide, e4.1.symm,
      e5.1.symm, e6.1.symm, e7.1.symm⟩, ⟨e0.2.symm, e1.2.symm, by decide, e2.2.symm, e3.2.symm,
      by decide, e4.2.symm, e5.2.symm, e6.2.symm, e7.2.symm⟩⟩

theorem number_chars_clean {s : Str} (h : ∀ c ∈ s, IsNumberChar c) :
    '\t' ∉ s ∧ '\n' ∉ s ∧ s.getLast? ≠ some '\r' :=
  ⟨not_mem_of_chars h (by decide) (by decide) (by decide),
   not_mem_of_chars h (by decide) (by decide) (by decide),
   getLast?_ne_of_chars h (by decide) (by decide) (by decide)⟩

theorem dataLine_clean {row : Str × Str} (h : IsDecimalInt row.1 ∧ IsDecimalNumber row.2) :
    '\n' ∉ dataLine row ∧ (dataLine row).getLast? ≠ some '\r' ∧ dataLine row ≠ [] ∧
      trim (dataLine row) ≠ [] := by
  obtain ⟨g1, g2, _⟩ := number_chars_clean (isDecimalInt_chars h.1)
  obtain ⟨a1, a2, a3⟩ := number_chars_clean (isDecimalNumber_chars h.2)
  refine ⟨by simp [dataLine, g2, a2], ?_, by simp [dataLine], ?_⟩
  · unfold dataLine
    rw [List.getLast?_append, List.getLast?_cons]
    rcases hal : row.2.getLast? with _ | x
    · simp
    · intro hx
      apply a3
      rw [hal]
      simpa using hx
  · obtain ⟨cdig, hcg, hcd⟩ := exists_digit_of_parseInt (parseInt_not_nan_of_decimalInt h.1)
    exact trim_ne_nil (c := cdig) (by simp [dataLine, hcg]) (not_ws_of_isDigit hcd)

/-- The loop over well-formed data lines never fails and leaves the running
sum of the amounts of the main groups. -/
theorem processLines_rows (rows : List (Str × Str)) (i : Nat) (t : F64) (gs : GroupSubtotals)
    (h : ∀ row ∈ rows, IsDecimalInt row.1 ∧ IsDecimalNumber row.2) :
    ∃ gs', processLines (rows.map dataLine) i t gs = .ok (floatSum t rows, gs') := by
  induction rows generalizing i t gs with
  | nil => exact ⟨gs, rfl⟩
  | cons row rows ih =>
    have hrow := h row (by simp)
    obtain ⟨g1, _, _⟩ := number_chars_clean (isDecimalInt_chars hrow.1)
    obtain ⟨a1, _, _⟩ := number_chars_clean (isDecimalNumber_chars hrow.2)
    obtain ⟨gs1, h1, _⟩ := processLine_dataLine (g := row.1) (a := row.2) i t gs g1 a1
      (parseInt_not_nan_of_decimalInt hrow.1) (parseFloat_not_nan_of_decimalNumber hrow.2)
    obtain ⟨gs2, h2⟩ := ih (i + 1)
      (if inMainGroup (parseInt row.1) then t.add (parseFloat row.2) else t) gs1
      (fun r hr => h r (List.mem_cons_of_mem _ hr))
    refine ⟨gs2, ?_⟩
    rw [List.map_cons, processLines_cons, h1]
    exact h2

theorem isDecimalNumber_of_digits {s : Str} (h : IsDigits s) : IsDecimalNumber s :=
  ⟨s, ⟨s, h, Or.inl rfl⟩, Or.inl rfl⟩

/-- C3 as stated fails: the file with the data lines `1\t9007199254740992`,
`1\t1`, `1\t1` and the declared total `9007199254740994` has a valid name and
the required shape, and the exact sum of its amounts equals the declared
total; yet the binary64 running sum stays at `9007199254740992` and the
reconciliation failure is displayed. -/
theorem exact_sum_rejected :
    NamePattern '1' "TVWXYB120012024.txt".toList ∧ dateRegex "20/01/2024".toList = true ∧
      (IsDigits "3".toList ∧ digitsVal "3".toList = 3) ∧
      (∀ row ∈ [("1".toList, "9007199254740992".toList), ("1".toList, "1".toList),
          ("1".toList, "1".toList)], IsDecimalInt row.1 ∧ IsDecimalNumber row.2) ∧
      IsDecimalNumber "9007199254740994".toList ∧
      exactSum [("1".toList, "9007199254740992".toList), ("1".toList, "1".toList),
        ("1".toList, "1".toList)] = exactValue "9007199254740994".toList ∧
      validateFile "TVWXYB120012024.txt".toList
          (fileText "TVWXY".toList "20/01/2024".toList "3".toList "9007199254740994".toList
            [("1".toList, "9007199254740992".toList), ("1".toList, "1".toList),
              ("1".toList, "1".toList)]) =
        .failure (.totalReconciliationMismatch
          [("Total Declarado", "9007199254740994.00".toList),
           ("Suma Calculada", "9007199254740992.00".toList),
           ("Diferencia", "-2.00".toList),
           ("Subtotal Grupo 1", "9007199254740992.00".toList),
           ("Subtotal Grupo 2", "0.00".toList), ("Subtotal Grupo 3", "0.00".toList),
           ("Subtotal Grupo 4", "0.00".toList), ("Subtotal Grupo 5", "0.00".toList)]) := by
  have d1 : IsDigits "1".toList := ⟨by decide, by decide⟩
  have d2 : IsDigits "9007199254740992".toList := ⟨by decide, by decide⟩
  have d3 : IsDigits "9007199254740994".toList := ⟨by decide, by decide⟩
  refine ⟨sample_name_pattern, by decide, ⟨⟨by decide, by decide⟩, by decide⟩, ?_,
    isDecimalNumber_of_digits d3, by decide!, by decide!⟩
  intro row hrow
  simp only [List.mem_cons, List.mem_singleton, List.not_mem_nil, or_false] at hrow
  rcases hrow with rfl | rfl | rfl
  · exact ⟨⟨_, d1, Or.inl rfl⟩, isDecimalNumber_of_digits d2⟩
  · exact ⟨⟨_, d1, Or.inl rfl⟩, isDecimalNumber_of_digits d1⟩
  · exact ⟨⟨_, d1, Or.inl rfl⟩, isDecimalNumber_of_digits d1⟩

/-- C3, amended: for a valid file name, a file with no trailing line break
made of the control line `TVWXY\tdate\tn\ttotal` and of exactly `n` data lines
`group\tamount` (date of the form `DD/MM/YYYY`, `n` a string of digits, group
a decimal integer, amount and total decimal numbers) validates successfully
whenever the binary64 running sum, in file order, of the amounts whose parsed
group passes `1 <= code <= 5` equals the parsed total, or differs from it by no
more than the tolerance. -/
theorem well_formed_file_accepted (z : Char) (fileName date n total : Str)
    (rows : List (Str × Str))
    (hn : NamePattern z fileName) (hdate : dateRegex date = true)
    (hcount : IsDigits n ∧ digitsVal n = rows.length)
    (hrows : ∀ row ∈ rows, IsDecimalInt row.1 ∧ IsDecimalNumber row.2)
    (htotal : IsDecimalNumber total)
    (hsum : (floatSum (F64.ofNat 0) rows).eq (parseFloat total) = true ∨
      (((floatSum (F64.ofNat 0) rows).sub (parseFloat total)).abs).gt tolerance = false) :
    validateFile fileName (fileText "TVWXY".toList date n total rows) = .success := by
  have hcode : '\t' ∉ "TVWXY".toList ∧ '\n' ∉ "TVWXY".toList := by decide
  obtain ⟨n1, n2, _⟩ := number_chars_clean (isDigits_chars hcount.1)
  obtain ⟨t1, t2, t3⟩ := number_chars_clean (isDecimalNumber_chars htotal)
  have hsplit : splitLines (joinLines (total :: rows.map dataLine)) =
      total :: rows.map dataLine := by
    apply splitLines_joinLines (by simp)
    intro l hl
    rcases List.mem_cons.mp hl with rfl | hl
    · exact ⟨t2, t3⟩
    · obtain ⟨row, hrow, rfl⟩ := List.mem_map.mp hl
      have := dataLine_clean (hrows row hrow)
      exact ⟨this.1, this.2.1⟩
  have hfilter : ((rows.map dataLine).filter fun line => trim line ≠ []) =
      rows.map dataLine := by
    rw [List.filter_eq_self]
    intro l hl
    obtain ⟨row, hrow, rfl⟩ := List.mem_map.mp hl
    simpa using (dataLine_clean (hrows row hrow)).2.2.2
  obtain ⟨gs', hloop⟩ := processLines_rows rows 0 (F64.ofNat 0)
    ⟨F64.ofNat 0, F64.ofNat 0, F64.ofNat 0, F64.ofNat 0, F64.ofNat 0⟩ hrows
  rw [validateFile_success_iff]
  refine ⟨parseFloat total, floatSum (F64.ofNat 0) rows, gs', ?_, ?_⟩
  · unfold fileText
    rw [joinLines_cons_append, checks_controlPrefix fileName _ hcode (date_chars hdate) ⟨n1, n2⟩,
      hsplit]
    simp only [List.headD_cons, List.tail_cons]
    rw [splitTab_of_no_tab t1, checksOfParts_ok_iff, hfilter]
    refine ⟨nameRegex_of_pattern hn, ?_, rfl, (expectedCode_of_pattern hn).symm, hdate, ?_,
      parseFloat_not_nan_of_decimalNumber htotal, ?_, hloop, rfl⟩
    · intro hl
      obtain ⟨row, hrow, he⟩ := List.mem_map.mp (List.mem_of_getLast?_eq_some hl)
      exact (dataLine_clean (hrows row hrow)).2.2.1 he
    · rw [parseInt_of_digits hcount.1]
      have := roundPos_ne_nan false (digitsVal n) 1
      unfold F64.ofNat
      cases hx : roundPos false (digitsVal n) 1 <;> simp_all [F64.isNaN]
    · rw [parseInt_of_digits hcount.1, hcount.2, List.length_map]
      exact f64_eq_self (roundPos_ne_nan _ _ _)
  · rcases hsum with h | h
    · exact not_gt_of_eq h
    · exact h

theorem well_formed_file_accepted_witness :
    validateFile "TVWXYB120012024.txt".toList
        "TVWXY\t20/01/2024\t2\t300.00\n1\t100.00\n2\t200.00".toList = .success :=
  well_formed_file_accepted '1' "TVWXYB120012024.txt".toList "20/01/2024".toList "2".toList
    "300.00".toList [("1".toList, "100.00".toList), ("2".toList, "200.00".toList)]
    sample_name_pattern (by decide)
    ⟨⟨by decide, by decide⟩, by decide⟩
    (by
      intro row hrow
      simp only [List.mem_cons, List.mem_singleton, List.not_mem_nil, or_false] at hrow
      rcases hrow with rfl | rfl
      · exact ⟨⟨"1".toList, ⟨by decide, by decide⟩, Or.inl rfl⟩,
          ⟨"100".toList, ⟨"100".toList, ⟨by decide, by decide⟩, Or.inl rfl⟩,
            Or.inr ⟨"00".toList, ⟨by decide, by decide⟩, rfl⟩⟩⟩
      · exact ⟨⟨"2".toList, ⟨by decide, by decide⟩, Or.inl rfl⟩,
          ⟨"200".toList, ⟨"200".toList, ⟨by decide, by decide⟩, Or.inl rfl⟩,
            Or.inr ⟨"00".toList, ⟨by decide, by decide⟩, rfl⟩⟩⟩)
    ⟨"300".toList, ⟨"300".toList, ⟨by decide, by decide⟩, Or.inl rfl⟩,
      Or.inr ⟨"00".toList, ⟨by decide, by decide⟩, rfl⟩⟩
    (Or.inl (by decide!))

/-! ## The checks before the loop -/

theorem checks_eq_loop (n c : Str) :
    checksBeforeReconciliation n c =
      match checksBeforeLoop n c with
      | .error f => .error f
      | .ok (declaredTotal, useful) =>
        match processLines useful 0 (F64.ofNat 0) zeroSubtotals with
        | .error f => .error f
        | .ok (calculatedTotal, groupSubtotals) =>
          .ok (declaredTotal, calculatedTotal, groupSubtotals) := by
  unfold checksBeforeReconciliation checksBeforeLoop zeroSubtotals
  dsimp only
  by_cases h1 : ¬ nameRegex n = true
  · rw [if_pos h1, if_pos h1]
  rw [if_neg h1, if_neg h1]
  by_cases h2 : 1 < (splitLines c).length ∧ (splitLines c).getLast? = some []
  · rw [if_pos h2, if_pos h2]
  rw [if_neg h2, if_neg h2]
  by_cases h3 : (splitLines c).headD [] = []
  · rw [if_pos h3, if_pos h3]
  rw [if_neg h3, if_neg h3]
  by_cases h4 : (splitTab ((splitLines c).headD [])).length ≠ 4
  · rw [if_pos h4, if_pos h4]
  rw [if_neg h4, if_neg h4]
  by_cases h5 : (splitTab ((splitLines c).headD [])).getD 0 [] ≠ expectedCode n
  · rw [if_pos h5, if_pos h5]
  rw [if_neg h5, if_neg h5]
  by_cases h6 : ¬ dateRegex ((splitTab ((splitLines c).headD [])).getD 1 []) = true
  · rw [if_pos h6, if_pos h6]
  rw [if_neg h6, if_neg h6]
  by_cases h7 : (parseInt ((splitTab ((splitLines c).headD [])).getD 2 [])).isNaN = true
  · rw [if_pos h7, if_pos h7]
  rw [if_neg h7, if_neg h7]
  by_cases h8 : (parseFloat ((splitTab ((splitLines c).headD [])).getD 3 [])).isNaN = true
  · rw [if_pos h8, if_pos h8]
  rw [if_neg h8, if_neg h8]
  by_cases h9 : ¬ (F64.ofNat (usefulLines (splitLines c)).length).eq
      (parseInt ((splitTab ((splitLines c).headD [])).getD 2 [])) = true
  · rw [if_pos h9, if_pos h9]
  rw [if_neg h9, if_neg h9]

theorem checks_error_iff (n c : Str) (f : Failure) :
    checksBeforeReconciliation n c = .error f ↔
      checksBeforeLoop n c = .error f ∨
        ∃ dt useful, checksBeforeLoop n c = .ok (dt, useful) ∧
          processLines useful 0 (F64.ofNat 0) zeroSubtotals = .error f := by
  rw [checks_eq_loop]
  rcases h : checksBeforeLoop n c with f' | ⟨dt, useful⟩
  · simp
  · dsimp only
    rcases h2 : processLines useful 0 (F64.ofNat 0) zeroSubtotals with f' | ⟨t, g⟩
    · simp only [Except.error.injEq, reduceCtorEq, false_or, Except.ok.injEq, Prod.mk.injEq]
      constructor
      · rintro rfl
        exact ⟨dt, useful, ⟨rfl, rfl⟩, h2⟩
      · rintro ⟨dt', u, ⟨rfl, rfl⟩, h3⟩
        rw [h2] at h3
        exact Except.error.inj h3
    · simp only [reduceCtorEq, false_or, Except.ok.injEq, Prod.mk.injEq, false_iff, not_exists,
        not_and]
      rintro dt' u ⟨rfl, rfl⟩ h3
      rw [h2] at h3
      simp at h3

theorem checks_ok_iff_loop (n c : Str) (dt t : F64) (g : GroupSubtotals) :
    checksBeforeReconciliation n c = .ok (dt, t, g) ↔
      ∃ useful, checksBeforeLoop n c = .ok (dt, useful) ∧
        processLines useful 0 (F64.ofNat 0) zeroSubtotals = .ok (t, g) := by
  rw [checks_eq_loop]
  rcases h : checksBeforeLoop n c with f' | ⟨dt', useful⟩
  · simp
  · dsimp only
    rcases h2 : processLines useful 0 (F64.ofNat 0) zeroSubtotals with f' | ⟨t', g'⟩
    · simp only [reduceCtorEq, Except.ok.injEq, Prod.mk.injEq, false_iff, not_exists, not_and]
      rintro u ⟨rfl, rfl⟩ h3
      rw [h2] at h3
      simp at h3
    · simp only [Except.ok.injEq, Prod.mk.injEq]
      constructor
      · rintro ⟨rfl, rfl, rfl⟩
        exact ⟨useful, ⟨rfl, rfl⟩, h2⟩
      · rintro ⟨u, ⟨rfl, rfl⟩, h3⟩
        rw [h2] at h3
        simp only [Except.ok.injEq, Prod.mk.injEq] at h3
        exact ⟨rfl, h3.1, h3.2⟩

/-- The failures of the checks before the loop are none of the three line
failures and never the reconciliation failure. -/
theorem beforeLoop_error_kind {n c : Str} {f : Failure}
    (h : checksBeforeLoop n c = .error f) :
    (∀ k, f ≠ .missingTabSeparator k) ∧ (∀ k, f ≠ .insufficientFieldsInLine k) ∧
      (∀ k, f ≠ .nonNumericLineFields k) ∧ (∀ d, f ≠ .totalReconciliationMismatch d) := by
  unfold checksBeforeLoop at h
  dsimp only at h
  by_cases h1 : ¬ nameRegex n = true
  · rw [if_pos h1] at h; injection h with h; subst h; simp
  rw [if_neg h1] at h
  by_cases h2 : 1 < (splitLines c).length ∧ (splitLines c).getLast? = some []
  · rw [if_pos h2] at h; injection h with h; subst h; simp
  rw [if_neg h2] at h
  by_cases h3 : (splitLines c).headD [] = []
  · rw [if_pos h3] at h; injection h with h; subst h; simp
  rw [if_neg h3] at h
  by_cases h4 : (splitTab ((splitLines c).headD [])).length ≠ 4
  · rw [if_pos h4] at h; injection h with h; subst h; simp
  rw [if_neg h4] at h
  by_cases h5 : (splitTab ((splitLines c).headD [])).getD 0 [] ≠ expectedCode n
  · rw [if_pos h5] at h; injection h with h; subst h; simp
  rw [if_neg h5] at h
  by_cases h6 : ¬ dateRegex ((splitTab ((splitLines c).headD [])).getD 1 []) = true
  · rw [if_pos h6] at h; injection h with h; subst h; simp
  rw [if_neg h6] at h
  by_cases h7 : (parseInt ((splitTab ((splitLines c).headD [])).getD 2 [])).isNaN = true
  · rw [if_pos h7] at h; injection h with h; subst h; simp
  rw [if_neg h7] at h
  by_cases h8 : (parseFloat ((splitTab ((splitLines c).headD [])).getD 3 [])).isNaN = true
  · rw [if_pos h8] at h; injection h with h; subst h; simp
  rw [if_neg h8] at h
  by_cases h9 : ¬ (F64.ofNat (usefulLines (splitLines c)).length).eq
      (parseInt ((splitTab ((splitLines c).headD [])).getD 2 [])) = true
  · rw [if_pos h9] at h; injection h with h; subst h; simp
  rw [if_neg h9] at h
  simp at h

/-! ## Fields of a line -/

theorem two_le_length_splitTab {line : Str} (h : '\t' ∈ line) : 2 ≤ (splitTab line).length := by
  induction line with
  | nil => simp at h
  | cons c cs ih =>
    by_cases hc : c = '\t'
    · rw [splitTab, if_pos hc]
      have := splitTab_ne_nil cs
      rcases hs : splitTab cs with _ | ⟨l, ls⟩
      · exact absurd hs this
      · simp
    · rw [splitTab_cons_other cs hc]
      have hmem : '\t' ∈ cs := by
        rcases List.mem_cons.mp h with h | h
        · exact absurd h.symm hc
        · exact h
      have := ih hmem
      rw [splitTab_eq_head_tail cs] at this
      simpa using this

theorem length_splitTab_of_no_tab {line : Str} (h : '\t' ∉ line) : (splitTab line).length = 1 := by
  rw [splitTab_of_no_tab h]; rfl

theorem processLine_ne_insufficient (line : Str) (i k : Nat) (t : F64) (g : GroupSubtotals) :
    processLine line i t g ≠ .error (.insufficientFieldsInLine k) := by
  unfold processLine
  dsimp only
  by_cases h1 : '\t' ∉ line
  · rw [if_pos h1]; simp
  · rw [if_neg h1, if_neg (by have := two_le_length_splitTab (not_not.mp h1); omega)]
    split_ifs <;> simp

theorem processLines_ne_insufficient (ls : List Str) (i k : Nat) (t : F64) (g : GroupSubtotals) :
    processLines ls i t g ≠ .error (.insufficientFieldsInLine k) := by
  induction ls generalizing i t g with
  | nil => simp [processLines]
  | cons l ls ih =>
    rw [processLines_cons]
    rcases hl : processLine l i t g with f | ⟨t', g'⟩
    · dsimp only
      intro h
      rw [h] at hl
      exact processLine_ne_insufficient l i k t g hl
    · exact ih _ _ _

/-! ## The stages of the checks before the loop -/

/-- The checks before the loop pass exactly when each of the nine conditions
holds, and then return the parsed total and the useful lines. -/
theorem beforeLoop_ok_iff (n c : Str) (dt : F64) (useful : List Str) :
    checksBeforeLoop n c = .ok (dt, useful) ↔
      nameRegex n = true ∧
      ¬ (1 < (splitLines c).length ∧ (splitLines c).getLast? = some []) ∧
      (splitLines c).headD [] ≠ [] ∧
      (splitTab ((splitLines c).headD [])).length = 4 ∧
      (splitTab ((splitLines c).headD [])).getD 0 [] = expectedCode n ∧
      dateRegex ((splitTab ((splitLines c).headD [])).getD 1 []) = true ∧
      (parseInt ((splitTab ((splitLines c).headD [])).getD 2 [])).isNaN = false ∧
      (parseFloat ((splitTab ((splitLines c).headD [])).getD 3 [])).isNaN = false ∧
      (F64.ofNat (usefulLines (splitLines c)).length).eq
        (parseInt ((splitTab ((splitLines c).headD [])).getD 2 [])) = true ∧
      dt = parseFloat ((splitTab ((splitLines c).headD [])).getD 3 []) ∧
      useful = usefulLines (splitLines c) := by
  unfold checksBeforeLoop
  dsimp only
  by_cases h1 : ¬ nameRegex n = true
  · rw [if_pos h1]; simp only [reduceCtorEq, false_iff]; tauto
  rw [if_neg h1]
  by_cases h2 : 1 < (splitLines c).length ∧ (splitLines c).getLast? = some []
  · rw [if_pos h2]; simp only [reduceCtorEq, false_iff]; tauto
  rw [if_neg h2]
  by_cases h3 : (splitLines c).headD [] = []
  · rw [if_pos h3]; simp only [reduceCtorEq, false_iff]; tauto
  rw [if_neg h3]
  by_cases h4 : (splitTab ((splitLines c).headD [])).length ≠ 4
  · rw [if_pos h4]; simp only [reduceCtorEq, false_iff]; tauto
  rw [if_neg h4]
  by_cases h5 : (splitTab ((splitLines c).headD [])).getD 0 [] ≠ expectedCode n
  · rw [if_pos h5]; simp only [reduceCtorEq, false_iff]; tauto
  rw [if_neg h5]
  by_cases h6 : ¬ dateRegex ((splitTab ((splitLines c).headD [])).getD 1 []) = true
  · rw [if_pos h6]; simp only [reduceCtorEq, false_iff]; tauto
  rw [if_neg h6]
  by_cases h7 : (parseInt ((splitTab ((splitLines c).headD [])).getD 2 [])).isNaN = true
  · rw [if_pos h7]; simp only [reduceCtorEq, false_iff]
    rw [h7]; simp
  rw [if_neg h7]
  by_cases h8 : (parseFloat ((splitTab ((splitLines c).headD [])).getD 3 [])).isNaN = true
  · rw [if_pos h8]; simp only [reduceCtorEq, false_iff]
    rw [h8]; simp
  rw [if_neg h8]
  by_cases h9 : ¬ (F64.ofNat (usefulLines (splitLines c)).length).eq
      (parseInt ((splitTab ((splitLines c).headD [])).getD 2 [])) = true
  · rw [if_pos h9]; simp only [reduceCtorEq, false_iff]; tauto
  rw [if_neg h9]
  simp only [Except.ok.injEq, Prod.mk.injEq]
  rw [Bool.not_eq_true] at h7 h8
  constructor
  · rintro ⟨rfl, rfl⟩
    exact ⟨not_not.mp h1, h2, h3, not_not.mp h4, not_not.mp h5, not_not.mp h6, h7, h8,
      not_not.mp h9, rfl, rfl⟩
  · rintro ⟨_, _, _, _, _, _, _, _, _, rfl, rfl⟩
    exact ⟨rfl, rfl⟩

/-- The result of the third check, once the first two have passed. -/
theorem beforeLoop_empty_iff {n c : Str} (hn : nameRegex n = true) :
    checksBeforeLoop n c = .error .emptyOrMissingControlLine ↔
      ¬ (1 < (splitLines c).length ∧ (splitLines c).getLast? = some []) ∧
        (splitLines c).headD [] = [] := by
  unfold checksBeforeLoop
  dsimp only
  rw [if_neg (not_not.mpr hn)]
  by_cases h2 : 1 < (splitLines c).length ∧ (splitLines c).getLast? = some []
  · rw [if_pos h2]; simp only [Except.error.injEq, reduceCtorEq, false_iff]; tauto
  rw [if_neg h2]
  by_cases h3 : (splitLines c).headD [] = []
  · rw [if_pos h3]; simp only [true_iff]; exact ⟨h2, h3⟩
  rw [if_neg h3]
  have : ¬ (¬ (1 < (splitLines c).length ∧ (splitLines c).getLast? = some []) ∧
      (splitLines c).headD [] = []) := fun hh => h3 hh.2
  simp only [this, iff_false]
  intro h
  by_cases h4 : (splitTab ((splitLines c).headD [])).length ≠ 4
  · rw [if_pos h4] at h; simp at h
  rw [if_neg h4] at h
  by_cases h5 : (splitTab ((splitLines c).headD [])).getD 0 [] ≠ expectedCode n
  · rw [if_pos h5] at h; simp at h
  rw [if_neg h5] at h
  by_cases h6 : ¬ dateRegex ((splitTab ((splitLines c).headD [])).getD 1 []) = true
  · rw [if_pos h6] at h; simp at h
  rw [if_neg h6] at h
  by_cases h7 : (parseInt ((splitTab ((splitLines c).headD [])).getD 2 [])).isNaN = true
  · rw [if_pos h7] at h; simp at h
  rw [if_neg h7] at h
  by_cases h8 : (parseFloat ((splitTab ((splitLines c).headD [])).getD 3 [])).isNaN = true
  · rw [if_pos h8] at h; simp at h
  rw [if_neg h8] at h
  by_cases h9 : ¬ (F64.ofNat (usefulLines (splitLines c)).length).eq
      (parseInt ((splitTab ((splitLines c).headD [])).getD 2 [])) = true
  · rw [if_pos h9] at h; simp at h
  rw [if_neg h9] at h
  simp at h

/-- The result of the checks before the loop on a control line with four
fields and the expected code, once the structural checks have passed. -/
theorem beforeLoop_of_fields {n c code date rows total : Str} (hn : nameRegex n = true)
    (ht : ¬ (1 < (splitLines c).length ∧ (splitLines c).getLast? = some []))
    (hf : splitTab ((splitLines c).headD []) = [code, date, rows, total])
    (hcode : code = expectedCode n) :
    checksBeforeLoop n c =
      if ¬ dateRegex date = true then .error (.dateFormatInvalid date)
      else if (parseInt rows).isNaN = true then .error (.nonNumericDeclaredRows rows)
      else if (parseFloat total).isNaN = true then .error (.nonNumericDeclaredTotal total)
      else if ¬ (F64.ofNat (usefulLines (splitLines c)).length).eq (parseInt rows) = true then
        .error (.rowCountMismatch (usefulLines (splitLines c)).length (parseInt rows))
      else .ok (parseFloat total, usefulLines (splitLines c)) := by
  have h3 : (splitLines c).headD [] ≠ [] := by
    intro h0
    rw [h0] at hf
    simp [splitTab] at hf
  unfold checksBeforeLoop
  dsimp only
  rw [if_neg (not_not.mpr hn), if_neg ht, if_neg h3, hf]
  simp only [List.length_cons, List.length_nil, List.getD_cons_zero, List.getD_cons_succ]
  rw [if_neg (by simp), if_neg (not_not.mpr hcode)]

/-! ## Failures of the whole pipeline -/

/-- A failure other than the reconciliation failure comes from the checks
before the loop or from the loop. -/
theorem validateFile_failure_cases {n c : Str} {f : Failure}
    (h : validateFile n c = .failure f) :
    checksBeforeReconciliation n c = .error f ∨
      ∃ dt t g, checksBeforeReconciliation n c = .ok (dt, t, g) ∧
        ((t.sub dt).abs).gt tolerance = true ∧
        f = .totalReconciliationMismatch (details dt t g) := by
  rcases hc : checksBeforeReconciliation n c with f' | ⟨dt, t, g⟩
  · unfold validateFile at h
    rw [hc] at h
    left
    injection h with h
    rw [h]
  · rw [validateFile_of_checks_ok hc] at h
    right
    refine ⟨dt, t, g, rfl, ?_⟩
    unfold reconcile at h
    by_cases hgt : ((t.sub dt).abs).gt tolerance = true
    · rw [if_pos hgt] at h
      injection h with h
      exact ⟨hgt, h.symm⟩
    · rw [if_neg hgt] at h
      exact absurd h (by simp)

theorem checks_error_not_mismatch {n c : Str} {f : Failure}
    (h : checksBeforeReconciliation n c = .error f) (d : List (String × Str)) :
    f ≠ .totalReconciliationMismatch d := by
  rcases (checks_error_iff n c f).mp h with h1 | ⟨dt, useful, _, h2⟩
  · exact (beforeLoop_error_kind h1).2.2.2 d
  · rcases processLines_error_kind h2 with ⟨k, rfl⟩ | ⟨k, rfl⟩ | ⟨k, rfl⟩ <;> simp

theorem first_line_empty_iff (c : Str) :
    (splitLines c).headD [] = [] ↔ c = [] ∨ ∃ q, c = '\n' :: q ∨ c = '\r' :: '\n' :: q := by
  cases c with
  | nil => simp [splitLines]
  | cons ch cs =>
    by_cases h1 : ch = '\n'
    · subst h1
      simp [splitLines]
    by_cases h2 : ch = '\r' ∧ cs.head? = some '\n'
    · obtain ⟨rfl, h2⟩ := h2
      cases cs with
      | nil => simp at h2
      | cons d ds =>
        simp only [List.head?_cons, Option.some.injEq] at h2
        subst h2
        simp [splitLines]
    · rw [splitLines_cons_other h1 h2]
      simp only [List.headD_cons, reduceCtorEq, false_iff, not_or, not_exists, not_false_eq_true,
        true_and]
      intro q
      constructor
      · intro h
        injection h with h _
        exact h1 h
      · intro h
        injection h with h h'
        apply h2
        rw [h, h']
        exact ⟨rfl, rfl⟩

theorem dateRegex_iff (s : Str) : dateRegex s = true ↔ DatePattern s := by
  constructor
  · intro h
    unfold dateRegex at h
    simp only [Bool.and_eq_true, decide_eq_true_eq] at h
    obtain ⟨⟨⟨⟨⟨hlen, h1⟩, h2⟩, h3⟩, h4⟩, h5⟩ := h
    match s, hlen with
    | [d1, d2, s1, m1, m2, s2, y1, y2, y3, y4], _ =>
      simp only [List.take, List.drop, List.all_cons, List.all_nil, Bool.and_true,
        Bool.and_eq_true, List.cons.injEq, and_true] at h1 h2 h3 h4 h5
      subst h2 h4
      exact ⟨d1, d2, m1, m2, y1, y2, y3, y4,
        ⟨h1.1, h1.2, h3.1, h3.2, h5.1, h5.2.1, h5.2.2.1, h5.2.2.2⟩, rfl⟩
  · rintro ⟨d1, d2, m1, m2, y1, y2, y3, y4, ⟨a, b, c, d, e, f, g, h⟩, rfl⟩
    simp [dateRegex, a, b, c, d, e, f, g, h]

/-! ## The claims on failures -/

/-- C19: `validateFile` never displays the insufficient-fields failure: a line
whose split on tab has fewer than 2 fields has no tab and is reported by the
preceding check as a missing tab separator, and a line with a tab splits into
at least 2 fields. -/
theorem insufficient_fields_unreachable (fileName content : Str) (k : Nat) :
    validateFile fileName content ≠ .failure (.insufficientFieldsInLine k) ∧
      (∀ (line : Str) (i : Nat) (t : F64) (g : GroupSubtotals), (splitTab line).length < 2 →
        '\t' ∉ line ∧ processLine line i t g = .error (.missingTabSeparator (i + 2))) ∧
      (∀ line : Str, '\t' ∈ line → 2 ≤ (splitTab line).length) := by
  refine ⟨?_, ?_, fun line h => two_le_length_splitTab h⟩
  · intro h
    rw [validateFile_failure_iff _ _ _ (by intro d; simp)] at h
    rcases (checks_error_iff _ _ _).mp h with h1 | ⟨dt, useful, _, h2⟩
    · exact (beforeLoop_error_kind h1).2.1 k rfl
    · exact processLines_ne_insufficient useful 0 k _ _ h2
  · intro line i t g hlen
    have hno : '\t' ∉ line := fun hin => by
      have := two_le_length_splitTab hin
      omega
    refine ⟨hno, ?_⟩
    unfold processLine
    rw [if_pos hno]

/-- C13: a failure displayed by `validateFile` carries a detail map exactly
when it is the reconciliation failure, which is displayed exactly when every
earlier check has passed and the totals differ by more than the tolerance; the
map is then the eight-entry map of the totals. Every failure of an earlier
check is displayed with its message only. -/
theorem detail_map_iff_reconciliation (fileName content : Str) (f : Failure)
    (h : validateFile fileName content = .failure f) :
    (f.detailMap ≠ none ↔ ∃ d, f = .totalReconciliationMismatch d) ∧
      (f.detailMap ≠ none ↔
        ∃ dt t g, checksBeforeReconciliation fileName content = .ok (dt, t, g) ∧
          f.detailMap = some (details dt t g) ∧ (details dt t g).length = 8) ∧
      (checksBeforeReconciliation fileName content = .error f → f.detailMap = none) := by
  refine ⟨?_, ?_, ?_⟩
  · cases f <;> simp [Failure.detailMap]
  · rcases validateFile_failure_cases h with hc | ⟨dt, t, g, hc, _, rfl⟩
    · have hne := checks_error_not_mismatch hc
      constructor
      · intro hd
        cases f <;> simp [Failure.detailMap] at hd
        exact absurd rfl (hne _)
      · rintro ⟨dt, t, g, hok, _⟩
        rw [hc] at hok
        exact absurd hok (by simp)
    · constructor
      · intro _
        exact ⟨dt, t, g, hc, rfl, rfl⟩
      · intro _
        simp [Failure.detailMap]
  · intro hc
    have hne := checks_error_not_mismatch hc
    cases f <;> first | rfl | exact absurd rfl (hne _)

theorem detail_map_iff_reconciliation_witness :
    (Failure.detailMap (.totalReconciliationMismatch
        [("Total Declarado", "250.00".toList), ("Suma Calculada", "300.00".toList),
         ("Diferencia", "50.00".toList), ("Subtotal Grupo 1", "100.00".toList),
         ("Subtotal Grupo 2", "200.00".toList), ("Subtotal Grupo 3", "0.00".toList),
         ("Subtotal Grupo 4", "0.00".toList), ("Subtotal Grupo 5", "0.00".toList)]) ≠ none ↔
      ∃ d, Failure.totalReconciliationMismatch
        [("Total Declarado", "250.00".toList), ("Suma Calculada", "300.00".toList),
         ("Diferencia", "50.00".toList), ("Subtotal Grupo 1", "100.00".toList),
         ("Subtotal Grupo 2", "200.00".toList), ("Subtotal Grupo 3", "0.00".toList),
         ("Subtotal Grupo 4", "0.00".toList), ("Subtotal Grupo 5", "0.00".toList)] =
        .totalReconciliationMismatch d) :=
  (detail_map_iff_reconciliation "TVWXYB120012024.txt".toList
    "TVWXY\t20/01/2024\t2\t250.00\n1\t100.00\n2\t200.00".toList _ (by decide!)).1

/-- C18: with a valid file name, the empty-control-line failure is displayed
exactly when the content does not end with a line break and its first line is
the empty string, which is the case of the empty content; a first line made
only of spaces is not empty and goes on to the field-count check, which
reports its single field. -/
theorem empty_control_line_iff (z : Char) (fileName content : Str)
    (hn : NamePattern z fileName) :
    (validateFile fileName content = .failure .emptyOrMissingControlLine ↔
        ¬ EndsWithLineBreak content ∧ (splitLines content).headD [] = []) ∧
      ((splitLines content).headD [] = [] ↔
        content = [] ∨ ∃ q, content = '\n' :: q ∨ content = '\r' :: '\n' :: q) ∧
      validateFile fileName [] = .failure .emptyOrMissingControlLine ∧
      (∀ k : Nat, 0 < k → ¬ EndsWithLineBreak content →
        (splitLines content).headD [] = List.replicate k ' ' →
        validateFile fileName content = .failure (.controlFieldCountMismatch 1)) := by
  have hn' := nameRegex_of_pattern hn
  have key : ∀ c : Str, validateFile fileName c = .failure .emptyOrMissingControlLine ↔
      ¬ EndsWithLineBreak c ∧ (splitLines c).headD [] = [] := by
    intro c
    rw [validateFile_failure_iff _ _ _ (by intro d; simp), checks_error_iff,
      beforeLoop_empty_iff hn', trailing_blank_iff]
    constructor
    · rintro (h | ⟨dt, useful, _, h2⟩)
      · exact h
      · rcases processLines_error_kind h2 with ⟨k, hk⟩ | ⟨k, hk⟩ | ⟨k, hk⟩ <;> simp at hk
    · exact fun h => Or.inl h
  refine ⟨key content, first_line_empty_iff content, ?_, ?_⟩
  · exact (key []).mpr ⟨by simp [EndsWithLineBreak], by simp [splitLines]⟩
  · intro k hk hnl hsp
    have hne : (splitLines content).headD [] ≠ [] := by
      rw [hsp]
      cases k with
      | zero => omega
      | succ k => simp [List.replicate]
    have hno : '\t' ∉ (splitLines content).headD [] := by
      rw [hsp]
      intro hin
      have := List.eq_of_mem_replicate hin
      exact absurd this (by decide)
    have hlen := length_splitTab_of_no_tab hno
    have ht : ¬ (1 < (splitLines content).length ∧ (splitLines content).getLast? = some []) :=
      fun h => hnl ((trailing_blank_iff content).mp h)
    unfold validateFile checksBeforeReconciliation
    dsimp only
    rw [if_neg (not_not.mpr hn'), if_neg ht, if_neg hne, if_pos (by rw [hlen]; decide), hlen]

theorem empty_control_line_iff_witness :
    (validateFile "TVWXYB120012024.txt".toList [] = .failure .emptyOrMissingControlLine ↔
        ¬ EndsWithLineBreak [] ∧ (splitLines []).headD [] = []) ∧
      validateFile "TVWXYB120012024.txt".toList "   \n1\t100.00".toList =
        .failure (.controlFieldCountMismatch 1) :=
  ⟨(empty_control_line_iff '1' "TVWXYB120012024.txt".toList [] sample_name_pattern).1,
   (empty_control_line_iff '1' "TVWXYB120012024.txt".toList "   \n1\t100.00".toList
      sample_name_pattern).2.2.2 3 (by decide) (by unfold EndsWithLineBreak; decide)
      (by decide)⟩

/-- C15: with a valid file name and no trailing line break, for a control line
of four fields whose first is the expected code, the date failure is displayed
exactly when the second field is not two digits, `/`, two digits, `/`, four
digits, and it reports that field; the regular-expression test is this
grammar, so a date such as `99/99/9999` passes it. -/
theorem date_check_syntactic (z : Char) (fileName content code date rows total : Str)
    (hn : NamePattern z fileName) (hnl : ¬ EndsWithLineBreak content)
    (hf : splitTab ((splitLines content).headD []) = [code, date, rows, total])
    (hcode : code = expectedCode fileName) :
    (validateFile fileName content = .failure (.dateFormatInvalid date) ↔ ¬ DatePattern date) ∧
      (∀ s, validateFile fileName content = .failure (.dateFormatInvalid s) → s = date) ∧
      (∀ s, dateRegex s = true ↔ DatePattern s) ∧
      DatePattern "99/99/9999".toList := by
  have hn' := nameRegex_of_pattern hn
  have ht : ¬ (1 < (splitLines content).length ∧ (splitLines content).getLast? = some []) :=
    fun h => hnl ((trailing_blank_iff content).mp h)
  have hb := beforeLoop_of_fields hn' ht hf hcode
  have key : ∀ s, validateFile fileName content = .failure (.dateFormatInvalid s) ↔
      s = date ∧ ¬ dateRegex date = true := by
    intro s
    rw [validateFile_failure_iff _ _ _ (by intro d; simp), checks_error_iff, hb]
    constructor
    · rintro (h | ⟨dt, useful, _, h2⟩)
      · by_cases hd : ¬ dateRegex date = true
        · rw [if_pos hd] at h
          injection h with h
          injection h with h
          exact ⟨h.symm, hd⟩
        · rw [if_neg hd] at h
          by_cases h7 : (parseInt rows).isNaN = true
          · rw [if_pos h7] at h; simp at h
          rw [if_neg h7] at h
          by_cases h8 : (parseFloat total).isNaN = true
          · rw [if_pos h8] at h; simp at h
          rw [if_neg h8] at h
          by_cases h9 : ¬ (F64.ofNat (usefulLines (splitLines content)).length).eq
              (parseInt rows) = true
          · rw [if_pos h9] at h; simp at h
          rw [if_neg h9] at h
          simp at h
      · rcases processLines_error_kind h2 with ⟨k, hk⟩ | ⟨k, hk⟩ | ⟨k, hk⟩ <;> simp at hk
    · rintro ⟨rfl, hd⟩
      left
      rw [if_pos hd]
  refine ⟨?_, fun s hs => ((key s).mp hs).1, dateRegex_iff, (dateRegex_iff _).mp (by decide)⟩
  rw [key date, dateRegex_iff]
  simp

theorem date_check_syntactic_witness :
    (validateFile "TVWXYB120012024.txt".toList
          "TVWXY\t99/99/9999\t2\t300.00\n1\t100.00\n2\t200.00".toList =
        .failure (.dateFormatInvalid "99/99/9999".toList) ↔
        ¬ DatePattern "99/99/9999".toList) ∧
      validateFile "TVWXYB120012024.txt".toList
          "TVWXY\t99/99/9999\t2\t300.00\n1\t100.00\n2\t200.00".toList = .success :=
  ⟨(date_check_syntactic '1' "TVWXYB120012024.txt".toList
      "TVWXY\t99/99/9999\t2\t300.00\n1\t100.00\n2\t200.00".toList "TVWXY".toList
      "99/99/9999".toList "2".toList "300.00".toList sample_name_pattern
      (by unfold EndsWithLineBreak; decide) (by decide) (by decide)).1, by decide!⟩

/-! ## Line terminators -/

theorem validateFile_congr_lines (n : Str) {c c' : Str} (h : splitLines c = splitLines c') :
    validateFile n c = validateFile n c' := by
  unfold validateFile checksBeforeReconciliation
  dsimp only
  rw [h]

theorem splitLines_replaceLF (choose : Nat → Bool) (i : Nat) (c : Str) (h : '\r' ∉ c) :
    splitLines (replaceLF choose i c) = splitLines c := by
  induction c generalizing i with
  | nil => rfl
  | cons ch cs ih =>
    have hcs : '\r' ∉ cs := fun hin => h (List.mem_cons_of_mem _ hin)
    have hch : ch ≠ '\r' := fun heq => h (by rw [heq]; exact List.mem_cons_self _ _)
    unfold replaceLF
    by_cases h1 : ch = '\n'
    · rw [if_pos h1]
      subst h1
      by_cases h2 : choose i = true
      · rw [if_pos h2]
        have : splitLines ('\r' :: '\n' :: replaceLF choose (i + 1) cs) =
            splitLines ('\n' :: replaceLF choose (i + 1) cs) := by
          rw [splitLines, if_neg (by decide), if_pos ⟨rfl, rfl⟩]
        rw [this, splitLines, if_pos rfl, ih _ hcs]
        rw [splitLines, if_pos rfl]
      · rw [if_neg h2, splitLines, if_pos rfl, ih _ hcs]
        rw [splitLines, if_pos rfl]
    · rw [if_neg h1, splitLines_cons_other h1 (fun hh => hch hh.1),
        splitLines_cons_other h1 (fun hh => hch hh.1), ih _ hcs]

/-! ## The declared row count -/

theorem takeWhile_append_of_head {p : Char → Bool} {ds sfx : Str} (h : ∀ c ∈ ds, p c = true)
    (hs : ∀ ch, sfx.head? = some ch → p ch = false) : (ds ++ sfx).takeWhile p = ds := by
  induction ds with
  | nil =>
    cases sfx with
    | nil => rfl
    | cons ch u =>
      rw [List.nil_append, List.takeWhile_cons, hs ch rfl]
      rfl
  | cons d ds ih =>
    rw [List.cons_append, List.takeWhile_cons, h d (List.mem_cons_self _ _),
      ih (fun c hc => h c (List.mem_cons_of_mem _ hc))]
    rfl

theorem mathInt_append_suffix {x sfx : Str} (hx : IsDecimalInt x)
    (hs : ∀ ch, sfx.head? = some ch → ch.isDigit = false) :
    mathInt (x ++ sfx) = mathInt x ∧ mathInt x ≠ none := by
  obtain ⟨ds, hds, rfl | rfl⟩ := hx
  · obtain ⟨c, u, rfl, hc⟩ := isDigits_head hds
    rw [mathInt_of_digits hds]
    refine ⟨?_, by simp⟩
    unfold mathInt
    dsimp only
    rw [List.cons_append, dropWhile_ws_of_head _ (not_ws_of_isDigit hc), splitSign_of_digit _ hc]
    dsimp only
    rw [← List.cons_append, takeWhile_append_of_head hds.2 hs, if_neg hds.1]
  · have h1 : mathInt ('-' :: ds) = some (true, digitsVal ds) := by
      unfold mathInt
      dsimp only
      rw [dropWhile_ws_of_head ds (by decide)]
      have : splitSign ('-' :: ds) = (true, ds) := rfl
      rw [this]
      dsimp only
      rw [takeWhile_digits hds, if_neg hds.1]
    rw [h1]
    refine ⟨?_, by simp⟩
    unfold mathInt
    dsimp only
    rw [List.cons_append, dropWhile_ws_of_head _ (by decide)]
    have : splitSign ('-' :: (ds ++ sfx)) = (true, ds ++ sfx) := rfl
    rw [this]
    dsimp only
    rw [takeWhile_append_of_head hds.2 hs, if_neg hds.1]

theorem isNaN_parseInt_iff (s : Str) : (parseInt s).isNaN = true ↔ mathInt s = none := by
  unfold parseInt
  rcases hm : mathInt s with _ | ⟨sg, k⟩
  · simp [F64.isNaN]
  · dsimp only
    have := roundPos_ne_nan sg k 1
    cases hx : roundPos sg k 1 <;> simp_all [F64.isNaN]

theorem checksOfParts_congr_rows (n c d : Str) {r r' : Str} (more rest : List Str)
    (hp : parseInt r' = parseInt r) (hnan : (parseInt r).isNaN = false) :
    checksOfParts n c d r' more rest = checksOfParts n c d r more rest := by
  have hnan' : ¬ (parseInt r).isNaN = true := by rw [hnan]; simp
  unfold checksOfParts
  rw [hp, if_neg hnan', if_neg hnan']

theorem beforeLoop_rows_error {n c s : Str}
    (h : checksBeforeLoop n c = .error (.nonNumericDeclaredRows s)) :
    s = (splitTab ((splitLines c).headD [])).getD 2 [] ∧ (parseInt s).isNaN = true := by
  unfold checksBeforeLoop at h
  dsimp only at h
  by_cases h1 : ¬ nameRegex n = true
  · rw [if_pos h1] at h; simp at h
  rw [if_neg h1] at h
  by_cases h2 : 1 < (splitLines c).length ∧ (splitLines c).getLast? = some []
  · rw [if_pos h2] at h; simp at h
  rw [if_neg h2] at h
  by_cases h3 : (splitLines c).headD [] = []
  · rw [if_pos h3] at h; simp at h
  rw [if_neg h3] at h
  by_cases h4 : (splitTab ((splitLines c).headD [])).length ≠ 4
  · rw [if_pos h4] at h; simp at h
  rw [if_neg h4] at h
  by_cases h5 : (splitTab ((splitLines c).headD [])).getD 0 [] ≠ expectedCode n
  · rw [if_pos h5] at h; simp at h
  rw [if_neg h5] at h
  by_cases h6 : ¬ dateRegex ((splitTab ((splitLines c).headD [])).getD 1 []) = true
  · rw [if_pos h6] at h; simp at h
  rw [if_neg h6] at h
  by_cases h7 : (parseInt ((splitTab ((splitLines c).headD [])).getD 2 [])).isNaN = true
  · rw [if_pos h7] at h
    injection h with h
    injection h with h
    rw [← h]
    exact ⟨rfl, h7⟩
  rw [if_neg h7] at h
  by_cases h8 : (parseFloat ((splitTab ((splitLines c).headD [])).getD 3 [])).isNaN = true
  · rw [if_pos h8] at h; simp at h
  rw [if_neg h8] at h
  by_cases h9 : ¬ (F64.ofNat (usefulLines (splitLines c)).length).eq
      (parseInt ((splitTab ((splitLines c).headD [])).getD 2 [])) = true
  · rw [if_pos h9] at h; simp at h
  rw [if_neg h9] at h
  simp at h

/-! ## The claims on the reading of the file -/

/-- C11: for a content without carriage return, replacing any of its `\n`,
some or all of them, by `\r\n` changes neither the lines read nor the result of
`validateFile`. -/
theorem line_terminators_uniform (fileName content : Str) (choose : Nat → Bool)
    (h : '\r' ∉ content) :
    splitLines (replaceLF choose 0 content) = splitLines content ∧
      validateFile fileName (replaceLF choose 0 content) = validateFile fileName content ∧
      validateFile fileName (replaceLF (fun _ => true) 0 content) =
        validateFile fileName content :=
  ⟨splitLines_replaceLF choose 0 content h,
   validateFile_congr_lines fileName (splitLines_replaceLF choose 0 content h),
   validateFile_congr_lines fileName (splitLines_replaceLF _ 0 content h)⟩

theorem line_terminators_uniform_witness :
    replaceLF (fun i => decide (i = 1)) 0
        "TVWXY\t20/01/2024\t2\t300.00\n1\t100.00\n2\t200.00".toList =
      "TVWXY\t20/01/2024\t2\t300.00\n1\t100.00\r\n2\t200.00".toList ∧
    replaceLF (fun _ => true) 0 "TVWXY\t20/01/2024\t2\t300.00\n1\t100.00\n2\t200.00".toList =
      "TVWXY\t20/01/2024\t2\t300.00\r\n1\t100.00\r\n2\t200.00".toList ∧
    validateFile "TVWXYB120012024.txt".toList
        (replaceLF (fun i => decide (i = 1)) 0
          "TVWXY\t20/01/2024\t2\t300.00\n1\t100.00\n2\t200.00".toList) =
      validateFile "TVWXYB120012024.txt".toList
        "TVWXY\t20/01/2024\t2\t300.00\n1\t100.00\n2\t200.00".toList :=
  ⟨by decide, by decide,
   (line_terminators_uniform "TVWXYB120012024.txt".toList
      "TVWXY\t20/01/2024\t2\t300.00\n1\t100.00\n2\t200.00".toList
      (fun i => decide (i = 1)) (by decide)).2.1⟩

/-- C14: a third control field made of a decimal integer followed by a suffix
that starts with a non-digit is read by `parseInt` as that integer, so the
file is validated exactly as with the integer alone; the declared-rows failure
is displayed only for a third field in which `parseInt` finds no digits after
leading white space and an optional sign, and it reports that field. -/
theorem declared_rows_prefix_parse (fileName code date digits suffix text : Str)
    (hc : '\t' ∉ code ∧ '\n' ∉ code) (hd : '\t' ∉ date ∧ '\n' ∉ date)
    (hn : IsDecimalInt digits) (hs : '\t' ∉ suffix ∧ '\n' ∉ suffix)
    (hhead : ∀ ch, suffix.head? = some ch → ch.isDigit = false) :
    parseInt (digits ++ suffix) = parseInt digits ∧
      (parseInt (digits ++ suffix)).isNaN = false ∧
      validateFile fileName (controlPrefix code date (digits ++ suffix) ++ text) =
        validateFile fileName (controlPrefix code date digits ++ text) ∧
      (∀ content s, validateFile fileName content = .failure (.nonNumericDeclaredRows s) →
        s = (splitTab ((splitLines content).headD [])).getD 2 [] ∧ mathInt s = none) := by
  obtain ⟨hm, hne⟩ := mathInt_append_suffix hn hhead
  have hp : parseInt (digits ++ suffix) = parseInt digits := by
    unfold parseInt
    rw [hm]
  have hnan : (parseInt digits).isNaN = false := parseInt_not_nan_of_decimalInt hn
  have hdg : '\t' ∉ digits ∧ '\n' ∉ digits := by
    have := isDecimalInt_chars hn
    exact ⟨not_mem_of_chars this (by decide) (by decide) (by decide),
      not_mem_of_chars this (by decide) (by decide) (by decide)⟩
  have hr : '\t' ∉ digits ++ suffix ∧ '\n' ∉ digits ++ suffix := by
    constructor
    · intro hin
      rcases List.mem_append.mp hin with h | h
      · exact hdg.1 h
      · exact hs.1 h
    · intro hin
      rcases List.mem_append.mp hin with h | h
      · exact hdg.2 h
      · exact hs.2 h
  refine ⟨hp, by rw [hp]; exact hnan, ?_, ?_⟩
  · unfold validateFile
    rw [checks_controlPrefix fileName text hc hd hr, checks_controlPrefix fileName text hc hd hdg,
      checksOfParts_congr_rows _ _ _ _ _ hp hnan]
  · intro content s h
    rw [validateFile_failure_iff _ _ _ (by intro d; simp), checks_error_iff] at h
    rcases h with h | ⟨dt, useful, _, h2⟩
    · obtain ⟨h1, h2⟩ := beforeLoop_rows_error h
      exact ⟨h1, (isNaN_parseInt_iff s).mp h2⟩
    · rcases processLines_error_kind h2 with ⟨k, hk⟩ | ⟨k, hk⟩ | ⟨k, hk⟩ <;> simp at hk

theorem declared_rows_prefix_parse_witness :
    parseInt "12abc".toList = parseInt "12".toList ∧
      validateFile "TVWXYB120012024.txt".toList
          ("TVWXY\t20/01/2024\t2 rows\t".toList ++ "300.00\n1\t100.00\n2\t200.00".toList) =
        validateFile "TVWXYB120012024.txt".toList
          ("TVWXY\t20/01/2024\t2\t".toList ++ "300.00\n1\t100.00\n2\t200.00".toList) ∧
      validateFile "TVWXYB120012024.txt".toList
          "TVWXY\t20/01/2024\t2 rows\t300.00\n1\t100.00\n2\t200.00".toList = .success :=
  ⟨(declared_rows_prefix_parse [] [] [] "12".toList "abc".toList []
      (by decide) (by decide) ⟨"12".toList, ⟨by decide, by decide⟩, Or.inl rfl⟩ (by decide)
      (by intro ch h; injection h with h; subst h; decide)).1,
   (declared_rows_prefix_parse "TVWXYB120012024.txt".toList "TVWXY".toList "20/01/2024".toList
      "2".toList " rows".toList "300.00\n1\t100.00\n2\t200.00".toList
      (by decide) (by decide) ⟨"2".toList, ⟨by decide, by decide⟩, Or.inl rfl⟩ (by decide)
      (by intro ch h; injection h with h; subst h; decide)).2.2.1, by decide!⟩

/-! ## Lines of the loop -/

theorem processLine_of_no_tab {line : Str} (i : Nat) (t : F64) (g : GroupSubtotals)
    (h : '\t' ∉ line) : processLine line i t g = .error (.missingTabSeparator (i + 2)) := by
  unfold processLine
  rw [if_pos h]

theorem processLine_of_nan {line : Str} (i : Nat) (t : F64) (g : GroupSubtotals)
    (h : '\t' ∈ line)
    (hnan : (parseInt ((splitTab line).getD 0 [])).isNaN = true ∨
      (parseFloat ((splitTab line).getD 1 [])).isNaN = true) :
    processLine line i t g = .error (.nonNumericLineFields (i + 2)) := by
  have hlen : ¬ (splitTab line).length < 2 := by
    have := two_le_length_splitTab h
    omega
  have hor : ((parseInt ((splitTab line).getD 0 [])).isNaN ||
      (parseFloat ((splitTab line).getD 1 [])).isNaN) = true := by
    rw [Bool.or_eq_true]
    exact hnan
  unfold processLine
  dsimp only
  rw [if_neg (not_not.mpr h), if_neg hlen, if_pos hor]

theorem processLine_of_numeric {line : Str} (i : Nat) (t : F64) (g : GroupSubtotals)
    (h : '\t' ∈ line) (h0 : (parseInt ((splitTab line).getD 0 [])).isNaN = false)
    (h1 : (parseFloat ((splitTab line).getD 1 [])).isNaN = false) :
    ∃ r, processLine line i t g = .ok r := by
  have hlen : ¬ (splitTab line).length < 2 := by
    have := two_le_length_splitTab h
    omega
  have hor : ¬ ((parseInt ((splitTab line).getD 0 [])).isNaN ||
      (parseFloat ((splitTab line).getD 1 [])).isNaN) = true := by
    rw [h0, h1]
    decide
  unfold processLine
  dsimp only
  rw [if_neg (not_not.mpr h), if_neg hlen, if_neg hor]
  by_cases hm : inMainGroup (parseInt ((splitTab line).getD 0 [])) = true
  · rw [if_pos hm]
    exact ⟨_, rfl⟩
  · rw [if_neg hm]
    exact ⟨_, rfl⟩

theorem processLines_of_numeric {ls : List Str} (i : Nat) (t : F64) (g : GroupSubtotals)
    (h : ∀ l ∈ ls, '\t' ∈ l ∧ (parseInt ((splitTab l).getD 0 [])).isNaN = false ∧
      (parseFloat ((splitTab l).getD 1 [])).isNaN = false) :
    ∃ t1 g1, processLines ls i t g = .ok (t1, g1) := by
  induction ls generalizing i t g with
  | nil => exact ⟨t, g, rfl⟩
  | cons l ls ih =>
    obtain ⟨ha, hb, hc⟩ := h l (List.mem_cons_self _ _)
    obtain ⟨⟨t1, g1⟩, hr⟩ := processLine_of_numeric i t g ha hb hc
    rw [processLines_cons, hr]
    exact ih (i + 1) t1 g1 (fun l hl => h l (List.mem_cons_of_mem _ hl))

theorem filter_take_of_all {p : Str → Bool} {xs : List Str} {m : Nat}
    (h : ∀ l ∈ xs.take m, p l = true) : (xs.filter p).take m = xs.take m := by
  induction xs generalizing m with
  | nil => rfl
  | cons x xs ih =>
    cases m with
    | zero => simp
    | succ m =>
      have hx : p x = true := h x (by simp)
      rw [List.filter_cons_of_pos hx, List.take_succ_cons, List.take_succ_cons,
        ih (fun l hl => h l (by rw [List.take_succ_cons]; exact List.mem_cons_of_mem _ hl))]

/-- C17: when the checks before the loop pass and the useful lines are `k - 1`
lines with a tab and numeric fields followed by a line without a tab or with a
non-numeric group code or subtotal, `validateFile` displays the failure of
that line, missing tab or non-numeric fields, with the line number `k + 1`,
whatever the later lines and the declared total are; when the first `k` lines
after the control line are not blank, that line is line `k + 1` of the file. -/
theorem first_offending_line_reported (fileName content : Str) (declaredTotal : F64)
    (good later : List Str) (bad : Str)
    (h : checksBeforeLoop fileName content = .ok (declaredTotal, good ++ bad :: later))
    (hgood : ∀ l ∈ good, '\t' ∈ l ∧ (parseInt ((splitTab l).getD 0 [])).isNaN = false ∧
      (parseFloat ((splitTab l).getD 1 [])).isNaN = false)
    (hbad : '\t' ∉ bad ∨ (parseInt ((splitTab bad).getD 0 [])).isNaN = true ∨
      (parseFloat ((splitTab bad).getD 1 [])).isNaN = true) :
    validateFile fileName content =
        .failure (if '\t' ∉ bad then .missingTabSeparator (good.length + 1 + 1)
          else .nonNumericLineFields (good.length + 1 + 1)) ∧
      usefulLines (splitLines content) = good ++ bad :: later ∧
      ((∀ l ∈ ((splitLines content).drop 1).take (good.length + 1), trim l ≠ []) →
        (splitLines content)[good.length + 1]? = some bad) := by
  have hu : good ++ bad :: later = usefulLines (splitLines content) :=
    ((beforeLoop_ok_iff _ _ _ _).mp h).2.2.2.2.2.2.2.2.2.2
  obtain ⟨t1, g1, hg⟩ := processLines_of_numeric 0 (F64.ofNat 0) zeroSubtotals hgood
  have hloop : processLines (good ++ bad :: later) 0 (F64.ofNat 0) zeroSubtotals =
      .error (if '\t' ∉ bad then .missingTabSeparator (good.length + 1 + 1)
        else .nonNumericLineFields (good.length + 1 + 1)) := by
    rw [processLines_append hg, processLines_cons, Nat.zero_add]
    by_cases htab : '\t' ∉ bad
    · rw [if_pos htab, processLine_of_no_tab _ _ _ htab]
    · rw [if_neg htab, processLine_of_nan _ _ _ (not_not.mp htab) (hbad.resolve_left htab)]
  refine ⟨?_, hu.symm, ?_⟩
  · rw [validateFile_failure_iff _ _ _ (by intro d; split <;> simp), checks_error_iff]
    exact Or.inr ⟨_, _, h, hloop⟩
  · intro hall
    have ht : (usefulLines (splitLines content)).take (good.length + 1) =
        ((splitLines content).drop 1).take (good.length + 1) := by
      unfold usefulLines
      exact filter_take_of_all (fun l hl => by simpa using hall l hl)
    have h1 : (usefulLines (splitLines content))[good.length]? = some bad := by
      rw [← hu, List.getElem?_append_right (Nat.le_refl _), Nat.sub_self]
      exact List.getElem?_cons_zero
    have h2 : ((usefulLines (splitLines content)).take (good.length + 1))[good.length]? =
        some bad := by
      rw [List.getElem?_take_of_lt (Nat.lt_succ_self _)]
      exact h1
    rw [ht, List.getElem?_take_of_lt (Nat.lt_succ_self _), List.getElem?_drop] at h2
    rw [Nat.add_comm]
    exact h2

theorem first_offending_line_reported_witness :
    validateFile "TVWXYB120012024.txt".toList
        "TVWXY\t20/01/2024\t3\t300.00\n1\t100.00\n2 200.00\nx\ty".toList =
      .failure (.missingTabSeparator 3) ∧
    (splitLines "TVWXY\t20/01/2024\t3\t300.00\n1\t100.00\n2 200.00\nx\ty".toList)[2]? =
      some "2 200.00".toList :=
  have h := first_offending_line_reported "TVWXYB120012024.txt".toList
    "TVWXY\t20/01/2024\t3\t300.00\n1\t100.00\n2 200.00\nx\ty".toList (parseFloat "300.00".toList)
    ["1\t100.00".toList] ["x\ty".toList] "2 200.00".toList (by decide!) (by decide!)
    (Or.inl (by decide))
  ⟨h.1, h.2.2 (by decide)⟩

/-! ## Fields after the second -/

theorem exists_not_ws_of_trim {s : Str} (h : trim s ≠ []) :
    ∃ c ∈ s, isStrWhiteSpaceChar c = false := by
  by_contra hno
  apply h
  have hall : ∀ c ∈ s, isStrWhiteSpaceChar c = true := by
    intro c hc
    by_contra hc'
    exact hno ⟨c, hc, by simpa using hc'⟩
  have : s.dropWhile isStrWhiteSpaceChar = [] := List.dropWhile_eq_nil_iff.mpr hall
  unfold trim
  rw [this]
  rfl

theorem splitTab_append (a b : Str) : splitTab (a ++ '\t' :: b) = splitTab a ++ splitTab b := by
  have h0 : ∀ X : Str, splitTab ('\t' :: X) = [] :: splitTab X := fun X =>
    splitTab_append_tab X (List.not_mem_nil _)
  induction a with
  | nil =>
    rw [List.nil_append, h0]
    rfl
  | cons c a ih =>
    by_cases hc : c = '\t'
    · subst hc
      rw [List.cons_append, h0, ih, h0]
      rfl
    · rw [List.cons_append, splitTab_cons_other _ hc, splitTab_cons_other _ hc, ih,
        splitTab_eq_head_tail a]
      rfl

theorem getD_append_of_lt {xs ys : List Str} {i : Nat} (h : i < xs.length) :
    (xs ++ ys).getD i [] = xs.getD i [] := by
  rw [List.getD_eq_getElem?_getD, List.getD_eq_getElem?_getD, List.getElem?_append_left h]

theorem processLine_append_field {line : Str} (extra : Str) (i : Nat) (t : F64)
    (g : GroupSubtotals) (h : '\t' ∈ line) :
    processLine (line ++ '\t' :: extra) i t g = processLine line i t g := by
  have h' : '\t' ∈ line ++ '\t' :: extra := List.mem_append_left _ h
  have hlen := two_le_length_splitTab h
  have hlen' := two_le_length_splitTab h'
  have e0 : (splitTab (line ++ '\t' :: extra)).getD 0 [] = (splitTab line).getD 0 [] := by
    rw [splitTab_append]
    exact getD_append_of_lt (by omega)
  have e1 : (splitTab (line ++ '\t' :: extra)).getD 1 [] = (splitTab line).getD 1 [] := by
    rw [splitTab_append]
    exact getD_append_of_lt (by omega)
  have hl : ¬ (splitTab line).length < 2 := by omega
  have hl' : ¬ (splitTab (line ++ '\t' :: extra)).length < 2 := by omega
  unfold processLine
  dsimp only
  rw [if_neg (not_not.mpr h'), if_neg (not_not.mpr h), if_neg hl', if_neg hl, e0, e1]

theorem processLines_congr_line {U V : List Str} {L L' : Str}
    (hp : ∀ i t g, processLine L' i t g = processLine L i t g) (i : Nat) (t : F64)
    (g : GroupSubtotals) :
    processLines (U ++ L' :: V) i t g = processLines (U ++ L :: V) i t g := by
  induction U generalizing i t g with
  | nil =>
    rw [List.nil_append, List.nil_append, processLines_cons, processLines_cons, hp]
  | cons u U ih =>
    rw [List.cons_append, List.cons_append, processLines_cons, processLines_cons]
    rcases processLine u i t g with f | ⟨t1, g1⟩
    · rfl
    · exact ih _ _ _

/-- The checks before the loop read the content through its first line, its
last line and the number of its useful lines only. -/
theorem beforeLoop_congr (n : Str) {c c' : Str}
    (hT : (1 < (splitLines c').length ∧ (splitLines c').getLast? = some []) ↔
      (1 < (splitLines c).length ∧ (splitLines c).getLast? = some []))
    (hH : (splitLines c').headD [] = (splitLines c).headD [])
    (hU : (usefulLines (splitLines c')).length = (usefulLines (splitLines c)).length) :
    checksBeforeLoop n c' =
      match checksBeforeLoop n c with
      | .error f => .error f
      | .ok (dt, _) => .ok (dt, usefulLines (splitLines c')) := by
  unfold checksBeforeLoop
  dsimp only
  rw [hH, hU]
  by_cases h1 : ¬ nameRegex n = true
  · rw [if_pos h1, if_pos h1]
  rw [if_neg h1, if_neg h1]
  by_cases h2 : 1 < (splitLines c).length ∧ (splitLines c).getLast? = some []
  · rw [if_pos h2, if_pos (hT.mpr h2)]
  rw [if_neg h2, if_neg (fun hh => h2 (hT.mp hh))]
  by_cases h3 : (splitLines c).headD [] = []
  · rw [if_pos h3, if_pos h3]
  rw [if_neg h3, if_neg h3]
  by_cases h4 : (splitTab ((splitLines c).headD [])).length ≠ 4
  · rw [if_pos h4, if_pos h4]
  rw [if_neg h4, if_neg h4]
  by_cases h5 : (splitTab ((splitLines c).headD [])).getD 0 [] ≠ expectedCode n
  · rw [if_pos h5, if_pos h5]
  rw [if_neg h5, if_neg h5]
  by_cases h6 : ¬ dateRegex ((splitTab ((splitLines c).headD [])).getD 1 []) = true
  · rw [if_pos h6, if_pos h6]
  rw [if_neg h6, if_neg h6]
  by_cases h7 : (parseInt ((splitTab ((splitLines c).headD [])).getD 2 [])).isNaN = true
  · rw [if_pos h7, if_pos h7]
  rw [if_neg h7, if_neg h7]
  by_cases h8 : (parseFloat ((splitTab ((splitLines c).headD [])).getD 3 [])).isNaN = true
  · rw [if_pos h8, if_pos h8]
  rw [if_neg h8, if_neg h8]
  by_cases h9 : ¬ (F64.ofNat (usefulLines (splitLines c)).length).eq
      (parseInt ((splitTab ((splitLines c).headD [])).getD 2 [])) = true
  · rw [if_pos h9, if_pos h9]
  rw [if_neg h9, if_neg h9]

theorem getLast?_replace_line {A B : List Str} {L L' : Str} (hL : L ≠ []) (hL' : L' ≠ []) :
    (A ++ L' :: B).getLast? = some [] ↔ (A ++ L :: B).getLast? = some [] := by
  cases B with
  | nil =>
    rw [List.getLast?_append, List.getLast?_append]
    simp only [List.getLast?_singleton, Option.or, Option.some.injEq]
    exact ⟨fun h => absurd h hL', fun h => absurd h hL⟩
  | cons b B =>
    rw [List.getLast?_append, List.getLast?_append, List.getLast?_cons_cons,
      List.getLast?_cons_cons]

/-- Two contents whose lines differ in one line after the first, useful in
both, on which the body of the loop gives the same result, are validated
alike. -/
theorem validateFile_congr_line (n : Str) {c c' : Str} {A B : List Str} {L L' : Str}
    (h : splitLines c = A ++ L :: B) (h' : splitLines c' = A ++ L' :: B) (hA : A ≠ [])
    (hu : trim L ≠ []) (hu' : trim L' ≠ [])
    (hp : ∀ i t g, processLine L' i t g = processLine L i t g) :
    validateFile n c' = validateFile n c := by
  have hL : L ≠ [] := fun h0 => hu (by rw [h0]; rfl)
  have hL' : L' ≠ [] := fun h0 => hu' (by rw [h0]; rfl)
  obtain ⟨a, A', rfl⟩ := List.exists_cons_of_ne_nil hA
  have hfu : ∀ X : Str, trim X ≠ [] → usefulLines (a :: A' ++ X :: B) =
      (A'.filter fun line => trim line ≠ []) ++ X :: (B.filter fun line => trim line ≠ []) := by
    intro X hX
    unfold usefulLines
    rw [List.cons_append, List.drop_one, List.tail_cons, List.filter_append,
      List.filter_cons_of_pos (by simpa using hX)]
  have hT : (1 < (splitLines c').length ∧ (splitLines c').getLast? = some []) ↔
      (1 < (splitLines c).length ∧ (splitLines c).getLast? = some []) := by
    rw [h, h', getLast?_replace_line hL hL']
    simp only [List.length_append, List.length_cons]
  have hH : (splitLines c').headD [] = (splitLines c).headD [] := by
    rw [h, h']
    rfl
  have hU : (usefulLines (splitLines c')).length = (usefulLines (splitLines c)).length := by
    rw [h, h', hfu L hu, hfu L' hu']
    simp only [List.length_append, List.length_cons]
  have hb := beforeLoop_congr n hT hH hU
  unfold validateFile
  rw [checks_eq_loop n c', checks_eq_loop n c, hb]
  rcases hc : checksBeforeLoop n c with f | ⟨dt, useful⟩
  · rfl
  · have hus : useful = usefulLines (splitLines c) :=
      ((beforeLoop_ok_iff _ _ _ _).mp hc).2.2.2.2.2.2.2.2.2.2
    dsimp only
    rw [hus, h, h', hfu L hu, hfu L' hu', processLines_congr_line hp]

/-- The lines of a text made of `pre`, which ends with a line break, a piece
`X` without line break, and `post`, which is empty or starts with a line
break: the lines of `pre`, then `X`, less its final `\r` when `post` starts
with `\n`, then the lines after it. -/
theorem splitLines_of_parts {pre post : Str} (hpre : pre.getLast? = some '\n')
    (hpost : AtLineBreak post) :
    ∃ A B, A ≠ [] ∧ ∀ X : Str, '\n' ∉ X →
      splitLines (pre ++ X ++ post) =
        A ++ (if post.head? = some '\n' ∧ X.getLast? = some '\r' then X.dropLast else X) :: B := by
  obtain ⟨P, rfl⟩ : ∃ P, pre = P ++ ['\n'] := by
    refine ⟨pre.dropLast, ?_⟩
    have hne : pre ≠ [] := by
      intro h0
      rw [h0] at hpre
      simp at hpre
    rw [List.getLast?_eq_getLast _ hne] at hpre
    injection hpre with hpre
    rw [← hpre, List.dropLast_append_getLast]
  have hA : ∃ A, A ≠ [] ∧ ∀ rest : Str, splitLines (P ++ ['\n'] ++ rest) = A ++ splitLines rest := by
    by_cases hr : P.getLast? = some '\r'
    · have hne : P ≠ [] := by
        intro h0
        rw [h0] at hr
        simp at hr
      refine ⟨splitLines P.dropLast, splitLines_ne_nil _, fun rest => ?_⟩
      rw [List.getLast?_eq_getLast _ hne] at hr
      injection hr with hr
      have hP : P = P.dropLast ++ ['\r'] := by
        rw [← hr, List.dropLast_append_getLast]
      rw [List.append_assoc]
      nth_rewrite 1 [hP]
      rw [List.append_assoc]
      exact splitLines_append_crnl _ _
    · refine ⟨splitLines P, splitLines_ne_nil _, fun rest => ?_⟩
      rw [List.append_assoc]
      exact splitLines_append_nl _ hr
  obtain ⟨A, hAne, hAeq⟩ := hA
  have hB : ∃ B, ∀ X : Str, '\n' ∉ X → splitLines (X ++ post) =
      (if post.head? = some '\n' ∧ X.getLast? = some '\r' then X.dropLast else X) :: B := by
    rcases hpost with rfl | ⟨q, rfl | rfl⟩
    · refine ⟨[], fun X hX => ?_⟩
      rw [List.append_nil, splitLines_of_no_nl hX, if_neg (by simp)]
    · refine ⟨splitLines q, fun X hX => ?_⟩
      by_cases hr : X.getLast? = some '\r'
      · rw [if_pos ⟨rfl, hr⟩]
        have hne : X ≠ [] := by
          intro h0
          rw [h0] at hr
          simp at hr
        have hr' := hr
        rw [List.getLast?_eq_getLast _ hne] at hr'
        injection hr' with hr'
        have hXe : X = X.dropLast ++ ['\r'] := by
          rw [← hr', List.dropLast_append_getLast]
        have hno : '\n' ∉ X.dropLast := fun hin => hX (List.dropLast_subset _ hin)
        nth_rewrite 1 [hXe]
        rw [List.append_assoc]
        have := splitLines_append_crnl X.dropLast q
        rw [splitLines_of_no_nl hno] at this
        exact this
      · rw [if_neg (fun hh => hr hh.2), splitLines_append_nl _ hr, splitLines_of_no_nl hX]
        rfl
    · refine ⟨splitLines q, fun X hX => ?_⟩
      rw [if_neg (by simp), splitLines_append_crnl, splitLines_of_no_nl hX]
      rfl
  obtain ⟨B, hBeq⟩ := hB
  refine ⟨A, B, hAne, fun X hX => ?_⟩
  rw [List.append_assoc, hAeq, hBeq X hX]

/-- C16: in a content, a useful line after the control line that contains a
tab may be extended by a tab and any text without line break, further tabs
included: the result of `validateFile` is the same. The line is given by the
text `pre` before it, which ends with a line break, and the text `post` after
it, which is empty or starts with a line break. -/
theorem extra_fields_ignored (fileName pre line post extra : Str)
    (hpre : pre.getLast? = some '\n') (hpost : AtLineBreak post)
    (hline : '\n' ∉ line) (hcr : post.head? = some '\n' → line.getLast? ≠ some '\r')
    (huseful : trim line ≠ []) (htab : '\t' ∈ line) (hextra : '\n' ∉ extra) :
    validateFile fileName (pre ++ (line ++ '\t' :: extra) ++ post) =
      validateFile fileName (pre ++ line ++ post) := by
  obtain ⟨A, B, hA, hsplit⟩ := splitLines_of_parts hpre hpost
  have hnew : '\n' ∉ line ++ '\t' :: extra := by
    intro hin
    rcases List.mem_append.mp hin with h | h
    · exact hline h
    · rcases List.mem_cons.mp h with h | h
      · exact absurd h (by decide)
      · exact hextra h
  have h1 := hsplit line hline
  rw [if_neg (fun hh => hcr hh.1 hh.2)] at h1
  have h2 := hsplit _ hnew
  obtain ⟨extra1, he⟩ : ∃ extra1,
      (if post.head? = some '\n' ∧ (line ++ '\t' :: extra).getLast? = some '\r'
        then (line ++ '\t' :: extra).dropLast else line ++ '\t' :: extra) =
        line ++ '\t' :: extra1 := by
    by_cases hc : post.head? = some '\n' ∧ (line ++ '\t' :: extra).getLast? = some '\r'
    · rw [if_pos hc]
      have hne : extra ≠ [] := by
        intro h0
        have := hc.2
        rw [h0, List.getLast?_append] at this
        simp at this
      refine ⟨extra.dropLast, ?_⟩
      rw [List.dropLast_append_of_ne_nil _ (by simp), List.dropLast_cons_of_ne_nil hne]
    · rw [if_neg hc]
      exact ⟨extra, rfl⟩
  rw [he] at h2
  obtain ⟨ch, hch, hws⟩ := exists_not_ws_of_trim huseful
  exact validateFile_congr_line fileName h1 h2 hA huseful
    (trim_ne_nil (List.mem_append_left _ hch) hws)
    (fun i t g => processLine_append_field extra1 i t g htab)

theorem extra_fields_ignored_witness :
    validateFile "TVWXYB120012024.txt".toList
        ("TVWXY\t20/01/2024\t2\t300.00\n".toList ++
          ("1\t100.00".toList ++ '\t' :: "note\t7".toList) ++ "\n2\t200.00".toList) =
      validateFile "TVWXYB120012024.txt".toList
        ("TVWXY\t20/01/2024\t2\t300.00\n".toList ++ "1\t100.00".toList ++
          "\n2\t200.00".toList) ∧
    validateFile "TVWXYB120012024.txt".toList
        "TVWXY\t20/01/2024\t2\t300.00\n1\t100.00\tnote\t7\n2\t200.00".toList = .success :=
  ⟨extra_fields_ignored "TVWXYB120012024.txt".toList "TVWXY\t20/01/2024\t2\t300.00\n".toList
      "1\t100.00".toList "\n2\t200.00".toList "note\t7".toList (by decide)
      (Or.inr ⟨"2\t200.00".toList, Or.inl rfl⟩) (by decide) (fun _ => by decide) (by decide!)
      (by decide) (by decide), by decide!⟩

/-! ## The accumulators of the loop -/

theorem parseInt_of_inMainGroup {s : Str} (h : inMainGroup (parseInt s) = true) :
    ∃ k, 1 ≤ k ∧ k ≤ 5 ∧ parseInt s = F64.ofNat k := by
  unfold parseInt at h ⊢
  rcases hm : mathInt s with _ | ⟨sg, v⟩
  · rw [hm] at h
    exact absurd h (by decide)
  · rw [hm] at h
    dsimp only at h ⊢
    obtain ⟨rfl, h1, h5⟩ := (inMainGroup_roundPos sg v).mp h
    exact ⟨v, h1, h5, rfl⟩

theorem ofNat_small_values :
    F64.ofNat 1 = .fin false 4503599627370496 (-52) ∧
      F64.ofNat 2 = .fin false 4503599627370496 (-51) ∧
      F64.ofNat 3 = .fin false 6755399441055744 (-51) ∧
      F64.ofNat 4 = .fin false 4503599627370496 (-50) ∧
      F64.ofNat 5 = .fin false 5629499534213120 (-50) := by
  decide!

theorem hasOwnProperty_of_inMainGroup {s : Str} (h : inMainGroup (parseInt s) = true) :
    GroupSubtotals.hasOwnProperty (parseInt s) = true := by
  obtain ⟨k, h1, h5, hk⟩ := parseInt_of_inMainGroup h
  rw [hk]
  interval_cases k <;> simp [GroupSubtotals.hasOwnProperty]

theorem inMainGroup_ofNat_small {k : Nat} (h1 : 1 ≤ k) (h5 : k ≤ 5) :
    inMainGroup (F64.ofNat k) = true :=
  (inMainGroup_roundPos false k).mpr ⟨rfl, h1, h5⟩

/-- The accumulators after one line that the loop accepts. -/
theorem processLine_ok_step {l : Str} {i : Nat} {t t1 : F64} {g g1 : GroupSubtotals}
    (h : processLine l i t g = .ok (t1, g1)) :
    t1 = (if inMainGroup (parseInt (lineFields l).1) then t.add (parseFloat (lineFields l).2)
      else t) ∧
    g1 = (if inMainGroup (parseInt (lineFields l).1) then
      g.addTo (parseInt (lineFields l).1) (parseFloat (lineFields l).2) else g) := by
  unfold lineFields
  dsimp only
  unfold processLine at h
  dsimp only at h
  by_cases h1 : '\t' ∉ l
  · rw [if_pos h1] at h; simp at h
  rw [if_neg h1] at h
  by_cases h2 : (splitTab l).length < 2
  · rw [if_pos h2] at h; simp at h
  rw [if_neg h2] at h
  by_cases h3 : ((parseInt ((splitTab l).getD 0 [])).isNaN ||
      (parseFloat ((splitTab l).getD 1 [])).isNaN) = true
  · rw [if_pos h3] at h; simp at h
  rw [if_neg h3] at h
  by_cases h4 : inMainGroup (parseInt ((splitTab l).getD 0 [])) = true
  · rw [if_pos h4, if_pos (hasOwnProperty_of_inMainGroup h4)] at h
    rw [if_pos h4, if_pos h4]
    simp only [Except.ok.injEq, Prod.mk.injEq] at h
    exact ⟨h.1.symm, h.2.symm⟩
  · rw [if_neg h4] at h
    rw [if_neg h4, if_neg h4]
    simp only [Except.ok.injEq, Prod.mk.injEq] at h
    exact ⟨h.1.symm, h.2.symm⟩

theorem addTo_buckets (g : GroupSubtotals) (gc amt : F64) :
    (g.addTo gc amt).g1 = (if gc = F64.ofNat 1 then g.g1.add amt else g.g1) ∧
    (g.addTo gc amt).g2 = (if gc = F64.ofNat 2 then g.g2.add amt else g.g2) ∧
    (g.addTo gc amt).g3 = (if gc = F64.ofNat 3 then g.g3.add amt else g.g3) ∧
    (g.addTo gc amt).g4 = (if gc = F64.ofNat 4 then g.g4.add amt else g.g4) ∧
    (g.addTo gc amt).g5 = (if gc = F64.ofNat 5 then g.g5.add amt else g.g5) := by
  obtain ⟨e1, e2, e3, e4, e5⟩ := ofNat_small_values
  unfold GroupSubtotals.addTo
  rw [e1, e2, e3, e4, e5]
  by_cases h1 : gc = .fin false 4503599627370496 (-52)
  · subst h1; simp
  by_cases h2 : gc = .fin false 4503599627370496 (-51)
  · subst h2; simp
  by_cases h3 : gc = .fin false 6755399441055744 (-51)
  · subst h3; simp
  by_cases h4 : gc = .fin false 4503599627370496 (-50)
  · subst h4; simp
  by_cases h5 : gc = .fin false 5629499534213120 (-50)
  · subst h5; simp
  simp [h1, h2, h3, h4, h5]

theorem ne_ofNat_of_not_inMainGroup {gc : F64} (h : ¬ inMainGroup gc = true) {k : Nat}
    (h1 : 1 ≤ k) (h5 : k ≤ 5) : gc ≠ F64.ofNat k :=
  fun heq => h (by rw [heq]; exact inMainGroup_ofNat_small h1 h5)

theorem floatSum_cons (acc : F64) (row : Str × Str) (rows : List (Str × Str)) :
    floatSum acc (row :: rows) =
      floatSum (if inMainGroup (parseInt row.1) then acc.add (parseFloat row.2) else acc) rows :=
  rfl

theorem bucketSum_cons (k : Nat) (acc : F64) (row : Str × Str) (rows : List (Str × Str)) :
    bucketSum k acc (row :: rows) =
      bucketSum k (if parseInt row.1 = F64.ofNat k then acc.add (parseFloat row.2) else acc)
        rows :=
  rfl

/-- The accumulators after the loop are the running sums of the total and of
each bucket over the lines processed. -/
theorem processLines_running_sums {ls : List Str} {i : Nat} {t t1 : F64}
    {g g1 : GroupSubtotals} (h : processLines ls i t g = .ok (t1, g1)) :
    t1 = floatSum t (ls.map lineFields) ∧
      g1.g1 = bucketSum 1 g.g1 (ls.map lineFields) ∧
      g1.g2 = bucketSum 2 g.g2 (ls.map lineFields) ∧
      g1.g3 = bucketSum 3 g.g3 (ls.map lineFields) ∧
      g1.g4 = bucketSum 4 g.g4 (ls.map lineFields) ∧
      g1.g5 = bucketSum 5 g.g5 (ls.map lineFields) := by
  induction ls generalizing i t g with
  | nil =>
    simp only [processLines, Except.ok.injEq, Prod.mk.injEq] at h
    obtain ⟨rfl, rfl⟩ := h
    exact ⟨rfl, rfl, rfl, rfl, rfl, rfl⟩
  | cons l ls ih =>
    rw [processLines_cons] at h
    rcases hl : processLine l i t g with f | ⟨t2, g2⟩
    · rw [hl] at h
      simp at h
    · rw [hl] at h
      dsimp only at h
      obtain ⟨ht2, hg2⟩ := processLine_ok_step hl
      obtain ⟨a0, a1, a2, a3, a4, a5⟩ := ih h
      obtain ⟨b1, b2, b3, b4, b5⟩ := addTo_buckets g (parseInt (lineFields l).1)
        (parseFloat (lineFields l).2)
      rw [List.map_cons, floatSum_cons, bucketSum_cons, bucketSum_cons, bucketSum_cons,
        bucketSum_cons, bucketSum_cons, ← ht2]
      by_cases hm : inMainGroup (parseInt (lineFields l).1) = true
      · rw [if_pos hm] at hg2
        rw [← b1, ← b2, ← b3, ← b4, ← b5, ← hg2]
        exact ⟨a0, a1, a2, a3, a4, a5⟩
      · rw [if_neg hm] at hg2
        rw [if_neg (ne_ofNat_of_not_inMainGroup hm (by decide) (by decide)),
          if_neg (ne_ofNat_of_not_inMainGroup hm (by decide) (by decide)),
          if_neg (ne_ofNat_of_not_inMainGroup hm (by decide) (by decide)),
          if_neg (ne_ofNat_of_not_inMainGroup hm (by decide) (by decide)),
          if_neg (ne_ofNat_of_not_inMainGroup hm (by decide) (by decide)), ← hg2]
        exact ⟨a0, a1, a2, a3, a4, a5⟩

theorem exactAdd_spec {a b : F64} (h : F64.exactAdd a b = true) :
    ∃ x y, a.units = some x ∧ b.units = some y ∧ (a.add b).units = some (x + y) := by
  unfold F64.exactAdd at h
  rcases ha : a.units with _ | x
  · rw [ha] at h; simp at h
  rcases hb : b.units with _ | y
  · rw [ha, hb] at h; simp at h
  rcases hc : (a.add b).units with _ | z
  · rw [ha, hb, hc] at h; simp at h
  rw [ha, hb, hc] at h
  simp only [decide_eq_true_eq] at h
  exact ⟨x, y, rfl, rfl, by rw [h]⟩

theorem get_buckets (g : GroupSubtotals) :
    g.get (F64.ofNat 1) = g.g1 ∧ g.get (F64.ofNat 2) = g.g2 ∧ g.get (F64.ofNat 3) = g.g3 ∧
      g.get (F64.ofNat 4) = g.g4 ∧ g.get (F64.ofNat 5) = g.g5 := by
  obtain ⟨e1, e2, e3, e4, e5⟩ := ofNat_small_values
  unfold GroupSubtotals.get
  rw [e1, e2, e3, e4, e5]
  simp

/-- When every addition of the loop is exact, the total keeps equal to the sum
of the five buckets. -/
theorem exactAdds_sum {ls : List Str} {i : Nat} {t t1 : F64} {g g1 : GroupSubtotals}
    (h : processLines ls i t g = .ok (t1, g1))
    (hex : exactAdds t g (ls.map lineFields) = true)
    (hinv : ∃ vt v1 v2 v3 v4 v5 : Int, t.units = some vt ∧ g.g1.units = some v1 ∧
      g.g2.units = some v2 ∧ g.g3.units = some v3 ∧ g.g4.units = some v4 ∧
      g.g5.units = some v5 ∧ vt = v1 + v2 + v3 + v4 + v5) :
    ∃ vt v1 v2 v3 v4 v5 : Int, t1.units = some vt ∧ g1.g1.units = some v1 ∧
      g1.g2.units = some v2 ∧ g1.g3.units = some v3 ∧ g1.g4.units = some v4 ∧
      g1.g5.units = some v5 ∧ vt = v1 + v2 + v3 + v4 + v5 := by
  induction ls generalizing i t g with
  | nil =>
    simp only [processLines, Except.ok.injEq, Prod.mk.injEq] at h
    obtain ⟨rfl, rfl⟩ := h
    exact hinv
  | cons l ls ih =>
    rw [processLines_cons] at h
    rcases hl : processLine l i t g with f | ⟨t2, g2⟩
    · rw [hl] at h
      simp at h
    · rw [hl] at h
      dsimp only at h
      obtain ⟨ht2, hg2⟩ := processLine_ok_step hl
      rw [List.map_cons, exactAdds] at hex
      by_cases hm : inMainGroup (parseInt (lineFields l).1) = true
      · rw [if_pos hm] at hex ht2 hg2
        simp only [Bool.and_eq_true] at hex
        obtain ⟨⟨hx1, hx2⟩, hx3⟩ := hex
        rw [← ht2, ← hg2] at hx3
        refine ih h hx3 ?_
        obtain ⟨vt, v1, v2, v3, v4, v5, u0, u1, u2, u3, u4, u5, hsum⟩ := hinv
        obtain ⟨x, y, p1, p2, p3⟩ := exactAdd_spec hx1
        obtain ⟨x', y', q1, q2, q3⟩ := exactAdd_spec hx2
        rw [u0] at p1
        injection p1 with p1
        rw [p2] at q2
        injection q2 with q2
        subst p1 q2
        obtain ⟨k, k1, k5, hk⟩ := parseInt_of_inMainGroup hm
        obtain ⟨c1, c2, c3, c4, c5⟩ := get_buckets g
        obtain ⟨e1, e2, e3, e4, e5⟩ := ofNat_small_values
        obtain ⟨b1, b2, b3, b4, b5⟩ := addTo_buckets g (parseInt (lineFields l).1)
          (parseFloat (lineFields l).2)
        rw [hk] at q1 q3 b1 b2 b3 b4 b5 hg2
        rw [ht2, hg2, b1, b2, b3, b4, b5]
        interval_cases k
        · rw [c1, u1] at q1
          injection q1 with q1
          subst q1
          rw [c1] at q3
          refine ⟨_, v1 + y, v2, v3, v4, v5, p3, ?_, ?_, ?_, ?_, ?_, ?_⟩
          · rw [if_pos rfl]; exact q3
          · rw [if_neg (by rw [e1, e2]; simp)]; exact u2
          · rw [if_neg (by rw [e1, e3]; simp)]; exact u3
          · rw [if_neg (by rw [e1, e4]; simp)]; exact u4
          · rw [if_neg (by rw [e1, e5]; simp)]; exact u5
          · omega
        · rw [c2, u2] at q1
          injection q1 with q1
          subst q1
          rw [c2] at q3
          refine ⟨_, v1, v2 + y, v3, v4, v5, p3, ?_, ?_, ?_, ?_, ?_, ?_⟩
          · rw [if_neg (by rw [e1, e2]; simp)]; exact u1
          · rw [if_pos rfl]; exact q3
          · rw [if_neg (by rw [e2, e3]; simp)]; exact u3
          · rw [if_neg (by rw [e2, e4]; simp)]; exact u4
          · rw [if_neg (by rw [e2, e5]; simp)]; exact u5
          · omega
        · rw [c3, u3] at q1
          injection q1 with q1
          subst q1
          rw [c3] at q3
          refine ⟨_, v1, v2, v3 + y, v4, v5, p3, ?_, ?_, ?_, ?_, ?_, ?_⟩
          · rw [if_neg (by rw [e1, e3]; simp)]; exact u1
          · rw [if_neg (by rw [e2, e3]; simp)]; exact u2
          · rw [if_pos rfl]; exact q3
          · rw [if_neg (by rw [e3, e4]; simp)]; exact u4
          · rw [if_neg (by rw [e3, e5]; simp)]; exact u5
          · omega
        · rw [c4, u4] at q1
          injection q1 with q1
          subst q1
          rw [c4] at q3
          refine ⟨_, v1, v2, v3, v4 + y, v5, p3, ?_, ?_, ?_, ?_, ?_, ?_⟩
          · rw [if_neg (by rw [e1, e4]; simp)]; exact u1
          · rw [if_neg (by rw [e2, e4]; simp)]; exact u2
          · rw [if_neg (by rw [e3, e4]; simp)]; exact u3
          · rw [if_pos rfl]; exact q3
          · rw [if_neg (by rw [e4, e5]; simp)]; exact u5
          · omega
        · rw [c5, u5] at q1
          injection q1 with q1
          subst q1
          rw [c5] at q3
          refine ⟨_, v1, v2, v3, v4, v5 + y, p3, ?_, ?_, ?_, ?_, ?_, ?_⟩
          · rw [if_neg (by rw [e1, e5]; simp)]; exact u1
          · rw [if_neg (by rw [e2, e5]; simp)]; exact u2
          · rw [if_neg (by rw [e3, e5]; simp)]; exact u3
          · rw [if_neg (by rw [e4, e5]; simp)]; exact u4
          · rw [if_pos rfl]; exact q3
          · omega
      · rw [if_neg hm] at hex ht2 hg2
        rw [← ht2, ← hg2] at hex
        rw [← ht2, ← hg2] at hinv
        exact ih h hex hinv

theorem zero_units : (F64.ofNat 0).units = some 0 := by decide!

/-! ## The claim on the accumulators -/

/-- C20 as stated fails: on the useful lines `1\t9007199254740992`, `2\t1`,
`2\t1` the loop ends with the calculated total `9007199254740992` and the
buckets `9007199254740992` and `2`, which do not add up to it; with the
declared total `9007199254740994` the reconciliation failure reports these
values. The two additions of `1` to the total are rounded away, while the
bucket of group 2 adds them exactly. -/
theorem subtotals_do_not_add_up :
    processLines ["1\t9007199254740992".toList, "2\t1".toList, "2\t1".toList] 0 (F64.ofNat 0)
        zeroSubtotals =
      .ok (F64.ofNat 9007199254740992,
        ⟨F64.ofNat 9007199254740992, F64.ofNat 2, F64.ofNat 0, F64.ofNat 0, F64.ofNat 0⟩) ∧
    (F64.ofNat 9007199254740992).units = some (9007199254740992 * 2 ^ 1074) ∧
    (F64.ofNat 2).units = some (2 * 2 ^ 1074) ∧ (F64.ofNat 0).units = some 0 ∧
    (9007199254740992 * 2 ^ 1074 : Int) ≠ 9007199254740992 * 2 ^ 1074 + 2 * 2 ^ 1074 + 0 + 0 + 0 ∧
    validateFile "TVWXYB120012024.txt".toList
        "TVWXY\t20/01/2024\t3\t9007199254740994\n1\t9007199254740992\n2\t1\n2\t1".toList =
      .failure (.totalReconciliationMismatch
        [("Total Declarado", "9007199254740994.00".toList),
         ("Suma Calculada", "9007199254740992.00".toList),
         ("Diferencia", "-2.00".toList),
         ("Subtotal Grupo 1", "9007199254740992.00".toList),
         ("Subtotal Grupo 2", "2.00".toList), ("Subtotal Grupo 3", "0.00".toList),
         ("Subtotal Grupo 4", "0.00".toList), ("Subtotal Grupo 5", "0.00".toList)]) ∧
    exactValue "9007199254740992.00".toList + exactValue "2.00".toList +
        exactValue "0.00".toList + exactValue "0.00".toList + exactValue "0.00".toList ≠
      exactValue "9007199254740992.00".toList := by
  refine ⟨by decide!, by decide!, by decide!, by decide!, by decide!, by decide!, by decide!⟩

/-- C20, amended: after the loop has processed any list of lines from the
initial accumulators, the calculated total is the binary64 running sum, in
file order, of the subtotals of the lines whose group code passes
`1 <= code <= 5`, and bucket `k` is the binary64 running sum of the subtotals
of the lines whose group code is `k`; the own-property guard holds for every
group code that passes the range test; and the total equals the sum of the
five buckets whenever every addition of the loop is exact. -/
theorem accumulators_are_running_sums (ls : List Str) (t : F64) (g : GroupSubtotals)
    (h : processLines ls 0 (F64.ofNat 0) zeroSubtotals = .ok (t, g)) :
    t = floatSum (F64.ofNat 0) (ls.map lineFields) ∧
      g.g1 = bucketSum 1 (F64.ofNat 0) (ls.map lineFields) ∧
      g.g2 = bucketSum 2 (F64.ofNat 0) (ls.map lineFields) ∧
      g.g3 = bucketSum 3 (F64.ofNat 0) (ls.map lineFields) ∧
      g.g4 = bucketSum 4 (F64.ofNat 0) (ls.map lineFields) ∧
      g.g5 = bucketSum 5 (F64.ofNat 0) (ls.map lineFields) ∧
      (∀ s : Str, inMainGroup (parseInt s) = true →
        GroupSubtotals.hasOwnProperty (parseInt s) = true) ∧
      (exactAdds (F64.ofNat 0) zeroSubtotals (ls.map lineFields) = true →
        ∃ vt v1 v2 v3 v4 v5 : Int, t.units = some vt ∧ g.g1.units = some v1 ∧
          g.g2.units = some v2 ∧ g.g3.units = some v3 ∧ g.g4.units = some v4 ∧
          g.g5.units = some v5 ∧ vt = v1 + v2 + v3 + v4 + v5) := by
  obtain ⟨a0, a1, a2, a3, a4, a5⟩ := processLines_running_sums h
  refine ⟨a0, a1, a2, a3, a4, a5, fun s hs => hasOwnProperty_of_inMainGroup hs, fun hex => ?_⟩
  exact exactAdds_sum h hex
    ⟨0, 0, 0, 0, 0, 0, zero_units, zero_units, zero_units, zero_units, zero_units, zero_units,
      rfl⟩

theorem accumulators_are_running_sums_witness :
    parseFloat "300".toList =
        floatSum (F64.ofNat 0) (["1\t100.00".toList, "2\t200.00".toList].map lineFields) ∧
      ∃ vt v1 v2 v3 v4 v5 : Int, (parseFloat "300".toList).units = some vt ∧
        (parseFloat "100".toList).units = some v1 ∧ (parseFloat "200".toList).units = some v2 ∧
        (F64.ofNat 0).units = some v3 ∧ (F64.ofNat 0).units = some v4 ∧
        (F64.ofNat 0).units = some v5 ∧ vt = v1 + v2 + v3 + v4 + v5 :=
  have h := accumulators_are_running_sums ["1\t100.00".toList, "2\t200.00".toList]
    (parseFloat "300".toList)
    ⟨parseFloat "100".toList, parseFloat "200".toList, F64.ofNat 0, F64.ofNat 0, F64.ofNat 0⟩
    (by decide!)
  ⟨h.1, h.2.2.2.2.2.2.2 (by decide!)⟩

/-! ## No read gives `undefined` where it is used -/

theorem getElem?_of_getD_lt {xs : List Str} {i : Nat} (h : i < xs.length) :
    xs[i]? = some (xs.getD i []) := by
  rw [List.getD_eq_getElem?_getD, List.getElem?_eq_getElem h]
  rfl

theorem processLineStrict_eq (l : Str) (i : Nat) (t : F64) (g : GroupSubtotals) :
    processLineStrict (some l) i t g = .ok (processLine l i t g) := by
  unfold processLineStrict processLine
  dsimp only
  by_cases h1 : '\t' ∉ l
  · rw [if_pos h1, if_pos h1]
  rw [if_neg h1, if_neg h1]
  by_cases h2 : (splitTab l).length < 2
  · rw [if_pos h2, if_pos h2]
  rw [if_neg h2, if_neg h2, getElem?_of_getD_lt (by omega), getElem?_of_getD_lt (by omega)]
  unfold toStr
  dsimp only
  by_cases h3 : ((parseInt ((splitTab l).getD 0 [])).isNaN ||
      (parseFloat ((splitTab l).getD 1 [])).isNaN) = true
  · rw [if_pos h3, if_pos h3]
  rw [if_neg h3, if_neg h3]
  by_cases h4 : inMainGroup (parseInt ((splitTab l).getD 0 [])) = true
  · rw [if_pos h4, if_pos h4]
  · rw [if_neg h4, if_neg h4]

theorem loopStrict_eq (useful : List Str) (k i : Nat) (t : F64) (g : GroupSubtotals)
    (h : i + k = useful.length) :
    loopStrict useful k i t g = .ok (processLines (useful.drop i) i t g) := by
  induction k generalizing i t g with
  | zero =>
    have : useful.drop i = [] := List.drop_eq_nil_of_le (by omega)
    rw [this]
    rfl
  | succ k ih =>
    have hi : i < useful.length := by omega
    have hd : useful.drop i = useful[i] :: useful.drop (i + 1) := List.drop_eq_getElem_cons hi
    rw [hd, processLines_cons]
    unfold loopStrict
    rw [List.getElem?_eq_getElem hi, processLineStrict_eq]
    rcases processLine useful[i] i t g with f | ⟨t1, g1⟩
    · rfl
    · exact ih (i + 1) t1 g1 (by omega)

theorem detailsStrict_eq (d t : F64) (g : GroupSubtotals) :
    detailsStrict d t g = .ok (details d t g) := rfl

/-- The script never throws: with every read that can give `undefined` kept
as it is, `validateFile` displays what the embedding with default values
computes. -/
theorem validateFileStrict_eq (n c : Str) :
    validateFileStrict n c = .ok (validateFile n c) := by
  have hlast : (splitLines c)[(splitLines c).length - 1]? = (splitLines c).getLast? :=
    (List.getLast?_eq_getElem? _).symm
  have hfirst : (splitLines c)[0]? = some ((splitLines c).headD []) := by
    rcases hs : splitLines c with _ | ⟨a, rest⟩
    · exact absurd hs (splitLines_ne_nil c)
    · exact List.getElem?_cons_zero
  unfold validateFileStrict validateFile checksBeforeReconciliation
  dsimp only
  rw [hlast, hfirst]
  by_cases h1 : ¬ nameRegex n = true
  · rw [if_pos h1, if_pos h1]
  rw [if_neg h1, if_neg h1]
  by_cases h2 : 1 < (splitLines c).length ∧ (splitLines c).getLast? = some []
  · rw [if_pos h2, if_pos h2]
  rw [if_neg h2, if_neg h2]
  by_cases h3 : (splitLines c).headD [] = []
  · rw [if_pos (by unfold isFalsy; simpa using h3), if_pos h3]
  rw [if_neg (by unfold isFalsy; simpa using h3), if_neg h3]
  unfold splitTabOf
  dsimp only
  by_cases h4 : (splitTab ((splitLines c).headD [])).length ≠ 4
  · rw [if_pos h4, if_pos h4]
  rw [if_neg h4, if_neg h4]
  have h4' : (splitTab ((splitLines c).headD [])).length = 4 := not_not.mp h4
  rw [getElem?_of_getD_lt (by omega), getElem?_of_getD_lt (by omega),
    getElem?_of_getD_lt (by omega), getElem?_of_getD_lt (by omega)]
  unfold toStr
  dsimp only
  by_cases h5 : (splitTab ((splitLines c).headD [])).getD 0 [] ≠ expectedCode n
  · rw [if_pos (by simpa using h5), if_pos h5]
  rw [if_neg (by simpa using h5), if_neg h5]
  by_cases h6 : ¬ dateRegex ((splitTab ((splitLines c).headD [])).getD 1 []) = true
  · rw [if_pos h6, if_pos h6]
  rw [if_neg h6, if_neg h6]
  by_cases h7 : (parseInt ((splitTab ((splitLines c).headD [])).getD 2 [])).isNaN = true
  · rw [if_pos h7, if_pos h7]
  rw [if_neg h7, if_neg h7]
  by_cases h8 : (parseFloat ((splitTab ((splitLines c).headD [])).getD 3 [])).isNaN = true
  · rw [if_pos h8, if_pos h8]
  rw [if_neg h8, if_neg h8]
  by_cases h9 : ¬ (F64.ofNat (usefulLines (splitLines c)).length).eq
      (parseInt ((splitTab ((splitLines c).headD [])).getD 2 [])) = true
  · rw [if_pos h9, if_pos h9]
  rw [if_neg h9, if_neg h9]
  have hloop := loopStrict_eq (usefulLines (splitLines c)) (usefulLines (splitLines c)).length 0
    (F64.ofNat 0) zeroSubtotals (Nat.zero_add _)
  rw [List.drop_zero] at hloop
  rw [hloop]
  unfold zeroSubtotals
  rcases processLines (usefulLines (splitLines c)) 0 (F64.ofNat 0)
      ⟨F64.ofNat 0, F64.ofNat 0, F64.ofNat 0, F64.ofNat 0, F64.ofNat 0⟩ with f | ⟨t, g⟩
  · rfl
  · dsimp only
    unfold reconcile
    by_cases hg : ((t.sub (parseFloat ((splitTab ((splitLines c).headD [])).getD 3 []))).abs).gt
        tolerance = true
    · rw [if_pos hg, if_pos hg, detailsStrict_eq]
    · rw [if_neg hg, if_neg hg]

/-! ## Rounding against the tolerance -/

theorem ilog2Ratio_spec {p q : Nat} (hp : 0 < p) (hq : 0 < q) :
    q * 2 ^ (ilog2Ratio p q).toNat ≤ p * 2 ^ (-(ilog2Ratio p q)).toNat ∧
      p * 2 ^ (-(ilog2Ratio p q + 1)).toNat < q * 2 ^ (ilog2Ratio p q + 1).toNat := by
  have p1 := lt_two_pow_bitLen p
  have p2 := two_pow_bitLen_le hp
  have q1 := lt_two_pow_bitLen q
  have q2 := two_pow_bitLen_le hq
  have bp := bitLen_pos hp
  have bq := bitLen_pos hq
  unfold ilog2Ratio
  dsimp only
  by_cases hd : bitLen q ≤ bitLen p
  · obtain ⟨k, hk⟩ : ∃ k, bitLen p = bitLen q + k := ⟨bitLen p - bitLen q, by omega⟩
    have e1 : ((bitLen p : Int) - (bitLen q : Int)).toNat = k := by omega
    have e2 : (-((bitLen p : Int) - (bitLen q : Int))).toNat = 0 := by omega
    rw [e1, e2, pow_zero, mul_one]
    have hpow : 2 ^ bitLen p = 2 ^ (bitLen q - 1) * 2 ^ (k + 1) := by
      rw [← pow_add]; congr 1; omega
    by_cases ht : q * 2 ^ k ≤ p
    · rw [if_pos ht]
      have e3 : (-((bitLen p : Int) - (bitLen q : Int) + 1)).toNat = 0 := by omega
      have e4 : ((bitLen p : Int) - (bitLen q : Int) + 1).toNat = k + 1 := by omega
      rw [e1, e2, e3, e4, pow_zero, mul_one]
      refine ⟨ht, ?_⟩
      calc p < 2 ^ bitLen p := p1
        _ = 2 ^ (bitLen q - 1) * 2 ^ (k + 1) := hpow
        _ ≤ q * 2 ^ (k + 1) := Nat.mul_le_mul_right _ q2
    · rw [if_neg ht]
      have e3 : (-((bitLen p : Int) - (bitLen q : Int) - 1 + 1)).toNat = 0 := by omega
      have e4 : ((bitLen p : Int) - (bitLen q : Int) - 1 + 1).toNat = k := by omega
      rw [e3, e4, pow_zero, mul_one]
      refine ⟨?_, by omega⟩
      rcases Nat.eq_zero_or_pos k with hk0 | hk0
      · have e5 : ((bitLen p : Int) - (bitLen q : Int) - 1).toNat = 0 := by omega
        have e6 : (-((bitLen p : Int) - (bitLen q : Int) - 1)).toNat = 1 := by omega
        rw [e5, e6, pow_zero, mul_one, pow_one]
        have : 2 ^ bitLen q = 2 ^ (bitLen p - 1) * 2 := by
          rw [← pow_succ]; congr 1; omega
        omega
      · have e5 : ((bitLen p : Int) - (bitLen q : Int) - 1).toNat = k - 1 := by omega
        have e6 : (-((bitLen p : Int) - (bitLen q : Int) - 1)).toNat = 0 := by omega
        rw [e5, e6, pow_zero, mul_one]
        have h1 : q * 2 ^ (k - 1) < 2 ^ bitLen q * 2 ^ (k - 1) :=
          Nat.mul_lt_mul_of_pos_right q1 (by positivity)
        have h2 : 2 ^ bitLen q * 2 ^ (k - 1) = 2 ^ (bitLen p - 1) := by
          rw [← pow_add]; congr 1; omega
        omega
  · obtain ⟨k, hk, hk1⟩ : ∃ k, bitLen q = bitLen p + k ∧ 1 ≤ k :=
      ⟨bitLen q - bitLen p, by omega, by omega⟩
    have e1 : ((bitLen p : Int) - (bitLen q : Int)).toNat = 0 := by omega
    have e2 : (-((bitLen p : Int) - (bitLen q : Int))).toNat = k := by omega
    rw [e1, e2, pow_zero, mul_one]
    by_cases ht : q ≤ p * 2 ^ k
    · rw [if_pos ht]
      have e3 : (-((bitLen p : Int) - (bitLen q : Int) + 1)).toNat = k - 1 := by omega
      have e4 : ((bitLen p : Int) - (bitLen q : Int) + 1).toNat = 0 := by omega
      rw [e1, e2, e3, e4, pow_zero, mul_one]
      refine ⟨ht, ?_⟩
      have h1 : p * 2 ^ (k - 1) < 2 ^ bitLen p * 2 ^ (k - 1) :=
        Nat.mul_lt_mul_of_pos_right p1 (by positivity)
      have h2 : 2 ^ bitLen p * 2 ^ (k - 1) = 2 ^ (bitLen q - 1) := by
        rw [← pow_add]; congr 1; omega
      omega
    · rw [if_neg ht]
      have e3 : ((bitLen p : Int) - (bitLen q : Int) - 1).toNat = 0 := by omega
      have e4 : (-((bitLen p : Int) - (bitLen q : Int) - 1)).toNat = k + 1 := by omega
      have e5 : (-((bitLen p : Int) - (bitLen q : Int) - 1 + 1)).toNat = k := by omega
      have e6 : ((bitLen p : Int) - (bitLen q : Int) - 1 + 1).toNat = 0 := by omega
      rw [e3, e4, e5, e6, pow_zero, mul_one]
      refine ⟨?_, by omega⟩
      have h1 : 2 ^ bitLen q = 2 ^ (bitLen p - 1) * 2 ^ (k + 1) := by
        rw [← pow_add]; congr 1; omega
      have h2 : 2 ^ (bitLen p - 1) * 2 ^ (k + 1) ≤ p * 2 ^ (k + 1) :=
        Nat.mul_le_mul_right _ p2
      omega

theorem gt_tolerance_of_le (m : Nat) {e : Int} (h : e ≤ -62) :
    (F64.fin false m e).gt tolerance = true ↔ 4611686018427388 * 2 ^ (-62 - e).toNat < m := by
  rw [tolerance_eq]
  unfold F64.gt F64.lt
  have e1 : min (-62) e = e := by omega
  simp only [e1, decide_eq_true_eq, scaled_false, sub_self, Int.toNat_zero, pow_zero, mul_one]
  exact Int.ofNat_lt

theorem gt_tolerance_of_ge (m : Nat) {e : Int} (h : -62 ≤ e) :
    (F64.fin false m e).gt tolerance = true ↔ 4611686018427388 < m * 2 ^ (e + 62).toNat := by
  rw [tolerance_eq]
  unfold F64.gt F64.lt
  have e1 : min (-62) e = -62 := by omega
  have e2 : e - -62 = e + 62 := by omega
  simp only [e1, e2, decide_eq_true_eq, scaled_false, sub_self, Int.toNat_zero, pow_zero, mul_one]
  exact Int.ofNat_lt

theorem gt_tolerance_inf : (F64.inf false).gt tolerance = true := by
  rw [tolerance_eq]
  rfl

/-- The comparison with the tolerance of a quotient rounded at the exponent
`e`, which is `-62` for a quotient in the binade of the tolerance, larger for
a larger quotient and smaller for a smaller one. -/
theorem round_core {p q : Nat} (e : Int) (hq : 0 < q)
    (hA : -61 ≤ e → 2 ^ 52 * (q * 2 ^ e.toNat) ≤ p * 2 ^ (-e).toNat ∧ q ≤ p * 2 ^ 9)
    (hB : e ≤ -63 → p * 2 ^ 10 < q) (m : Nat)
    (hm : m = if q * 2 ^ e.toNat < 2 * (p * 2 ^ (-e).toNat % (q * 2 ^ e.toNat)) ∨
        (2 * (p * 2 ^ (-e).toNat % (q * 2 ^ e.toNat)) = q * 2 ^ e.toNat ∧
          p * 2 ^ (-e).toNat / (q * 2 ^ e.toNat) % 2 = 1)
      then p * 2 ^ (-e).toNat / (q * 2 ^ e.toNat) + 1
      else p * 2 ^ (-e).toNat / (q * 2 ^ e.toNat)) :
    (if 971 < (if m = 2 ^ 53 then e + 1 else e) then F64.inf false
      else F64.fin false (if m = 2 ^ 53 then 2 ^ 52 else m)
        (if m = 2 ^ 53 then e + 1 else e)).gt tolerance = true ↔
      9223372036854777 * q < p * 2 ^ 63 := by
  have hD : 0 < q * 2 ^ e.toNat := Nat.mul_pos hq (by positivity)
  have hdm := Nat.div_add_mod (p * 2 ^ (-e).toNat) (q * 2 ^ e.toNat)
  have hr := Nat.mod_lt (p * 2 ^ (-e).toNat) hD
  have hdiv52 : -61 ≤ e → 2 ^ 52 ≤ p * 2 ^ (-e).toNat / (q * 2 ^ e.toNat) := fun h =>
    (Nat.le_div_iff_mul_le hD).mpr (hA h).1
  have hdivlt : ∀ k, p * 2 ^ (-e).toNat < k * (q * 2 ^ e.toNat) →
      p * 2 ^ (-e).toNat / (q * 2 ^ e.toNat) < k := fun k h =>
    (Nat.div_lt_iff_lt_mul hD).mpr h
  generalize p * 2 ^ (-e).toNat / (q * 2 ^ e.toNat) = m0 at hm hdm hdiv52 hdivlt
  generalize p * 2 ^ (-e).toNat % (q * 2 ^ e.toNat) = r at hm hdm hr
  have hm01 : m0 ≤ m ∧ m ≤ m0 + 1 := by
    rw [hm]
    split_ifs <;> omega
  rcases lt_trichotomy e (-62) with he | he | he
  · -- a quotient below the binade of the tolerance
    have hb : e.toNat = 0 := by omega
    obtain ⟨a, ha, ha63⟩ : ∃ a, (-e).toNat = a ∧ 63 ≤ a := ⟨_, rfl, by omega⟩
    rw [ha, hb, pow_zero, mul_one] at hdivlt
    have hB' := hB (by omega)
    have hpow : 2 ^ a = 2 ^ 10 * 2 ^ (a - 10) := by
      rw [← pow_add]; congr 1; omega
    have hpow2 : 2 ^ (a - 10) = 2 ^ 52 * 2 ^ (a - 62) := by
      rw [← pow_add]; congr 1; omega
    have hm0 : m0 < 2 ^ (a - 10) := by
      apply hdivlt
      rw [hpow, ← mul_assoc, mul_comm (2 ^ (a - 10)) q]
      exact Nat.mul_lt_mul_of_pos_right hB' (by positivity)
    have hrhs : ¬ 9223372036854777 * q < p * 2 ^ 63 := by omega
    have hone : 1 ≤ 2 ^ (a - 62) := Nat.one_le_two_pow
    by_cases hc : m = 2 ^ 53
    · rw [if_pos hc, if_pos hc, if_neg (by omega), gt_tolerance_of_le _ (by omega)]
      have : 4611686018427388 * 1 ≤ 4611686018427388 * 2 ^ (-62 - (e + 1)).toNat :=
        Nat.mul_le_mul_left _ Nat.one_le_two_pow
      constructor
      · intro h; omega
      · intro h; exact absurd h hrhs
    · rw [if_neg hc, if_neg hc, if_neg (by omega), gt_tolerance_of_le _ (by omega)]
      have hexp : (-62 - e).toNat = a - 62 := by omega
      rw [hexp]
      have h1 : 2 ^ 52 * 2 ^ (a - 62) ≤ 4611686018427388 * 2 ^ (a - 62) :=
        Nat.mul_le_mul_right _ (by norm_num)
      constructor
      · intro h; omega
      · intro h; exact absurd h hrhs
  · -- a quotient in the binade of the tolerance
    subst he
    have ea : (-(-62 : Int)).toNat = 62 := rfl
    have eb : (-62 : Int).toNat = 0 := rfl
    simp only [ea, eb, pow_zero, mul_one] at hm hdm hr
    have hp63 : p * 2 ^ 63 = 2 * (p * 2 ^ 62) := by ring
    by_cases hc : m = 2 ^ 53
    · rw [if_pos hc, if_pos hc, if_neg (by omega), gt_tolerance_of_ge _ (by omega)]
      have e3 : ((-62 : Int) + 1 + 62).toNat = 1 := rfl
      rw [e3]
      have hX : q * (2 ^ 53 - 1) ≤ q * m0 := Nat.mul_le_mul_left _ (by omega)
      constructor
      · intro _; omega
      · intro _; norm_num
    · rw [if_neg hc, if_neg hc, if_neg (by omega), gt_tolerance_of_ge _ (by omega)]
      have e3 : ((-62 : Int) + 62).toNat = 0 := rfl
      rw [e3, pow_zero, mul_one]
      rcases lt_trichotomy m0 4611686018427388 with h0 | h0 | h0
      · have hX : q * m0 ≤ q * (4611686018427388 - 1) := Nat.mul_le_mul_left _ (by omega)
        constructor <;> intro h <;> omega
      · subst h0
        by_cases h2 : q < 2 * r
        · rw [if_pos (Or.inl h2)] at hm
          constructor <;> intro h <;> omega
        · rw [if_neg (by rintro (h | ⟨_, h⟩); exact h2 h; norm_num at h)] at hm
          constructor <;> intro h <;> omega
      · have hX : q * (4611686018427388 + 1) ≤ q * m0 := Nat.mul_le_mul_left _ (by omega)
        constructor <;> intro h <;> omega
  · -- a quotient above the binade of the tolerance
    obtain ⟨h52, hq9⟩ := hA (by omega)
    have hm0 := hdiv52 (by omega)
    have hrhs : 9223372036854777 * q < p * 2 ^ 63 := by omega
    have hlhs : ∀ (m1 : Nat) (e1 : Int), 2 ^ 52 ≤ m1 → -61 ≤ e1 →
        (if 971 < e1 then F64.inf false else F64.fin false m1 e1).gt tolerance = true := by
      intro m1 e1 h1 h2
      by_cases h3 : 971 < e1
      · rw [if_pos h3]; exact gt_tolerance_inf
      · rw [if_neg h3, gt_tolerance_of_ge _ (by omega)]
        have hk : 2 ^ 1 ≤ 2 ^ (e1 + 62).toNat := Nat.pow_le_pow_right (by decide) (by omega)
        have := Nat.mul_le_mul h1 hk
        omega
    by_cases hc : m = 2 ^ 53
    · rw [if_pos hc, if_pos hc]
      exact ⟨fun _ => hrhs, fun _ => hlhs _ _ le_rfl (by omega)⟩
    · rw [if_neg hc, if_neg hc]
      exact ⟨fun _ => hrhs, fun _ => hlhs _ _ (by omega) (by omega)⟩

theorem abs_roundPos (s : Bool) (p q : Nat) : (roundPos s p q).abs = roundPos false p q := by
  unfold roundPos
  dsimp only
  split_ifs <;> rfl

/-- A positive quotient rounds to a Number above the tolerance exactly when
it exceeds the tolerance by more than half a unit in its last place, that is
when it is above `9223372036854777 / 2^63`. -/
theorem roundPos_gt_tolerance (s : Bool) {p q : Nat} (hp : 0 < p) (hq : 0 < q) :
    ((roundPos s p q).abs).gt tolerance = true ↔ 9223372036854777 * q < p * 2 ^ 63 := by
  obtain ⟨hl, hu⟩ := ilog2Ratio_spec hp hq
  have hA : -61 ≤ max (ilog2Ratio p q - 52) (-1074) →
      2 ^ 52 * (q * 2 ^ (max (ilog2Ratio p q - 52) (-1074)).toNat) ≤
        p * 2 ^ (-(max (ilog2Ratio p q - 52) (-1074))).toNat ∧ q ≤ p * 2 ^ 9 := by
    intro h
    have he : max (ilog2Ratio p q - 52) (-1074) = ilog2Ratio p q - 52 := by omega
    rw [he]
    generalize ilog2Ratio p q = L at *
    by_cases h52 : 52 ≤ L
    · obtain ⟨k, hk⟩ : ∃ k : Nat, L = (k : Int) + 52 := ⟨(L - 52).toNat, by omega⟩
      subst hk
      have x1 : ((k : Int) + 52).toNat = k + 52 := by omega
      have x2 : (-((k : Int) + 52)).toNat = 0 := by omega
      have x3 : ((k : Int) + 52 - 52).toNat = k := by omega
      have x4 : (-((k : Int) + 52 - 52)).toNat = 0 := by omega
      rw [x1, x2, pow_zero, mul_one] at hl
      rw [x3, x4, pow_zero, mul_one]
      have hpow : 2 ^ 52 * (q * 2 ^ k) = q * 2 ^ (k + 52) := by ring
      have h1 : q * 1 ≤ q * 2 ^ (k + 52) := Nat.mul_le_mul_left _ Nat.one_le_two_pow
      rw [hpow]
      exact ⟨hl, by omega⟩
    · by_cases h0 : 0 ≤ L
      · obtain ⟨k, hk, hk52⟩ : ∃ k : Nat, L = (k : Int) ∧ k < 52 := ⟨L.toNat, by omega, by omega⟩
        subst hk
        have x1 : ((k : Int)).toNat = k := by omega
        have x2 : (-((k : Int))).toNat = 0 := by omega
        have x3 : ((k : Int) - 52).toNat = 0 := by omega
        have x4 : (-((k : Int) - 52)).toNat = 52 - k := by omega
        rw [x1, x2, pow_zero, mul_one] at hl
        rw [x3, x4, pow_zero, mul_one]
        have hpow : q * 2 ^ k * 2 ^ (52 - k) = 2 ^ 52 * q := by
          rw [mul_assoc, ← pow_add, mul_comm]; congr 2; omega
        have h1 := Nat.mul_le_mul_right (2 ^ (52 - k)) hl
        rw [hpow] at h1
        have h2 : q * 1 ≤ q * 2 ^ k := Nat.mul_le_mul_left _ Nat.one_le_two_pow
        exact ⟨h1, by omega⟩
      · obtain ⟨k, hk, hk1, hk9⟩ : ∃ k : Nat, L = -(k : Int) ∧ 1 ≤ k ∧ k ≤ 9 :=
          ⟨(-L).toNat, by omega, by omega, by omega⟩
        subst hk
        have x1 : (-(k : Int)).toNat = 0 := by omega
        have x2 : (-(-(k : Int))).toNat = k := by omega
        have x3 : (-(k : Int) - 52).toNat = 0 := by omega
        have x4 : (-(-(k : Int) - 52)).toNat = k + 52 := by omega
        rw [x1, x2, pow_zero, mul_one] at hl
        rw [x3, x4, pow_zero, mul_one]
        have hpow : p * 2 ^ (k + 52) = p * 2 ^ k * 2 ^ 52 := by ring
        have h1 := Nat.mul_le_mul_right (2 ^ 52) hl
        have h2 : p * 2 ^ k ≤ p * 2 ^ 9 :=
          Nat.mul_le_mul_left _ (Nat.pow_le_pow_right (by decide) hk9)
        rw [hpow]
        exact ⟨by rw [mul_comm]; exact h1, by omega⟩
  have hB : max (ilog2Ratio p q - 52) (-1074) ≤ -63 → p * 2 ^ 10 < q := by
    intro h
    generalize ilog2Ratio p q = L at *
    obtain ⟨k, hk, hk10⟩ : ∃ k : Nat, L + 1 = -(k : Int) ∧ 10 ≤ k :=
      ⟨(-(L + 1)).toNat, by omega, by omega⟩
    rw [hk] at hu
    have x1 : (-(-(k : Int))).toNat = k := by omega
    have x2 : (-(k : Int)).toNat = 0 := by omega
    rw [x1, x2, pow_zero, mul_one] at hu
    have h2 : p * 2 ^ 10 ≤ p * 2 ^ k :=
      Nat.mul_le_mul_left _ (Nat.pow_le_pow_right (by decide) hk10)
    omega
  rw [abs_roundPos]
  unfold roundPos
  rw [if_neg (by omega)]
  dsimp only
  exact round_core _ hq hA hB _ rfl

/-! ## The difference of the totals in exact terms -/

theorem scaled_split (s : Bool) (m : Nat) {a b : Int} (ha : 0 ≤ a) (hb : 0 ≤ b) :
    F64.scaled s m (a + b) = F64.scaled s m a * 2 ^ b.toNat := by
  have h : (a + b).toNat = a.toNat + b.toNat := by omega
  unfold F64.scaled
  rw [h, pow_add]
  cases s <;> simp <;> ring

/-- The comparison of the code on two finite Numbers, in terms of their exact
values in units of `2^-1074`. -/
theorem sub_gt_tolerance_iff (st : Bool) (mt : Nat) {et : Int} (sd : Bool) (md : Nat) {ed : Int}
    (het : -1074 ≤ et) (hed : -1074 ≤ ed) :
    (((F64.fin st mt et).sub (F64.fin sd md ed)).abs).gt tolerance = true ↔
      9223372036854777 * 2 ^ 1011 <
        (F64.scaled st mt (et + 1074) - F64.scaled sd md (ed + 1074)).natAbs := by
  have hT : F64.scaled st mt (et + 1074) =
      F64.scaled st mt (et - min et ed) * 2 ^ (min et ed + 1074).toNat := by
    rw [← scaled_split st mt (by omega) (by omega)]
    congr 1
    omega
  have hD : F64.scaled sd md (ed + 1074) =
      F64.scaled sd md (ed - min et ed) * 2 ^ (min et ed + 1074).toNat := by
    rw [← scaled_split sd md (by omega) (by omega)]
    congr 1
    omega
  have hdiff : F64.scaled st mt (et + 1074) - F64.scaled sd md (ed + 1074) =
      (F64.scaled st mt (et - min et ed) + F64.scaled (!sd) md (ed - min et ed)) *
        2 ^ (min et ed + 1074).toNat := by
    rw [hT, hD, scaled_neg]
    ring
  rw [hdiff, Int.natAbs_mul, Int.natAbs_pow]
  have h2 : (2 : Int).natAbs = 2 := rfl
  rw [h2]
  unfold F64.sub F64.neg F64.add
  dsimp only
  generalize F64.scaled st mt (et - min et ed) + F64.scaled (!sd) md (ed - min et ed) = z
  have hlo : -1074 ≤ min et ed := by omega
  generalize min et ed = e at hlo
  by_cases hz : z = 0
  · rw [if_pos hz, hz, not_gt_tolerance_zero, Int.natAbs_zero, zero_mul]
    constructor
    · intro h; exact absurd h (by decide)
    · intro h; exact absurd h (Nat.not_lt_zero _)
  · rw [if_neg hz]
    have hzp : 0 < z.natAbs := Int.natAbs_pos.mpr hz
    rw [roundPos_gt_tolerance _ (Nat.mul_pos hzp (by positivity)) (by positivity)]
    by_cases he : 0 ≤ e
    · obtain ⟨k, rfl⟩ : ∃ k : Nat, e = (k : Int) := ⟨e.toNat, by omega⟩
      have x1 : (-(k : Int)).toNat = 0 := by omega
      have x2 : ((k : Int)).toNat = k := by omega
      have x3 : ((k : Int) + 1074).toNat = k + 1074 := by omega
      rw [x1, x2, x3, pow_zero, mul_one]
      have hr : z.natAbs * 2 ^ (k + 1074) = z.natAbs * 2 ^ k * 2 ^ 63 * 2 ^ 1011 := by ring
      rw [hr]
      exact (Nat.mul_lt_mul_right (by positivity)).symm
    · obtain ⟨a, rfl, ha1, ha2⟩ : ∃ a : Nat, e = -(a : Int) ∧ 1 ≤ a ∧ a ≤ 1074 :=
        ⟨(-e).toNat, by omega, by omega, by omega⟩
      have x1 : (-(-(a : Int))).toNat = a := by omega
      have x2 : (-(a : Int)).toNat = 0 := by omega
      have x3 : (-(a : Int) + 1074).toNat = 1074 - a := by omega
      rw [x1, x2, x3, pow_zero, mul_one]
      have hl : 9223372036854777 * 2 ^ a * 2 ^ (1074 - a) =
          9223372036854777 * 2 ^ 1011 * 2 ^ 63 := by
        rw [mul_assoc, ← pow_add, mul_assoc, ← pow_add]
        congr 2
        omega
      have hr : z.natAbs * 2 ^ 63 * 2 ^ (1074 - a) = z.natAbs * 2 ^ (1074 - a) * 2 ^ 63 := by
        ring
      rw [← Nat.mul_lt_mul_right (show 0 < 2 ^ (1074 - a) by positivity), hl, hr]
      exact Nat.mul_lt_mul_right (by positivity)

/-! ## The exponents of the Numbers of the pipeline -/

theorem roundPos_exponent {s s1 : Bool} {p q m : Nat} {e : Int}
    (h : roundPos s p q = .fin s1 m e) : -1074 ≤ e := by
  rcases roundPos_shape s p q with h1 | ⟨_, h1⟩ | ⟨m1, e1, h1, h2, _⟩
  · rw [h1] at h; simp at h
  · rw [h1] at h
    injection h with _ _ h3
    omega
  · rw [h1] at h
    injection h with _ _ h3
    omega

theorem add_exponent {a b : F64} {s : Bool} {m : Nat} {e : Int} (h : a.add b = .fin s m e) :
    -1074 ≤ e := by
  cases a with
  | nan => simp [F64.add] at h
  | inf sa =>
    cases b with
    | nan => simp [F64.add] at h
    | inf sb =>
      simp only [F64.add] at h
      split_ifs at h
    | fin sb mb eb => simp [F64.add] at h
  | fin sa ma ea =>
    cases b with
    | nan => simp [F64.add] at h
    | inf sb => simp [F64.add] at h
    | fin sb mb eb =>
      simp only [F64.add] at h
      split_ifs at h
      · injection h with _ _ h3
        omega
      · exact roundPos_exponent h

theorem parseFloat_exponent {x : Str} {s : Bool} {m : Nat} {e : Int}
    (h : parseFloat x = .fin s m e) : -1074 ≤ e := by
  unfold parseFloat at h
  rcases hl : strDecimalLiteral x with _ | ⟨sg⟩ | ⟨sg, d, k⟩
  · rw [hl] at h; simp at h
  · rw [hl] at h; simp at h
  · rw [hl] at h
    exact roundPos_exponent h

theorem floatSum_exponent (rows : List (Str × Str)) (acc : F64)
    (hacc : ∀ s m e, acc = .fin s m e → -1074 ≤ e) :
    ∀ s m e, floatSum acc rows = .fin s m e → -1074 ≤ e := by
  induction rows generalizing acc with
  | nil => exact hacc
  | cons row rows ih =>
    rw [floatSum_cons]
    apply ih
    intro s m e h
    by_cases hm : inMainGroup (parseInt row.1) = true
    · rw [if_pos hm] at h
      exact add_exponent h
    · rw [if_neg hm] at h
      exact hacc s m e h

/-- The totals that reach the comparison: the declared total is the Number
read from the fourth control field, not `NaN`, the calculated total is the
running sum over the useful lines, and both have exponents in range. -/
theorem checks_ok_totals {n c : Str} {d t : F64} {g : GroupSubtotals}
    (h : checksBeforeReconciliation n c = .ok (d, t, g)) :
    d ≠ .nan ∧ (∀ s m e, d = .fin s m e → -1074 ≤ e) ∧ (∀ s m e, t = .fin s m e → -1074 ≤ e) := by
  obtain ⟨useful, hb, hl⟩ := (checks_ok_iff_loop n c d t g).mp h
  obtain ⟨_, _, _, _, _, _, _, hnan, _, hd, _⟩ := (beforeLoop_ok_iff n c d useful).mp hb
  obtain ⟨ht, _⟩ := processLines_running_sums hl
  refine ⟨?_, ?_, ?_⟩
  · intro h0
    rw [← hd, h0] at hnan
    simp [F64.isNaN] at hnan
  · intro s m e he
    rw [hd] at he
    exact parseFloat_exponent he
  · intro s m e he
    rw [ht] at he
    refine floatSum_exponent _ _ ?_ s m e he
    intro s1 m1 e1 h1
    exact roundPos_exponent h1

/-! ## The claim on the tolerance -/

theorem reconcile_nonfinite {d t : F64} (hd : d ≠ .nan)
    (hu : d.units = none ∨ t.units = none) :
    ((t.sub d).abs).gt tolerance = false ↔ (t = .nan ∨ ∃ s, t = .inf s ∧ d = .inf s) := by
  rw [tolerance_eq]
  cases d with
  | nan => exact absurd rfl hd
  | inf sd =>
    cases t with
    | nan => simp [F64.sub, F64.neg, F64.add, F64.abs, F64.gt, F64.lt]
    | inf st =>
      cases sd <;> cases st <;> simp [F64.sub, F64.neg, F64.add, F64.abs, F64.gt, F64.lt]
    | fin st mt et => simp [F64.sub, F64.neg, F64.add, F64.abs, F64.gt, F64.lt]
  | fin sd md ed =>
    cases t with
    | nan => simp [F64.sub, F64.neg, F64.add, F64.abs, F64.gt, F64.lt]
    | inf st => simp [F64.sub, F64.neg, F64.add, F64.abs, F64.gt, F64.lt]
    | fin st mt et => simp [F64.units] at hu

/-- C5 as stated fails: the file with the declared total `100` and the single
amount `100.001` passes every earlier check and its two totals, as written,
differ by exactly `0.001`, yet the reconciliation failure is displayed (the
Number read from `100.001` exceeds `100` by more than the Number `0.001`); and
the file with the declared total `4503599627370496` and the amount
`4503599627370496.0011`, which differ by `0.0011` as written, is accepted (the
amount reads as `4503599627370496`). -/
theorem decimal_difference_misjudged :
    checksBeforeReconciliation "TVWXYB120012024.txt".toList
        "TVWXY\t20/01/2024\t1\t100\n1\t100.001".toList =
      .ok (parseFloat "100".toList, parseFloat "100.001".toList,
        ⟨parseFloat "100.001".toList, F64.ofNat 0, F64.ofNat 0, F64.ofNat 0, F64.ofNat 0⟩) ∧
    exactSum [("1".toList, "100.001".toList)] - exactValue "100".toList = 1 / 1000 ∧
    validateFile "TVWXYB120012024.txt".toList
        "TVWXY\t20/01/2024\t1\t100\n1\t100.001".toList =
      .failure (.totalReconciliationMismatch
        [("Total Declarado", "100.00".toList), ("Suma Calculada", "100.00".toList),
         ("Diferencia", "0.00".toList), ("Subtotal Grupo 1", "100.00".toList),
         ("Subtotal Grupo 2", "0.00".toList), ("Subtotal Grupo 3", "0.00".toList),
         ("Subtotal Grupo 4", "0.00".toList), ("Subtotal Grupo 5", "0.00".toList)]) ∧
    checksBeforeReconciliation "TVWXYB120012024.txt".toList
        "TVWXY\t20/01/2024\t1\t4503599627370496\n1\t4503599627370496.0011".toList =
      .ok (F64.ofNat 4503599627370496, F64.ofNat 4503599627370496,
        ⟨F64.ofNat 4503599627370496, F64.ofNat 0, F64.ofNat 0, F64.ofNat 0, F64.ofNat 0⟩) ∧
    exactSum [("1".toList, "4503599627370496.0011".toList)] -
        exactValue "4503599627370496".toList = 11 / 10000 ∧
    validateFile "TVWXYB120012024.txt".toList
        "TVWXY\t20/01/2024\t1\t4503599627370496\n1\t4503599627370496.0011".toList =
      .success := by
  refine ⟨by decide!, by decide!, by decide!, by decide!, by decide!, by decide!⟩

/-- C5, amended: after the earlier checks have passed, the two totals
compared are binary64 Numbers, the one read from the declared-total field and
the running sum. When both are finite, with exact values `D` and `T` in units
of `2^-1074`, the file is accepted exactly when `|T - D|` is at most the
Number `0.001` plus half a unit in its last place (`2^-63`), and the
reconciliation failure is displayed otherwise, whichever total is the larger.
When a total is not finite, the file is accepted exactly when the calculated
total is `NaN` or both totals are the same infinity. -/
theorem tolerance_boundary (n c : Str) (d t : F64) (g : GroupSubtotals)
    (h : checksBeforeReconciliation n c = .ok (d, t, g)) :
    tolerance.units = some (4611686018427388 * 2 ^ 1012) ∧
    (∀ D T : Int, d.units = some D → t.units = some T →
      (validateFile n c = .success ↔
        (T - D).natAbs ≤ 4611686018427388 * 2 ^ 1012 + 2 ^ 1011) ∧
      (validateFile n c = .failure (.totalReconciliationMismatch (details d t g)) ↔
        4611686018427388 * 2 ^ 1012 + 2 ^ 1011 < (T - D).natAbs)) ∧
    ((d.units = none ∨ t.units = none) →
      (validateFile n c = .success ↔ (t = .nan ∨ ∃ s, t = .inf s ∧ d = .inf s)) ∧
      (validateFile n c = .failure (.totalReconciliationMismatch (details d t g)) ↔
        ¬ (t = .nan ∨ ∃ s, t = .inf s ∧ d = .inf s))) := by
  obtain ⟨hdn, hde, hte⟩ := checks_ok_totals h
  have hbound : 4611686018427388 * 2 ^ 1012 + 2 ^ 1011 = 9223372036854777 * 2 ^ 1011 := by
    decide!
  rw [validateFile_of_checks_ok h, hbound]
  refine ⟨by decide!, ?_, ?_⟩
  · intro D T hd ht
    cases d with
    | nan => simp [F64.units] at hd
    | inf sd => simp [F64.units] at hd
    | fin sd md ed =>
      cases t with
      | nan => simp [F64.units] at ht
      | inf st => simp [F64.units] at ht
      | fin st mt et =>
        simp only [F64.units, Option.some.injEq] at hd ht
        have key := sub_gt_tolerance_iff st mt sd md (hte _ _ _ rfl) (hde _ _ _ rfl)
        rw [hd, ht] at key
        rw [reconcile_success_iff, reconcile_failure_iff]
        refine ⟨?_, key⟩
        rw [← Nat.not_lt, ← key, Bool.not_eq_true]
  · intro hu
    have key := reconcile_nonfinite hdn hu
    rw [reconcile_success_iff, reconcile_failure_iff, key]
    refine ⟨Iff.rfl, ?_⟩
    rw [← key]
    cases ((t.sub d).abs).gt tolerance <;> simp

theorem tolerance_boundary_witness :
    validateFile "TVWXYB120012024.txt".toList "TVWXY\t20/01/2024\t1\t0\n1\t0.001".toList =
        .success ∧
      validateFile "TVWXYB120012024.txt".toList "TVWXY\t20/01/2024\t1\t0.001\n1\t0".toList =
        .success ∧
      validateFile "TVWXYB120012024.txt".toList "TVWXY\t20/01/2024\t1\t0\n1\t0.0009".toList =
        .success ∧
      validateFile "TVWXYB120012024.txt".toList "TVWXY\t20/01/2024\t1\t0\n1\t0.0011".toList =
        .failure (.totalReconciliationMismatch
          (details (F64.ofNat 0) (parseFloat "0.0011".toList)
            ⟨parseFloat "0.0011".toList, F64.ofNat 0, F64.ofNat 0, F64.ofNat 0, F64.ofNat 0⟩)) ∧
      validateFile "TVWXYB120012024.txt".toList "TVWXY\t20/01/2024\t1\t0.0011\n1\t0".toList =
        .failure (.totalReconciliationMismatch
          (details (parseFloat "0.0011".toList) (F64.ofNat 0)
            ⟨F64.ofNat 0, F64.ofNat 0, F64.ofNat 0, F64.ofNat 0, F64.ofNat 0⟩)) :=
  ⟨((tolerance_boundary "TVWXYB120012024.txt".toList
      "TVWXY\t20/01/2024\t1\t0\n1\t0.001".toList (F64.ofNat 0) (parseFloat "0.001".toList)
      ⟨parseFloat "0.001".toList, F64.ofNat 0, F64.ofNat 0, F64.ofNat 0, F64.ofNat 0⟩
      (by decide!)).2.1 0 (4611686018427388 * 2 ^ 1012) (by decide!) (by decide!)).1.mpr
      (by decide!),
   ((tolerance_boundary "TVWXYB120012024.txt".toList
      "TVWXY\t20/01/2024\t1\t0.001\n1\t0".toList (parseFloat "0.001".toList) (F64.ofNat 0)
      ⟨F64.ofNat 0, F64.ofNat 0, F64.ofNat 0, F64.ofNat 0, F64.ofNat 0⟩
      (by decide!)).2.1 (4611686018427388 * 2 ^ 1012) 0 (by decide!) (by decide!)).1.mpr
      (by decide!),
   ((tolerance_boundary "TVWXYB120012024.txt".toList
      "TVWXY\t20/01/2024\t1\t0\n1\t0.0009".toList (F64.ofNat 0) (parseFloat "0.0009".toList)
      ⟨parseFloat "0.0009".toList, F64.ofNat 0, F64.ofNat 0, F64.ofNat 0, F64.ofNat 0⟩
      (by decide!)).2.1 0 (8301034833169298 * 2 ^ 1011) (by decide!) (by decide!)).1.mpr
      (by decide!),
   ((tolerance_boundary "TVWXYB120012024.txt".toList
      "TVWXY\t20/01/2024\t1\t0\n1\t0.0011".toList (F64.ofNat 0) (parseFloat "0.0011".toList)
      ⟨parseFloat "0.0011".toList, F64.ofNat 0, F64.ofNat 0, F64.ofNat 0, F64.ofNat 0⟩
      (by decide!)).2.1 0 (5072854620270127 * 2 ^ 1012) (by decide!) (by decide!)).2.mpr
      (by decide!),
   ((tolerance_boundary "TVWXYB120012024.txt".toList
      "TVWXY\t20/01/2024\t1\t0.0011\n1\t0".toList (parseFloat "0.0011".toList) (F64.ofNat 0)
      ⟨F64.ofNat 0, F64.ofNat 0, F64.ofNat 0, F64.ofNat 0, F64.ofNat 0⟩
      (by decide!)).2.1 (5072854620270127 * 2 ^ 1012) 0 (by decide!) (by decide!)).2.mpr
      (by decide!)⟩

/-! ## The claim on exceptions -/

/-- C12: `validateFile` never throws and always displays a result. With every
read that can give `undefined` kept as in the source (`lines[0]`,
`lines[lines.length - 1]`, the destructured control fields, `usefulLines[i]`,
`parts[0]`, `parts[1]`, `groupSubtotals[k]`) and every method call on
`undefined` a `TypeError`, the function ends without exception, by displaying
success or a failure, the one that the embedding with default values
computes; and each of these reads is defined where the function makes it. -/
theorem validate_total (fileName content : Str) :
    validateFileStrict fileName content = .ok (validateFile fileName content) ∧
      (∀ e, validateFileStrict fileName content ≠ .error e) ∧
      (validateFileStrict fileName content = .ok .success ∨
        ∃ f, validateFileStrict fileName content = .ok (.failure f)) ∧
      (∃ first, (splitLines content)[0]? = some first) ∧
      (∃ last, (splitLines content)[(splitLines content).length - 1]? = some last) ∧
      (∀ line : Str, (splitTab line).length = 4 →
        ∃ controlCode cutOffDate declaredRowsStr declaredTotalStr,
          (splitTab line)[0]? = some controlCode ∧ (splitTab line)[1]? = some cutOffDate ∧
          (splitTab line)[2]? = some declaredRowsStr ∧
          (splitTab line)[3]? = some declaredTotalStr) ∧
      (∀ line : Str, '\t' ∈ line →
        ∃ p0 p1, (splitTab line)[0]? = some p0 ∧ (splitTab line)[1]? = some p1) ∧
      (∀ (gs : GroupSubtotals) (k : Nat), 1 ≤ k → k ≤ 5 → ∃ x, gs.read k = some x) := by
  have hs := validateFileStrict_eq fileName content
  refine ⟨hs, ?_, ?_, ?_, ?_, ?_, ?_, ?_⟩
  · intro e he
    rw [hs] at he
    exact absurd he (by simp)
  · rw [hs]
    cases validateFile fileName content with
    | success => exact Or.inl rfl
    | failure f => exact Or.inr ⟨f, rfl⟩
  · rcases h : splitLines content with _ | ⟨a, rest⟩
    · exact absurd h (splitLines_ne_nil content)
    · exact ⟨a, List.getElem?_cons_zero⟩
  · rw [← List.getLast?_eq_getElem?]
    exact ⟨_, List.getLast?_eq_getLast _ (splitLines_ne_nil content)⟩
  · intro line h
    exact ⟨_, _, _, _, getElem?_of_getD_lt (by omega), getElem?_of_getD_lt (by omega),
      getElem?_of_getD_lt (by omega), getElem?_of_getD_lt (by omega)⟩
  · intro line h
    have := two_le_length_splitTab h
    exact ⟨_, _, getElem?_of_getD_lt (by omega), getElem?_of_getD_lt (by omega)⟩
  · intro gs k h1 h5
    unfold GroupSubtotals.read
    interval_cases k <;> simp

end Taller5
